import Mathlib

/-!
Shallow embedding of the guillotine-based 2D bin-packing optimizer
(`expandPieces`, `findBestFit`, `findBestFitPoignet`, `splitRectangle`,
`removeOverlappingFreeRects`, `mergeRectangles`, `filterSmallRectangles`,
`tryPlaceInExistingPanel`, `optimizeSinglePanel`, `optimize`), together with
theorems settling the specification claims about it.

Numbers are modelled as exact integers (the inputs are millimetre integers).
The placement score `y*100000 + x*100 + leftoverArea/1000` is represented by
its exact 1000-fold multiple, an integer; the rational-valued formula is also
defined (`scoreQ`) and proved order-isomorphic to the scaled representation,
so every comparison made by the algorithm coincides with a comparison of the
exact rational scores.
-/

namespace Cutting

/-- A rectangle with position and dimensions (class `Rectangle`). -/
structure Rectangle where
  x : Int
  y : Int
  width : Int
  height : Int
deriving DecidableEq

/-- `Rectangle.getArea`. -/
def Rectangle.getArea (r : Rectangle) : Int := r.width * r.height

/-- `Rectangle.canContain`: this rectangle can contain a `width × height` piece. -/
def Rectangle.canContain (r : Rectangle) (width height : Int) : Bool :=
  decide (width ≤ r.width) && decide (height ≤ r.height)

/-- `Rectangle.overlaps`: strict interior overlap (sharing an edge is not overlap). -/
def Rectangle.overlaps (a b : Rectangle) : Bool :=
  !(decide (a.x + a.width ≤ b.x) || decide (b.x + b.width ≤ a.x) ||
    decide (a.y + a.height ≤ b.y) || decide (b.y + b.height ≤ a.y))

/-- An expanded piece to be placed (class `Piece`, with the `pieceTypeId`
field the driver attaches after construction; the string id `piece-${n}`
is represented by the ordinal `n`). -/
structure Piece where
  width : Int
  height : Int
  id : Nat
  rotationAllowed : Bool
  pieceTypeId : Int
deriving DecidableEq

/-- `Piece.getArea`. -/
def Piece.getArea (p : Piece) : Int := p.width * p.height

/-- A committed placement (class `PlacedRectangle`). -/
structure PlacedRectangle where
  x : Int
  y : Int
  width : Int
  height : Int
  pieceId : Nat
  pieceTypeId : Int
  rotated : Bool
  panelIndex : Nat
deriving DecidableEq

/-- `PlacedRectangle.getArea`. -/
def PlacedRectangle.getArea (p : PlacedRectangle) : Int := p.width * p.height

/-- The geometric footprint of a placement (`new Rectangle(p.x, p.y, p.width, p.height)`). -/
def rectOfPlaced (p : PlacedRectangle) : Rectangle :=
  ⟨p.x, p.y, p.width, p.height⟩

/-- One input piece type `{id, width, height, quantity, rotationAllowed}`. -/
structure PieceType where
  id : Int
  width : Int
  height : Int
  quantity : Int
  rotationAllowed : Bool
deriving DecidableEq

/-- Helper for `expandPieces`: expands the list while threading the running id. -/
def expandPiecesGo : List PieceType → Nat → List Piece
  | [], _ => []
  | pt :: rest, iden =>
      (List.range pt.quantity.toNat).map
        (fun i => ⟨pt.width, pt.height, iden + i, pt.rotationAllowed, pt.id⟩) ++
      expandPiecesGo rest (iden + pt.quantity.toNat)

/-- `expandPieces`: expand piece types with quantities into individual pieces
 with globally increasing ids (a `for i < quantity` loop runs `max(quantity,0)` times). -/
def expandPieces (pieces : List PieceType) : List Piece :=
  expandPiecesGo pieces 0

/-- Stable insertion of a piece into a list sorted by descending area: the piece
goes after every element of area greater than or equal to its own. -/
def insertByArea : List Piece → Piece → List Piece
  | [], p => [p]
  | q :: rest, p =>
      if p.getArea ≤ q.getArea then q :: insertByArea rest p
      else p :: q :: rest

/-- `sortPiecesByArea`: stable sort by descending area (the source uses the
stable `Array.prototype.sort` with comparator `b.getArea() - a.getArea()`;
stable insertion sort realises the same order). -/
def sortPiecesByArea (pieces : List Piece) : List Piece :=
  pieces.foldl insertByArea []

/-- Scaled placement score: exactly `1000 * (y*100000 + x*100 + leftoverArea/1000)`.
The source compares the rational value; comparisons of the 1000-fold multiple
agree with it (see `scoreQ_lt_iff`). -/
def positionScore (r : Rectangle) (width height : Int) : Int :=
  r.y * 100000000 + r.x * 100000 + (r.getArea - width * height)

/-- The literal rational score `y*100000 + x*100 + leftoverArea/1000` from the source. -/
def scoreQ (r : Rectangle) (width height : Int) : ℚ :=
  (r.y : ℚ) * 100000 + (r.x : ℚ) * 100 + ((r.getArea - width * height : ℤ) : ℚ) / 1000

/-- Row tag for edge-aligned (poignet) fits. -/
inductive Row where
  | top : Row
  | bottom : Row
deriving DecidableEq

/-- A chooser result `{rect, score, row, sourceRect}`; `findBestFit` leaves
`row` and `sourceRect` absent, `findBestFitPoignet` sets both. -/
structure Fit where
  rect : Rectangle
  score : Int
  row : Option Row
  sourceRect : Option Rectangle
deriving DecidableEq

/-- `if (positionScore < bestScore) update` with `bestScore` initially infinite. -/
def better (cand : Fit) (best : Option Fit) : Option Fit :=
  match best with
  | none => some cand
  | some b => if cand.score < b.score then some cand else some b

/-- Loop body of `findBestFit`. -/
def bestFitStep (width height : Int) (best : Option Fit) (rect : Rectangle) : Option Fit :=
  if rect.canContain width height then
    better ⟨rect, positionScore rect width height, none, none⟩ best
  else best

/-- `findBestFit`: Bottom-Left Best-Fit chooser over the free rectangles. -/
def findBestFit (freeRects : List Rectangle) (width height : Int) : Option Fit :=
  freeRects.foldl (bestFitStep width height) none

/-- Top-row loop body of `findBestFitPoignet` (`topRowY = 0`). Scores are the
1000-fold multiples of the source's `topRowX*100 + leftover/1000` and
`10000 + placeX*100 + leftover/1000`. -/
def poignetTopStep (width height panelWidth topRowX : Int)
    (best : Option Fit) (rect : Rectangle) : Option Fit :=
  let coversTopRow := decide (rect.y ≤ 0) && decide (0 + height ≤ rect.y + rect.height)
  if coversTopRow && rect.canContain width height then
    if decide (rect.x ≤ topRowX) && decide (topRowX + width ≤ rect.x + rect.width) then
      better ⟨⟨topRowX, 0, width, height⟩,
              topRowX * 100000 + (rect.getArea - width * height),
              some Row.top, some rect⟩ best
    else if decide (rect.x + width ≤ panelWidth) then
      let placeX := max rect.x topRowX
      if decide (placeX + width ≤ rect.x + rect.width) && decide (placeX + width ≤ panelWidth) then
        better ⟨⟨placeX, 0, width, height⟩,
                10000000 + placeX * 100000 + (rect.getArea - width * height),
                some Row.top, some rect⟩ best
      else best
    else best
  else best

/-- Bottom-row loop body of `findBestFitPoignet` (`bottomRowY = panelHeight - height`).
Scores are the 1000-fold multiples of `100000 + x*100 + leftover/1000` and
`110000 + x*100 + leftover/1000`. -/
def poignetBottomStep (width height panelHeight panelWidth bottomRowX : Int)
    (best : Option Fit) (rect : Rectangle) : Option Fit :=
  let bottomRowY := panelHeight - height
  let coversBottomRow := decide (rect.y ≤ bottomRowY) &&
    decide (bottomRowY + height ≤ rect.y + rect.height)
  if coversBottomRow && rect.canContain width height then
    if decide (rect.x ≤ bottomRowX) && decide (bottomRowX + width ≤ rect.x + rect.width) then
      better ⟨⟨bottomRowX, bottomRowY, width, height⟩,
              100000000 + bottomRowX * 100000 + (rect.getArea - width * height),
              some Row.bottom, some rect⟩ best
    else if decide (rect.x + width ≤ panelWidth) then
      let placeX := max rect.x bottomRowX
      if decide (placeX + width ≤ rect.x + rect.width) && decide (placeX + width ≤ panelWidth) then
        better ⟨⟨placeX, bottomRowY, width, height⟩,
                110000000 + placeX * 100000 + (rect.getArea - width * height),
                some Row.bottom, some rect⟩ best
      else best
    else best
  else best

/-- `findBestFitPoignet`: edge-aligned chooser; the top row is scanned first,
the bottom row only when no top-row candidate was found. -/
def findBestFitPoignet (freeRects : List Rectangle)
    (width height panelHeight topRowX bottomRowX panelWidth : Int) : Option Fit :=
  if decide (panelHeight < height) then none
  else if decide (panelWidth < width) then none
  else
    let topBest :=
      if decide (topRowX + width ≤ panelWidth) then
        freeRects.foldl (poignetTopStep width height panelWidth topRowX) none
      else none
    match topBest with
    | some b => some b
    | none =>
        if decide (bottomRowX + width ≤ panelWidth) then
          freeRects.foldl (poignetBottomStep width height panelHeight panelWidth bottomRowX) none
        else none

/-- The lexicographic key `(y, x, leftover_area)` of a candidate rectangle. -/
def lexKey (r : Rectangle) (width height : Int) : Int × Int × Int :=
  (r.y, r.x, r.getArea - width * height)

/-- Strict lexicographic order on `(y, x, leftover_area)` keys. -/
def lexLess (a b : Int × Int × Int) : Bool :=
  decide (a.1 < b.1) ||
    (decide (a.1 = b.1) &&
      (decide (a.2.1 < b.2.1) || (decide (a.2.1 = b.2.1) && decide (a.2.2 < b.2.2))))

/-- Modelled from the spec: the alternative free-mode chooser using a literal
lexicographic comparison on `(y, x, leftover_area)` with first-encounter
tie-break, which the spec mandates to be interchangeable with the
coefficient-weighted score of `findBestFit`. -/
def findBestFitLex (freeRects : List Rectangle) (width height : Int) : Option Rectangle :=
  freeRects.foldl
    (fun best rect =>
      if rect.canContain width height then
        match best with
        | none => some rect
        | some b =>
            if lexLess (lexKey rect width height) (lexKey b width height) then some rect
            else some b
      else best)
    none

/-- Loop body of `findBestFitLex` as a named function (definitionally the
same step the fold of `findBestFitLex` performs). -/
def lexStep (width height : Int) (best : Option Rectangle) (rect : Rectangle) :
    Option Rectangle :=
  if rect.canContain width height then
    match best with
    | none => some rect
    | some b =>
        if lexLess (lexKey rect width height) (lexKey b width height) then some rect
        else some b
  else best

/-- `splitRectangle`: vertical-first guillotine split of a used free rectangle
around a placed piece; each residual is kept only when one of its dimensions
reaches `minWasteSize`. -/
def splitRectangle (freeRect : Rectangle)
    (placedX placedY placedWidth placedHeight minWasteSize : Int) : List Rectangle :=
  let rightWidth := freeRect.x + freeRect.width - (placedX + placedWidth)
  let bottomHeight := freeRect.y + freeRect.height - (placedY + placedHeight)
  let leftWidth := placedX - freeRect.x
  (if decide (0 < rightWidth) && decide (0 < freeRect.height) &&
      (decide (minWasteSize ≤ rightWidth) || decide (minWasteSize ≤ freeRect.height)) then
    [⟨placedX + placedWidth, freeRect.y, rightWidth, freeRect.height⟩]
  else []) ++
  (if decide (0 < bottomHeight) && decide (0 < placedWidth) &&
      (decide (minWasteSize ≤ placedWidth) || decide (minWasteSize ≤ bottomHeight)) then
    [⟨placedX, placedY + placedHeight, placedWidth, bottomHeight⟩]
  else []) ++
  (if decide (0 < leftWidth) && decide (0 < bottomHeight) &&
      (decide (minWasteSize ≤ leftWidth) || decide (minWasteSize ≤ bottomHeight)) then
    [⟨freeRect.x, placedY + placedHeight, leftWidth, bottomHeight⟩]
  else [])

/-- `isUsefulSize` helper of `removeOverlappingFreeRects`. -/
def isUsefulSize (minWasteSize width height : Int) : Bool :=
  decide (minWasteSize ≤ width) && decide (minWasteSize ≤ height)

/-- The residual strips of a free rectangle that overlaps the placed piece:
left, right, top and bottom portions (pushed in this order), each kept only
when it reaches the minimum useful size. -/
def residualsOfOverlap (freeRect : Rectangle) (placedRect : PlacedRectangle)
    (minWasteSize : Int) : List Rectangle :=
  let leftWidth := placedRect.x - freeRect.x
  let rightX := placedRect.x + placedRect.width
  let rightWidth := freeRect.x + freeRect.width - rightX
  let topHeight := placedRect.y - freeRect.y
  let bottomY := placedRect.y + placedRect.height
  let bottomHeight := freeRect.y + freeRect.height - bottomY
  (if decide (freeRect.x < placedRect.x) &&
      isUsefulSize minWasteSize leftWidth freeRect.height then
    [⟨freeRect.x, freeRect.y, leftWidth, freeRect.height⟩]
  else []) ++
  (if decide (rightX < freeRect.x + freeRect.width) &&
      isUsefulSize minWasteSize rightWidth freeRect.height then
    [⟨rightX, freeRect.y, rightWidth, freeRect.height⟩]
  else []) ++
  (if decide (freeRect.y < placedRect.y) &&
      isUsefulSize minWasteSize freeRect.width topHeight then
    [⟨freeRect.x, freeRect.y, freeRect.width, topHeight⟩]
  else []) ++
  (if decide (bottomY < freeRect.y + freeRect.height) &&
      isUsefulSize minWasteSize freeRect.width bottomHeight then
    [⟨freeRect.x, bottomY, freeRect.width, bottomHeight⟩]
  else [])

/-- `removeOverlappingFreeRects`: replace every free rectangle overlapping the
placed piece by its (up to four) residual strips, dropping anything below the
minimum useful size. -/
def removeOverlappingFreeRects (freeRects : List Rectangle)
    (placedRect : PlacedRectangle) (minWasteSize : Int) : List Rectangle :=
  let pObj := rectOfPlaced placedRect
  freeRects.foldl
    (fun result freeRect =>
      if !(freeRect.overlaps pObj) then
        if isUsefulSize minWasteSize freeRect.width freeRect.height then result ++ [freeRect]
        else result
      else result ++ residualsOfOverlap freeRect placedRect minWasteSize)
    []

/-- Two rectangles merge horizontally: same height, same y, adjoining on x. -/
def canMergeH (a b : Rectangle) : Bool :=
  decide (a.height = b.height) && decide (a.y = b.y) &&
    (decide (a.x + a.width = b.x) || decide (b.x + b.width = a.x))

/-- Horizontal merge result. -/
def mergeH (a b : Rectangle) : Rectangle :=
  let minX := min a.x b.x
  let maxX := max (a.x + a.width) (b.x + b.width)
  ⟨minX, a.y, maxX - minX, a.height⟩

/-- Two rectangles merge vertically: same width, same x, adjoining on y. -/
def canMergeV (a b : Rectangle) : Bool :=
  decide (a.width = b.width) && decide (a.x = b.x) &&
    (decide (a.y + a.height = b.y) || decide (b.y + b.height = a.y))

/-- Vertical merge result. -/
def mergeV (a b : Rectangle) : Rectangle :=
  let minY := min a.y b.y
  let maxY := max (a.y + a.height) (b.y + b.height)
  ⟨a.x, minY, a.width, maxY - minY⟩

/-- One inner `for j` sweep of `mergeRectangles`: scan the not-yet-used
rectangles in order, absorbing each mergeable one into the accumulator. -/
def mergeSweep (current : Rectangle) : List Rectangle → Rectangle × List Rectangle × Bool
  | [] => (current, [], false)
  | r :: rest =>
      if canMergeH current r then
        let (c, rest2, _) := mergeSweep (mergeH current r) rest
        (c, rest2, true)
      else if canMergeV current r then
        let (c, rest2, _) := mergeSweep (mergeV current r) rest
        (c, rest2, true)
      else
        let (c, rest2, b) := mergeSweep current rest
        (c, r :: rest2, b)

/-- The `while (mergedAny)` loop around the inner sweep; each productive sweep
removes at least one rectangle, so `rest.length + 1` sweeps always suffice. -/
def mergeFix : Nat → Rectangle → List Rectangle → Rectangle × List Rectangle
  | 0, current, rest => (current, rest)
  | fuel + 1, current, rest =>
      match mergeSweep current rest with
      | (c, rest2, true) => mergeFix fuel c rest2
      | (c, rest2, false) => (c, rest2)

/-- Fueled outer loop of `mergeRectangles`; the fuel only bounds recursion and
never runs out when it starts at the list length. -/
def mergeRectanglesAux : Nat → List Rectangle → List Rectangle
  | 0, l => l
  | _ + 1, [] => []
  | fuel + 1, r :: rs =>
      let (c, rest) := mergeFix (rs.length + 1) r rs
      c :: mergeRectanglesAux fuel rest

/-- `mergeRectangles`: greedy fixpoint merging of colinear adjacent free rectangles. -/
def mergeRectangles (freeRects : List Rectangle) : List Rectangle :=
  mergeRectanglesAux freeRects.length freeRects

/-- `filterSmallRectangles`: drop any rectangle with a dimension below `minWasteSize`. -/
def filterSmallRectangles (freeRects : List Rectangle) (minWasteSize : Int) : List Rectangle :=
  freeRects.filter (fun rect =>
    decide (minWasteSize ≤ rect.width) && decide (minWasteSize ≤ rect.height))

/-- The `if (fitOriginal && fitRotated) ... ` orientation selection shared by
`optimizeSinglePanel` and `tryPlaceInExistingPanel`; `true` marks the rotated
orientation; on equal scores the non-rotated fit wins. -/
def chooseFit (fitOriginal fitRotated : Option Fit) : Option (Fit × Bool) :=
  match fitOriginal, fitRotated with
  | some o, some r => if r.score < o.score then some (r, true) else some (o, false)
  | some o, none => some (o, false)
  | none, some r => some (r, true)
  | none, none => none

/-- The placement attempt for one piece, shared by `optimizeSinglePanel` and
`tryPlaceInExistingPanel` (the source duplicates this block verbatim in both):
run the mode-appropriate chooser on both allowed orientations, select the
better fit, apply the poignet row override to the position and cursors, and
identify the used free rectangle (`sourceRect` in poignet mode, the chosen
rectangle itself otherwise). Returns the placement, the used free rectangle
and the updated row cursors, or `none` when nothing fits. -/
def attemptPlacement (panelWidth panelHeight : Int) (poignetEnabled : Bool) (panelIndex : Nat)
    (freeRects : List Rectangle) (topRowX bottomRowX : Int) (piece : Piece) :
    Option (PlacedRectangle × Rectangle × Int × Int) :=
  let fitOriginal :=
    if poignetEnabled then
      findBestFitPoignet freeRects piece.width piece.height panelHeight topRowX bottomRowX panelWidth
    else findBestFit freeRects piece.width piece.height
  let fitRotated :=
    if piece.rotationAllowed then
      if poignetEnabled then
        findBestFitPoignet freeRects piece.height piece.width panelHeight topRowX bottomRowX panelWidth
      else findBestFit freeRects piece.height piece.width
    else none
  match chooseFit fitOriginal fitRotated with
  | none => none
  | some (bestFit, useRotated) =>
      let finalWidth := if useRotated then piece.height else piece.width
      let finalHeight := if useRotated then piece.width else piece.height
      let pos :=
        if poignetEnabled then
          match bestFit.row with
          | some Row.top =>
              (bestFit.rect.x, (0 : Int), max topRowX (bestFit.rect.x + finalWidth), bottomRowX)
          | some Row.bottom =>
              (bestFit.rect.x, panelHeight - finalHeight, topRowX,
               max bottomRowX (bestFit.rect.x + finalWidth))
          | none => (bestFit.rect.x, bestFit.rect.y, topRowX, bottomRowX)
        else (bestFit.rect.x, bestFit.rect.y, topRowX, bottomRowX)
      let usedFreeRect := bestFit.sourceRect.getD bestFit.rect
      some (⟨pos.1, pos.2.1, finalWidth, finalHeight, piece.id, piece.pieceTypeId,
             useRotated, panelIndex⟩,
            usedFreeRect, pos.2.2.1, pos.2.2.2)

/-- State threaded through the placement loops of a single panel. -/
structure PanelState where
  freeRects : List Rectangle
  placed : List PlacedRectangle
  remaining : List Piece
  topRowX : Int
  bottomRowX : Int
deriving DecidableEq

/-- Loop body of `optimizeSinglePanel`. In normal mode the used free rectangle
is removed (`indexOf`/`splice`; the chooser always returns the first
occurrence of its value, so erasing the first equal element is exact), the
guillotine splits are pushed, overlaps with the new placement subtracted, then
merge and filter. In poignet mode only subtract, merge and filter run. -/
def singlePanelStep (panelWidth panelHeight minWasteSize : Int) (poignetEnabled : Bool)
    (panelIndex : Nat) (st : PanelState) (piece : Piece) : PanelState :=
  match attemptPlacement panelWidth panelHeight poignetEnabled panelIndex
      st.freeRects st.topRowX st.bottomRowX piece with
  | none => { st with remaining := st.remaining ++ [piece] }
  | some (placedRect, usedFreeRect, topRowX2, bottomRowX2) =>
      if poignetEnabled then
        let fr1 := removeOverlappingFreeRects st.freeRects placedRect minWasteSize
        let fr2 := mergeRectangles fr1
        let fr3 := filterSmallRectangles fr2 minWasteSize
        { freeRects := fr3, placed := st.placed ++ [placedRect], remaining := st.remaining,
          topRowX := topRowX2, bottomRowX := bottomRowX2 }
      else
        let fr1 := st.freeRects.erase usedFreeRect
        let fr2 := fr1 ++ splitRectangle usedFreeRect placedRect.x placedRect.y
          placedRect.width placedRect.height minWasteSize
        let fr3 := removeOverlappingFreeRects fr2 placedRect minWasteSize
        let fr4 := mergeRectangles fr3
        let fr5 := filterSmallRectangles fr4 minWasteSize
        { freeRects := fr5, placed := st.placed ++ [placedRect], remaining := st.remaining,
          topRowX := topRowX2, bottomRowX := bottomRowX2 }

/-- `optimizeSinglePanel`: place pieces on a fresh panel. -/
def optimizeSinglePanel (panelWidth panelHeight : Int) (piecesToPlace : List Piece)
    (panelIndex : Nat) (minWasteSize : Int) (poignetEnabled : Bool) : PanelState :=
  piecesToPlace.foldl (singlePanelStep panelWidth panelHeight minWasteSize poignetEnabled panelIndex)
    ⟨[⟨0, 0, panelWidth, panelHeight⟩], [], [], 0, 0⟩

/-- Loop body of `tryPlaceInExistingPanel`'s placement phase; identical to
`singlePanelStep` except that the poignet branch applies only the overlap
subtraction (no merge or filter). -/
def tryStep (panelWidth panelHeight minWasteSize : Int) (poignetEnabled : Bool)
    (panelIndex : Nat) (st : PanelState) (piece : Piece) : PanelState :=
  match attemptPlacement panelWidth panelHeight poignetEnabled panelIndex
      st.freeRects st.topRowX st.bottomRowX piece with
  | none => { st with remaining := st.remaining ++ [piece] }
  | some (placedRect, usedFreeRect, topRowX2, bottomRowX2) =>
      if poignetEnabled then
        let fr1 := removeOverlappingFreeRects st.freeRects placedRect minWasteSize
        { freeRects := fr1, placed := st.placed ++ [placedRect], remaining := st.remaining,
          topRowX := topRowX2, bottomRowX := bottomRowX2 }
      else
        let fr1 := st.freeRects.erase usedFreeRect
        let fr2 := fr1 ++ splitRectangle usedFreeRect placedRect.x placedRect.y
          placedRect.width placedRect.height minWasteSize
        let fr3 := removeOverlappingFreeRects fr2 placedRect minWasteSize
        let fr4 := mergeRectangles fr3
        let fr5 := filterSmallRectangles fr4 minWasteSize
        { freeRects := fr5, placed := st.placed ++ [placedRect], remaining := st.remaining,
          topRowX := topRowX2, bottomRowX := bottomRowX2 }

/-- One iteration of the free-rect reconstruction loop of
`tryPlaceInExistingPanel`: subtract one existing placement from the running
free-rectangle set, split any still-overlapping rectangle around it, merge
and filter. -/
def subtractPlacedRect (freeRects : List Rectangle) (placedRect : PlacedRectangle)
    (minWasteSize : Int) : List Rectangle :=
  let fr1 := removeOverlappingFreeRects freeRects placedRect minWasteSize
  let fr2 := fr1.foldl
    (fun acc rect =>
      if rect.overlaps (rectOfPlaced placedRect) then
        acc ++ splitRectangle rect placedRect.x placedRect.y placedRect.width
          placedRect.height minWasteSize
      else acc ++ [rect])
    []
  let fr3 := mergeRectangles fr2
  filterSmallRectangles fr3 minWasteSize

/-- `tryPlaceInExistingPanel`: rebuild the free rectangles of a panel from its
existing placements, recompute the poignet row cursors, then try to place the
remaining pieces. -/
def tryPlaceInExistingPanel (panelWidth panelHeight : Int)
    (existingPlaced : List PlacedRectangle) (piecesToPlace : List Piece)
    (panelIndex : Nat) (minWasteSize : Int) (poignetEnabled : Bool) : PanelState :=
  let freeRects := existingPlaced.foldl
    (fun fr p => subtractPlacedRect fr p minWasteSize)
    [⟨0, 0, panelWidth, panelHeight⟩]
  let topRowX :=
    if poignetEnabled && !existingPlaced.isEmpty then
      match ((existingPlaced.filter (fun p => decide (p.y = 0))).map
          (fun p => p.x + p.width)).max? with
      | some m => m
      | none => 0
    else 0
  let bottomRowX :=
    if poignetEnabled && !existingPlaced.isEmpty then
      match ((existingPlaced.filter
          (fun p => decide ((p.y + p.height - panelHeight).natAbs < 1))).map
          (fun p => p.x + p.width)).max? with
      | some m => m
      | none => 0
    else 0
  piecesToPlace.foldl (tryStep panelWidth panelHeight minWasteSize poignetEnabled panelIndex)
    ⟨freeRects, existingPlaced, [], topRowX, bottomRowX⟩

/-- One emitted panel `{placed, freeRects, panelIndex}`. -/
structure Panel where
  placed : List PlacedRectangle
  freeRects : List Rectangle
  panelIndex : Nat
deriving DecidableEq

/-- One `for (panelIdx...)` sweep of the back-fill pass: try the remaining
pieces against every existing panel in index order, updating a panel exactly
when new pieces landed on it. -/
def backfillSweep (panelWidth panelHeight minWasteSize : Int) (poignetEnabled : Bool)
    (panels : List Panel) (remaining : List Piece) :
    List Panel × List Piece × Bool :=
  (List.range panels.length).foldl
    (fun st panelIdx =>
      if st.2.1.isEmpty then st
      else
        match st.1[panelIdx]? with
        | none => st
        | some panel =>
            let result := tryPlaceInExistingPanel panelWidth panelHeight panel.placed
              st.2.1 panelIdx minWasteSize poignetEnabled
            if panel.placed.length < result.placed.length then
              (st.1.set panelIdx ⟨result.placed, result.freeRects, panelIdx⟩,
               result.remaining, true)
            else st)
    (panels, remaining, false)

/-- The `while (madeProgress ...)` back-fill loop; every productive sweep
strictly shrinks the remaining pieces, so fuel `remaining.length + 1` never
runs out. The boolean accumulates whether any piece was placed. -/
def backfillLoop (panelWidth panelHeight minWasteSize : Int) (poignetEnabled : Bool) :
    Nat → List Panel → List Piece → Bool → List Panel × List Piece × Bool
  | 0, panels, remaining, placedAny => (panels, remaining, placedAny)
  | fuel + 1, panels, remaining, placedAny =>
      if remaining.isEmpty || panels.isEmpty then (panels, remaining, placedAny)
      else
        match backfillSweep panelWidth panelHeight minWasteSize poignetEnabled panels remaining with
        | (panels2, remaining2, true) =>
            backfillLoop panelWidth panelHeight minWasteSize poignetEnabled fuel
              panels2 remaining2 true
        | (panels2, remaining2, false) => (panels2, remaining2, placedAny)

/-- The outer `while (remainingPieces.length > 0)` driver loop of `optimize`:
back-fill existing panels, then open a new panel when back-fill made no
progress; break when a new panel places nothing, when the panel index passes
1000, or when an iteration leaves the remaining count unchanged and a final
single-panel test places nothing. Every iteration that recurses strictly
shrinks the remaining pieces, so fuel `|pieces| + 2` never runs out. -/
def optimizeLoop (panelWidth panelHeight minWasteSize : Int) (poignetEnabled : Bool) :
    Nat → List Panel → List Piece → Nat → List Panel × List Piece
  | 0, panels, remaining, _ => (panels, remaining)
  | fuel + 1, panels, remaining, panelIndex =>
      if remaining.isEmpty then (panels, remaining)
      else
        let previousRemainingCount := remaining.length
        match backfillLoop panelWidth panelHeight minWasteSize poignetEnabled
            (remaining.length + 1) panels remaining false with
        | (panels2, remaining2, placedAny) =>
          if !placedAny && !remaining2.isEmpty then
            let panelResult := optimizeSinglePanel panelWidth panelHeight remaining2
              panelIndex minWasteSize poignetEnabled
            let panels3 := panels2 ++ [⟨panelResult.placed, panelResult.freeRects, panelIndex⟩]
            if panelResult.placed.isEmpty then (panels3, remaining2)
            else
              let remaining3 := panelResult.remaining
              let panelIndex2 := panelIndex + 1
              if 1000 < panelIndex2 then (panels3, remaining3)
              else if remaining3.length = previousRemainingCount ∧ 0 < remaining3.length then
                let testResult := optimizeSinglePanel panelWidth panelHeight remaining3 0
                  minWasteSize poignetEnabled
                if testResult.placed.isEmpty then (panels3, remaining3)
                else optimizeLoop panelWidth panelHeight minWasteSize poignetEnabled fuel
                  panels3 remaining3 panelIndex2
              else optimizeLoop panelWidth panelHeight minWasteSize poignetEnabled fuel
                panels3 remaining3 panelIndex2
          else
            if remaining2.length = previousRemainingCount ∧ 0 < remaining2.length then
              let testResult := optimizeSinglePanel panelWidth panelHeight remaining2 0
                minWasteSize poignetEnabled
              if testResult.placed.isEmpty then (panels2, remaining2)
              else optimizeLoop panelWidth panelHeight minWasteSize poignetEnabled fuel
                panels2 remaining2 panelIndex
            else optimizeLoop panelWidth panelHeight minWasteSize poignetEnabled fuel
              panels2 remaining2 panelIndex

/-- Result statistics; the invalid-input early return carries no
`usableWasteArea` field, modelled by `none`. -/
structure Stats where
  totalUsedArea : Int
  totalWasteArea : Int
  totalPanelArea : Int
  usedPercentage : ℚ
  wastePercentage : ℚ
  panelCount : Nat
  minWasteSize : Int
  usableWasteArea : Option Int
deriving DecidableEq

/-- The full result `{panels, rejected, stats}`. -/
structure OptimizeResult where
  panels : List Panel
  rejected : List Piece
  stats : Stats
deriving DecidableEq

/-- The statistics of the invalid-input early return. -/
def emptyStats (minWasteSize : Int) : Stats :=
  { totalUsedArea := 0, totalWasteArea := 0, totalPanelArea := 0,
    usedPercentage := 0, wastePercentage := 100, panelCount := 0,
    minWasteSize := minWasteSize, usableWasteArea := none }

/-- `optimize`: the main entry point (options passed as explicit arguments;
`minWasteSize` defaults to 100 and `poignetEnabled` to `false` at call sites). -/
def optimize (panelWidth panelHeight : Int) (pieces : List PieceType)
    (minWasteSize : Int) (poignetEnabled : Bool) : OptimizeResult :=
  if decide (panelWidth ≤ 0) || decide (panelHeight ≤ 0) then
    { panels := [], rejected := [], stats := emptyStats minWasteSize }
  else
    let expandedPieces := expandPieces pieces
    let sortedPieces := sortPiecesByArea expandedPieces
    match optimizeLoop panelWidth panelHeight minWasteSize poignetEnabled
        (sortedPieces.length + 2) [] sortedPieces 0 with
    | (panels, rejected) =>
      let panelArea := panelWidth * panelHeight
      let totalPanelArea := panelArea * (panels.length : Int)
      let allPlaced := panels.flatMap (fun p => p.placed)
      let totalUsedArea := (allPlaced.map PlacedRectangle.getArea).sum
      let totalWasteArea := totalPanelArea - totalUsedArea
      let usedPercentage : ℚ :=
        if 0 < totalPanelArea then ((totalUsedArea : ℚ) / (totalPanelArea : ℚ)) * 100 else 0
      let wastePercentage : ℚ :=
        if 0 < totalPanelArea then ((totalWasteArea : ℚ) / (totalPanelArea : ℚ)) * 100 else 100
      let usableWasteArea :=
        (panels.map (fun panel => (panel.freeRects.map Rectangle.getArea).sum)).sum
      { panels := panels, rejected := rejected,
        stats :=
          { totalUsedArea := totalUsedArea, totalWasteArea := totalWasteArea,
            totalPanelArea := totalPanelArea, usedPercentage := usedPercentage,
            wastePercentage := wastePercentage, panelCount := panels.length,
            minWasteSize := minWasteSize, usableWasteArea := some usableWasteArea } }

/-! ### Proof-support definitions -/

/-- `a` lies inside `b` (as closed boxes). -/
def SubRect (a b : Rectangle) : Prop :=
  b.x ≤ a.x ∧ a.x + a.width ≤ b.x + b.width ∧ b.y ≤ a.y ∧ a.y + a.height ≤ b.y + b.height

/-- Invariant of the `findBestFit` fold over a processed prefix: either nothing
fitted yet, or the accumulator holds the first score-minimising fitting
rectangle of the prefix. -/
def BestInv (w h : Int) (pre : List Rectangle) (acc : Option Fit) : Prop :=
  (acc = none ∧ ∀ r ∈ pre, r.canContain w h = false) ∨
  (∃ fit l1 l2, acc = some fit ∧ fit.row = none ∧ fit.sourceRect = none ∧
    fit.score = positionScore fit.rect w h ∧ fit.rect.canContain w h = true ∧
    pre = l1 ++ fit.rect :: l2 ∧
    (∀ r ∈ l1, r.canContain w h = true → positionScore fit.rect w h < positionScore r w h) ∧
    (∀ r ∈ l2, r.canContain w h = true → positionScore fit.rect w h ≤ positionScore r w h))

/-- Structural facts delivered by a successful `findBestFitPoignet` fit: the
source rectangle is one of the free rectangles, the fit rectangle has exactly
the requested dimensions, lies inside the source rectangle, and sits on the
requested row. -/
def PoignetFitOk (freeRects : List Rectangle) (w h panelHeight : Int) (fit : Fit) : Prop :=
  ∃ s, fit.sourceRect = some s ∧ s ∈ freeRects ∧
    fit.rect.width = w ∧ fit.rect.height = h ∧ SubRect fit.rect s ∧
    ((fit.row = some Row.top ∧ fit.rect.y = 0) ∨
     (fit.row = some Row.bottom ∧ fit.rect.y = panelHeight - h))

/-- The placements of a panel are pairwise non-overlapping (in list order). -/
def PlacedDisjoint (placed : List PlacedRectangle) : Prop :=
  List.Pairwise (fun p q => (rectOfPlaced p).overlaps (rectOfPlaced q) = false) placed

/-- Every placement has positive oriented dimensions. -/
def PlacedPos (placed : List PlacedRectangle) : Prop :=
  ∀ p ∈ placed, 0 < p.width ∧ 0 < p.height

/-- A free rectangle is degenerate (no positive room, hence never choosable by
`canContain` for a positive-dimension piece) or disjoint from the box `b`. -/
def FreeOkFor (b r : Rectangle) : Prop :=
  r.width ≤ 0 ∨ r.height ≤ 0 ∨ r.overlaps b = false

/-- Every free rectangle is degenerate or overlaps no placement. -/
def FreesOk (freeRects : List Rectangle) (placed : List PlacedRectangle) : Prop :=
  ∀ f ∈ freeRects, ∀ p ∈ placed, FreeOkFor (rectOfPlaced p) f

/-- Every piece has positive dimensions. -/
def GoodPieces (l : List Piece) : Prop :=
  ∀ p ∈ l, 0 < p.width ∧ 0 < p.height

/-- Every free rectangle reaches the minimum useful size in both dimensions. -/
def FreesUseful (freeRects : List Rectangle) (minWasteSize : Int) : Prop :=
  ∀ f ∈ freeRects, minWasteSize ≤ f.width ∧ minWasteSize ≤ f.height

/-- The panel-state invariant carried through the placement loops. -/
def StateInv (st : PanelState) : Prop :=
  PlacedDisjoint st.placed ∧ PlacedPos st.placed ∧ FreesOk st.freeRects st.placed

/-- A rectangle property preserved by both merge operations. -/
def MergePres (Q : Rectangle → Prop) : Prop :=
  (∀ a b, canMergeH a b = true → Q a → Q b → Q (mergeH a b)) ∧
  (∀ a b, canMergeV a b = true → Q a → Q b → Q (mergeV a b))

/-- Piece of the panel-cap scenario: a 100×100 piece with rotation disabled. -/
def capPiece (i : Nat) : Piece := ⟨100, 100, i, false, 7⟩

/-- The placement the panel-cap scenario produces on panel `i`. -/
def capPlaced (i : Nat) : PlacedRectangle := ⟨0, 0, 100, 100, i, 7, false, i⟩

/-- A fully occupied 100×100 panel of the panel-cap scenario. -/
def capPanel (i : Nat) : Panel := ⟨[capPlaced i], [], i⟩

/-- The first `k` panels of the panel-cap scenario. -/
def capPanels (k : Nat) : List Panel := (List.range k).map capPanel

/-- `n` consecutive cap pieces starting at ordinal `start`. -/
def capPieces (start n : Nat) : List Piece := (List.range' start n).map capPiece

/-! ### Basic geometry lemmas -/

theorem overlaps_eq_true_iff (a b : Rectangle) : a.overlaps b = true ↔
    (b.x < a.x + a.width ∧ a.x < b.x + b.width ∧ b.y < a.y + a.height ∧ a.y < b.y + b.height) := by
  simp only [Rectangle.overlaps, Bool.not_eq_true', Bool.or_eq_false_iff,
    decide_eq_false_iff_not, not_le]
  tauto

theorem overlaps_eq_false_iff (a b : Rectangle) : a.overlaps b = false ↔
    (a.x + a.width ≤ b.x ∨ b.x + b.width ≤ a.x ∨ a.y + a.height ≤ b.y ∨ b.y + b.height ≤ a.y) := by
  simp only [Rectangle.overlaps, Bool.not_eq_false', Bool.or_eq_true, decide_eq_true_eq]
  tauto

theorem overlaps_comm (a b : Rectangle) : a.overlaps b = b.overlaps a := by
  rw [Bool.eq_iff_iff, overlaps_eq_true_iff, overlaps_eq_true_iff]
  constructor <;> (intro h; omega)

theorem canContain_iff (r : Rectangle) (w h : Int) :
    r.canContain w h = true ↔ w ≤ r.width ∧ h ≤ r.height := by
  simp [Rectangle.canContain]

theorem SubRect.refl (a : Rectangle) : SubRect a a := by
  unfold SubRect; omega

theorem overlaps_mono {a b c : Rectangle} (hsub : SubRect a b)
    (h : b.overlaps c = false) : a.overlaps c = false := by
  rw [overlaps_eq_false_iff] at *
  obtain ⟨h1, h2, h3, h4⟩ := hsub
  omega

theorem isUsefulSize_iff (m w h : Int) :
    isUsefulSize m w h = true ↔ m ≤ w ∧ m ≤ h := by
  simp [isUsefulSize]

/-! ### Score correspondence: the scaled integer score is order-isomorphic to
the literal rational score of the source. -/

theorem scoreQ_eq_scaled (r : Rectangle) (w h : Int) :
    scoreQ r w h = ((positionScore r w h : ℤ) : ℚ) / 1000 := by
  simp only [scoreQ, positionScore]
  push_cast
  ring

theorem scoreQ_lt_iff (r s : Rectangle) (w h : Int) :
    scoreQ r w h < scoreQ s w h ↔ positionScore r w h < positionScore s w h := by
  rw [scoreQ_eq_scaled, scoreQ_eq_scaled, div_lt_div_iff_of_pos_right (by norm_num)]
  exact_mod_cast Iff.rfl

theorem scoreQ_eq_iff (r s : Rectangle) (w h : Int) :
    scoreQ r w h = scoreQ s w h ↔ positionScore r w h = positionScore s w h := by
  rw [scoreQ_eq_scaled, scoreQ_eq_scaled, div_eq_div_iff (by norm_num) (by norm_num)]
  constructor
  · intro hh
    have := mul_right_cancel₀ (b := (1000 : ℚ)) (by norm_num) hh
    exact_mod_cast this
  · intro hh
    exact_mod_cast congrArg (fun z : ℤ => ((z : ℚ) * 1000)) hh

/-! ### Generic fold helper -/

theorem foldl_inv_of_mem {α β : Type _} (f : β → α → β) (P : β → Prop)
    (full : List α) (hstep : ∀ acc x, x ∈ full → P acc → P (f acc x)) :
    ∀ (l : List α), (∀ x ∈ l, x ∈ full) → ∀ acc, P acc → P (l.foldl f acc) := by
  intro l
  induction l with
  | nil => intro _ acc hacc; simpa using hacc
  | cons x xs ih =>
      intro hsub acc hacc
      exact ih (fun y hy => hsub y (by simp [hy])) (f acc x)
        (hstep acc x (hsub x (by simp)) hacc)

/-! ### The free-mode chooser keeps the first score-minimising fitting rectangle -/

theorem bestFitStep_inv (w h : Int) (pre : List Rectangle) (acc : Option Fit)
    (hinv : BestInv w h pre acc) (r : Rectangle) :
    BestInv w h (pre ++ [r]) (bestFitStep w h acc r) := by
  unfold bestFitStep
  rcases hinv with ⟨hacc, hall⟩ | ⟨fit, l1, l2, hacc, hrow, hsrc, hscore, hfits, hpre, hl1, hl2⟩
  · subst hacc
    cases hc : r.canContain w h with
    | true =>
        simp only [hc, if_true, better]
        right
        refine ⟨⟨r, positionScore r w h, none, none⟩, pre, [], rfl, rfl, rfl, rfl, hc, by simp,
          ?_, by simp⟩
        intro s hs hfit
        exact absurd (hall s hs) (by simp [hfit])
    | false =>
        simp only [hc, Bool.false_eq_true, if_false]
        left
        refine ⟨rfl, ?_⟩
        intro s hs
        rcases List.mem_append.1 hs with hs | hs
        · exact hall s hs
        · simp only [List.mem_singleton] at hs; subst hs; exact hc
  · subst hacc
    cases hc : r.canContain w h with
    | false =>
        simp only [hc, Bool.false_eq_true, if_false]
        right
        refine ⟨fit, l1, l2 ++ [r], rfl, hrow, hsrc, hscore, hfits, by simp [hpre], hl1, ?_⟩
        intro s hs hsfits
        rcases List.mem_append.1 hs with hs | hs
        · exact hl2 s hs hsfits
        · simp only [List.mem_singleton] at hs; subst hs; exact absurd hsfits (by simp [hc])
    | true =>
        simp only [hc, if_true, better]
        by_cases hlt : positionScore r w h < fit.score
        · simp only [hlt, if_true]
          right
          refine ⟨⟨r, positionScore r w h, none, none⟩, pre, [], rfl, rfl, rfl, rfl, hc,
            by simp, ?_, by simp⟩
          intro s hs hsfits
          rw [hscore] at hlt
          rw [hpre] at hs
          rcases List.mem_append.1 hs with hs | hs
          · exact hlt.trans (hl1 s hs hsfits)
          · rcases List.mem_cons.1 hs with hs | hs
            · subst hs; exact hlt
            · exact hlt.trans_le (hl2 s hs hsfits)
        · simp only [hlt, if_false]
          right
          refine ⟨fit, l1, l2 ++ [r], rfl, hrow, hsrc, hscore, hfits, by simp [hpre], hl1, ?_⟩
          intro s hs hsfits
          rcases List.mem_append.1 hs with hs | hs
          · exact hl2 s hs hsfits
          · simp only [List.mem_singleton] at hs; subst hs
            rw [hscore] at hlt
            exact le_of_not_lt hlt

theorem findBestFit_inv (rects : List Rectangle) (w h : Int) :
    BestInv w h rects (findBestFit rects w h) := by
  have main : ∀ (l pre : List Rectangle) (acc : Option Fit), BestInv w h pre acc →
      BestInv w h (pre ++ l) (l.foldl (bestFitStep w h) acc) := by
    intro l
    induction l with
    | nil => intro pre acc hinv; simpa using hinv
    | cons x xs ih =>
        intro pre acc hinv
        have h2 := bestFitStep_inv w h pre acc hinv x
        have h3 := ih (pre ++ [x]) _ h2
        simpa [List.append_assoc] using h3
  have h0 : BestInv w h [] none := Or.inl ⟨rfl, by simp⟩
  simpa using main rects [] none h0

theorem findBestFit_none (rects : List Rectangle) (w h : Int)
    (hnone : findBestFit rects w h = none) :
    ∀ r ∈ rects, r.canContain w h = false := by
  rcases findBestFit_inv rects w h with ⟨_, hall⟩ | ⟨fit, _, _, hacc, _⟩
  · exact hall
  · rw [hnone] at hacc; cases hacc

theorem findBestFit_some (rects : List Rectangle) (w h : Int) (fit : Fit)
    (hsome : findBestFit rects w h = some fit) :
    fit.row = none ∧ fit.sourceRect = none ∧ fit.score = positionScore fit.rect w h ∧
    fit.rect.canContain w h = true ∧
    ∃ l1 l2, rects = l1 ++ fit.rect :: l2 ∧
      (∀ r ∈ l1, r.canContain w h = true → positionScore fit.rect w h < positionScore r w h) ∧
      (∀ r ∈ l2, r.canContain w h = true → positionScore fit.rect w h ≤ positionScore r w h) := by
  rcases findBestFit_inv rects w h with ⟨hacc, _⟩ | ⟨fit2, l1, l2, hacc, hrow, hsrc, hscore, hfits,
      hpre, hl1, hl2⟩
  · rw [hsome] at hacc; cases hacc
  · rw [hsome] at hacc
    injection hacc with hacc
    subst hacc
    exact ⟨hrow, hsrc, hscore, hfits, l1, l2, hpre, hl1, hl2⟩

theorem findBestFit_mem (rects : List Rectangle) (w h : Int) (fit : Fit)
    (hsome : findBestFit rects w h = some fit) :
    fit.rect ∈ rects ∧ fit.rect.canContain w h = true := by
  obtain ⟨_, _, _, hfits, l1, l2, hpre, _, _⟩ := findBestFit_some rects w h fit hsome
  exact ⟨by rw [hpre]; simp, hfits⟩

/-! ### Structural facts about edge-aligned fits -/

theorem better_inv (P : Fit → Prop) (cand : Fit) (best : Option Fit)
    (hcand : P cand) (hbest : ∀ b, best = some b → P b) :
    ∀ c, better cand best = some c → P c := by
  intro c hc
  unfold better at hc
  cases best with
  | none => injection hc with hc; subst hc; exact hcand
  | some b =>
      by_cases hlt : cand.score < b.score <;> simp only [hlt, if_true, if_false] at hc <;>
        injection hc with hc <;> subst hc
      · exact hcand
      · exact hbest b rfl

theorem poignetTopStep_ok (rects : List Rectangle) (w h panelHeight panelWidth topRowX : Int)
    (acc : Option Fit) (r : Rectangle) (hr : r ∈ rects)
    (hacc : ∀ b, acc = some b → PoignetFitOk rects w h panelHeight b) :
    ∀ c, poignetTopStep w h panelWidth topRowX acc r = some c →
      PoignetFitOk rects w h panelHeight c := by
  intro c hc
  unfold poignetTopStep at hc
  by_cases hcov : (decide (r.y ≤ 0) && decide (0 + h ≤ r.y + r.height)) && r.canContain w h
  · rw [if_pos hcov] at hc
    simp only [Bool.and_eq_true, decide_eq_true_eq, canContain_iff] at hcov
    obtain ⟨⟨hy0, hyh⟩, hw, hh⟩ := hcov
    by_cases hseq : (decide (r.x ≤ topRowX) && decide (topRowX + w ≤ r.x + r.width))
    · rw [if_pos hseq] at hc
      simp only [Bool.and_eq_true, decide_eq_true_eq] at hseq
      refine better_inv _ _ _ ?_ hacc c hc
      exact ⟨r, rfl, hr, rfl, rfl, by unfold SubRect; simp; omega, Or.inl ⟨rfl, rfl⟩⟩
    · rw [if_neg hseq] at hc
      by_cases hfl : decide (r.x + w ≤ panelWidth)
      · rw [if_pos hfl] at hc
        by_cases hfl2 : (decide (max r.x topRowX + w ≤ r.x + r.width) &&
            decide (max r.x topRowX + w ≤ panelWidth))
        · rw [if_pos hfl2] at hc
          simp only [Bool.and_eq_true, decide_eq_true_eq] at hfl2
          refine better_inv _ _ _ ?_ hacc c hc
          refine ⟨r, rfl, hr, rfl, rfl, ?_, Or.inl ⟨rfl, rfl⟩⟩
          unfold SubRect
          simp only
          constructor
          · exact le_max_left _ _
          · refine ⟨hfl2.1, by omega⟩
        · rw [if_neg hfl2] at hc; exact hacc c hc
      · rw [if_neg hfl] at hc; exact hacc c hc
  · rw [if_neg hcov] at hc; exact hacc c hc

theorem poignetBottomStep_ok (rects : List Rectangle) (w h panelHeight panelWidth bottomRowX : Int)
    (acc : Option Fit) (r : Rectangle) (hr : r ∈ rects)
    (hacc : ∀ b, acc = some b → PoignetFitOk rects w h panelHeight b) :
    ∀ c, poignetBottomStep w h panelHeight panelWidth bottomRowX acc r = some c →
      PoignetFitOk rects w h panelHeight c := by
  intro c hc
  unfold poignetBottomStep at hc
  by_cases hcov : (decide (r.y ≤ panelHeight - h) &&
      decide (panelHeight - h + h ≤ r.y + r.height)) && r.canContain w h
  · rw [if_pos hcov] at hc
    simp only [Bool.and_eq_true, decide_eq_true_eq, canContain_iff] at hcov
    obtain ⟨⟨hy0, hyh⟩, hw, hh⟩ := hcov
    by_cases hseq : (decide (r.x ≤ bottomRowX) && decide (bottomRowX + w ≤ r.x + r.width))
    · rw [if_pos hseq] at hc
      simp only [Bool.and_eq_true, decide_eq_true_eq] at hseq
      refine better_inv _ _ _ ?_ hacc c hc
      exact ⟨r, rfl, hr, rfl, rfl, by unfold SubRect; simp; omega, Or.inr ⟨rfl, rfl⟩⟩
    · rw [if_neg hseq] at hc
      by_cases hfl : decide (r.x + w ≤ panelWidth)
      · rw [if_pos hfl] at hc
        by_cases hfl2 : (decide (max r.x bottomRowX + w ≤ r.x + r.width) &&
            decide (max r.x bottomRowX + w ≤ panelWidth))
        · rw [if_pos hfl2] at hc
          simp only [Bool.and_eq_true, decide_eq_true_eq] at hfl2
          refine better_inv _ _ _ ?_ hacc c hc
          refine ⟨r, rfl, hr, rfl, rfl, ?_, Or.inr ⟨rfl, rfl⟩⟩
          unfold SubRect
          simp only
          constructor
          · exact le_max_left _ _
          · refine ⟨hfl2.1, by omega⟩
        · rw [if_neg hfl2] at hc; exact hacc c hc
      · rw [if_neg hfl] at hc; exact hacc c hc
  · rw [if_neg hcov] at hc; exact hacc c hc

theorem findBestFitPoignet_ok (rects : List Rectangle)
    (w h panelHeight topRowX bottomRowX panelWidth : Int) (fit : Fit)
    (hsome : findBestFitPoignet rects w h panelHeight topRowX bottomRowX panelWidth = some fit) :
    PoignetFitOk rects w h panelHeight fit := by
  unfold findBestFitPoignet at hsome
  by_cases h1 : decide (panelHeight < h)
  · rw [if_pos h1] at hsome; cases hsome
  · rw [if_neg h1] at hsome
    by_cases h2 : decide (panelWidth < w)
    · rw [if_pos h2] at hsome; cases hsome
    · rw [if_neg h2] at hsome
      have topInv : ∀ (l : List Rectangle), (∀ x ∈ l, x ∈ rects) → ∀ b,
          l.foldl (poignetTopStep w h panelWidth topRowX) none = some b →
          PoignetFitOk rects w h panelHeight b := by
        intro l hl
        have := foldl_inv_of_mem (poignetTopStep w h panelWidth topRowX)
          (fun acc => ∀ b, acc = some b → PoignetFitOk rects w h panelHeight b) rects
          (fun acc x hx hacc => poignetTopStep_ok rects w h panelHeight panelWidth topRowX
            acc x hx hacc) l hl none (by intro b hb; cases hb)
        intro b hb
        exact this b hb
      have botInv : ∀ (l : List Rectangle), (∀ x ∈ l, x ∈ rects) → ∀ b,
          l.foldl (poignetBottomStep w h panelHeight panelWidth bottomRowX) none = some b →
          PoignetFitOk rects w h panelHeight b := by
        intro l hl
        have := foldl_inv_of_mem (poignetBottomStep w h panelHeight panelWidth bottomRowX)
          (fun acc => ∀ b, acc = some b → PoignetFitOk rects w h panelHeight b) rects
          (fun acc x hx hacc => poignetBottomStep_ok rects w h panelHeight panelWidth bottomRowX
            acc x hx hacc) l hl none (by intro b hb; cases hb)
        intro b hb
        exact this b hb
      by_cases h3 : decide (topRowX + w ≤ panelWidth)
      · rw [if_pos h3] at hsome
        cases htop : rects.foldl (poignetTopStep w h panelWidth topRowX) none with
        | some b =>
            rw [htop] at hsome
            simp only at hsome
            injection hsome with hsome
            subst hsome
            exact topInv rects (fun x hx => hx) b htop
        | none =>
            rw [htop] at hsome
            simp only at hsome
            by_cases h4 : decide (bottomRowX + w ≤ panelWidth)
            · rw [if_pos h4] at hsome
              exact botInv rects (fun x hx => hx) fit hsome
            · rw [if_neg h4] at hsome; cases hsome
      · rw [if_neg h3] at hsome
        simp only at hsome
        by_cases h4 : decide (bottomRowX + w ≤ panelWidth)
        · rw [if_pos h4] at hsome
          exact botInv rects (fun x hx => hx) fit hsome
        · rw [if_neg h4] at hsome; cases hsome

/-! ### Registry operation lemmas -/

theorem residualsOfOverlap_forall (freeRect : Rectangle) (placedRect : PlacedRectangle)
    (m : Int) (hov : freeRect.overlaps (rectOfPlaced placedRect) = true) :
    ∀ r ∈ residualsOfOverlap freeRect placedRect m,
      SubRect r freeRect ∧ r.overlaps (rectOfPlaced placedRect) = false ∧
      m ≤ r.width ∧ m ≤ r.height := by
  rw [overlaps_eq_true_iff] at hov
  simp only [rectOfPlaced] at hov
  intro r hr
  unfold residualsOfOverlap at hr
  simp only [List.mem_append] at hr
  have handle : ∀ (c : Bool) (s : Rectangle), r ∈ (if c = true then [s] else []) →
      (c = true ∧ r = s) := by
    intro c s hmem
    cases c with
    | true => simp only [if_true, List.mem_singleton] at hmem; exact ⟨rfl, hmem⟩
    | false => simp at hmem
  rcases hr with ((hr | hr) | hr) | hr
  all_goals
    obtain ⟨hcond, rfl⟩ := handle _ _ hr
  all_goals
    simp only [Bool.and_eq_true, decide_eq_true_eq, isUsefulSize_iff] at hcond
  all_goals
    refine ⟨?_, ?_, by simp only; omega, by simp only; omega⟩
  all_goals
    first
      | (unfold SubRect; simp only; omega)
      | (rw [overlaps_eq_false_iff]; simp only [rectOfPlaced]; omega)

theorem removeOverlappingFreeRects_forall (freeRects : List Rectangle)
    (placedRect : PlacedRectangle) (m : Int) :
    ∀ r ∈ removeOverlappingFreeRects freeRects placedRect m,
      (∃ f ∈ freeRects, SubRect r f) ∧ r.overlaps (rectOfPlaced placedRect) = false ∧
      m ≤ r.width ∧ m ≤ r.height := by
  unfold removeOverlappingFreeRects
  have := foldl_inv_of_mem
    (fun result freeRect =>
      if !(freeRect.overlaps (rectOfPlaced placedRect)) then
        if isUsefulSize m freeRect.width freeRect.height then result ++ [freeRect]
        else result
      else result ++ residualsOfOverlap freeRect placedRect m)
    (fun acc => ∀ r ∈ acc,
      (∃ f ∈ freeRects, SubRect r f) ∧ r.overlaps (rectOfPlaced placedRect) = false ∧
      m ≤ r.width ∧ m ≤ r.height)
    freeRects ?_ freeRects (fun x hx => hx) [] (by simp)
  · exact this
  · intro acc x hx hacc r hr
    by_cases hov : x.overlaps (rectOfPlaced placedRect)
    · simp only [hov, Bool.not_true, Bool.false_eq_true, if_false] at hr
      rcases List.mem_append.1 hr with hr | hr
      · exact hacc r hr
      · obtain ⟨hs, hno, hw, hh⟩ := residualsOfOverlap_forall x placedRect m hov r hr
        exact ⟨⟨x, hx, hs⟩, hno, hw, hh⟩
    · simp only [Bool.not_eq_true] at hov
      simp only [hov, Bool.not_false, if_true] at hr
      by_cases huse : isUsefulSize m x.width x.height
      · simp only [huse, if_true] at hr
        rcases List.mem_append.1 hr with hr | hr
        · exact hacc r hr
        · simp only [List.mem_singleton] at hr
          subst hr
          rw [isUsefulSize_iff] at huse
          exact ⟨⟨r, hx, SubRect.refl r⟩, hov, huse.1, huse.2⟩
      · simp only [Bool.not_eq_true] at huse
        simp only [huse, Bool.false_eq_true, if_false] at hr
        exact hacc r hr

theorem splitRectangle_forall (freeRect : Rectangle) (px py pw ph m : Int)
    (hin : freeRect.x ≤ px ∧ px + pw ≤ freeRect.x + freeRect.width ∧
           freeRect.y ≤ py ∧ py + ph ≤ freeRect.y + freeRect.height)
    (hpw : 0 ≤ pw) (hph : 0 ≤ ph) :
    ∀ r ∈ splitRectangle freeRect px py pw ph m,
      SubRect r freeRect ∧ r.overlaps ⟨px, py, pw, ph⟩ = false := by
  intro r hr
  unfold splitRectangle at hr
  simp only [List.mem_append] at hr
  have handle : ∀ (c : Bool) (s : Rectangle), r ∈ (if c = true then [s] else []) →
      (c = true ∧ r = s) := by
    intro c s hmem
    cases c with
    | true => simp only [if_true, List.mem_singleton] at hmem; exact ⟨rfl, hmem⟩
    | false => simp at hmem
  rcases hr with (hr | hr) | hr
  all_goals
    obtain ⟨hcond, rfl⟩ := handle _ _ hr
  all_goals
    simp only [Bool.and_eq_true, Bool.or_eq_true, decide_eq_true_eq] at hcond
  all_goals
    constructor
  · unfold SubRect; simp only; omega
  · rw [overlaps_eq_false_iff]; simp only; omega
  · unfold SubRect; simp only; omega
  · rw [overlaps_eq_false_iff]; simp only; omega
  · unfold SubRect; simp only; omega
  · rw [overlaps_eq_false_iff]; simp only; omega

/-! ### Merge preservation lemmas -/

theorem mergeSweep_forall (Q : Rectangle → Prop) (hpres : MergePres Q) :
    ∀ (rest : List Rectangle) (current : Rectangle), Q current → (∀ r ∈ rest, Q r) →
      Q (mergeSweep current rest).1 ∧ ∀ r ∈ (mergeSweep current rest).2.1, Q r := by
  intro rest
  induction rest with
  | nil => intro current hc _; exact ⟨hc, by simp [mergeSweep]⟩
  | cons r rs ih =>
      intro current hc hrest
      have hr : Q r := hrest r (by simp)
      have hrs : ∀ s ∈ rs, Q s := fun s hs => hrest s (by simp [hs])
      unfold mergeSweep
      by_cases hH : canMergeH current r
      · simp only [hH, if_true]
        have hmerged : Q (mergeH current r) := hpres.1 current r hH hc hr
        have := ih (mergeH current r) hmerged hrs
        rcases hms : mergeSweep (mergeH current r) rs with ⟨c, rest2, b⟩
        rw [hms] at this
        exact ⟨this.1, this.2⟩
      · simp only [hH, Bool.false_eq_true, if_false]
        by_cases hV : canMergeV current r
        · simp only [hV, if_true]
          have hmerged : Q (mergeV current r) := hpres.2 current r hV hc hr
          have := ih (mergeV current r) hmerged hrs
          rcases hms : mergeSweep (mergeV current r) rs with ⟨c, rest2, b⟩
          rw [hms] at this
          exact ⟨this.1, this.2⟩
        · simp only [hV, Bool.false_eq_true, if_false]
          have := ih current hc hrs
          rcases hms : mergeSweep current rs with ⟨c, rest2, b⟩
          rw [hms] at this
          refine ⟨this.1, ?_⟩
          intro s hs
          rcases List.mem_cons.1 hs with hs | hs
          · subst hs; exact hr
          · exact this.2 s hs

theorem mergeFix_forall (Q : Rectangle → Prop) (hpres : MergePres Q) :
    ∀ (fuel : Nat) (current : Rectangle) (rest : List Rectangle), Q current →
      (∀ r ∈ rest, Q r) →
      Q (mergeFix fuel current rest).1 ∧ ∀ r ∈ (mergeFix fuel current rest).2, Q r := by
  intro fuel
  induction fuel with
  | zero => intro current rest hc hrest; exact ⟨hc, hrest⟩
  | succ n ih =>
      intro current rest hc hrest
      unfold mergeFix
      have hsw := mergeSweep_forall Q hpres rest current hc hrest
      rcases hms : mergeSweep current rest with ⟨c, rest2, b⟩
      rw [hms] at hsw
      cases b with
      | true => exact ih c rest2 hsw.1 hsw.2
      | false => exact hsw

theorem mergeRectanglesAux_forall (Q : Rectangle → Prop) (hpres : MergePres Q) :
    ∀ (fuel : Nat) (l : List Rectangle), (∀ r ∈ l, Q r) →
      ∀ r ∈ mergeRectanglesAux fuel l, Q r := by
  intro fuel
  induction fuel with
  | zero => intro l hl; exact hl
  | succ n ih =>
      intro l hl
      cases l with
      | nil => simp [mergeRectanglesAux]
      | cons r rs =>
          unfold mergeRectanglesAux
          have hfix := mergeFix_forall Q hpres (rs.length + 1) r rs (hl r (by simp))
            (fun s hs => hl s (by simp [hs]))
          rcases hmf : mergeFix (rs.length + 1) r rs with ⟨c, rest⟩
          rw [hmf] at hfix
          intro s hs
          simp only at hs
          rcases List.mem_cons.1 hs with hs | hs
          · subst hs; exact hfix.1
          · exact ih rest hfix.2 s hs

theorem mergeRectangles_forall (Q : Rectangle → Prop) (hpres : MergePres Q)
    (l : List Rectangle) (hl : ∀ r ∈ l, Q r) :
    ∀ r ∈ mergeRectangles l, Q r :=
  mergeRectanglesAux_forall Q hpres l.length l hl

/-- "Degenerate, or disjoint from a fixed positive-dimension box" is preserved
by merging: merging two degenerate rectangles yields a degenerate one, and a
degenerate rectangle merged with a normal one yields exactly the normal one's
box. -/
theorem mergePres_freeOkFor (b : Rectangle) (hbw : 0 < b.width) (hbh : 0 < b.height) :
    MergePres (FreeOkFor b) := by
  unfold FreeOkFor
  constructor
  · intro x y hH hx hy
    simp only [canMergeH, Bool.and_eq_true, Bool.or_eq_true, decide_eq_true_eq] at hH
    rw [overlaps_eq_false_iff] at hx hy ⊢
    simp only [mergeH]
    omega
  · intro x y hV hx hy
    simp only [canMergeV, Bool.and_eq_true, Bool.or_eq_true, decide_eq_true_eq] at hV
    rw [overlaps_eq_false_iff] at hx hy ⊢
    simp only [mergeV]
    omega

/-- Reaching the minimum useful size is preserved by merging. -/
theorem mergePres_useful (m : Int) :
    MergePres (fun r => m ≤ r.width ∧ m ≤ r.height) := by
  constructor
  · intro x y hH hx hy
    simp only [canMergeH, Bool.and_eq_true, Bool.or_eq_true, decide_eq_true_eq] at hH
    simp only [mergeH]
    omega
  · intro x y hV hx hy
    simp only [canMergeV, Bool.and_eq_true, Bool.or_eq_true, decide_eq_true_eq] at hV
    simp only [mergeV]
    omega

theorem mergePres_and (Q1 Q2 : Rectangle → Prop) (h1 : MergePres Q1) (h2 : MergePres Q2) :
    MergePres (fun r => Q1 r ∧ Q2 r) := by
  constructor
  · intro a b hH ha hb
    exact ⟨h1.1 a b hH ha.1 hb.1, h2.1 a b hH ha.2 hb.2⟩
  · intro a b hV ha hb
    exact ⟨h1.2 a b hV ha.1 hb.1, h2.2 a b hV ha.2 hb.2⟩

/-- Merging preserves "degenerate or disjoint" with respect to every member of
a positive-dimension placement list (degeneracy of a rectangle does not depend
on the placement, so the pointwise lemma lifts). -/
theorem mergePres_freesOk (placed : List PlacedRectangle) (hpos : PlacedPos placed) :
    MergePres (fun r => ∀ p ∈ placed, FreeOkFor (rectOfPlaced p) r) := by
  constructor
  · intro a b hH ha hb p hp
    have hpw := (hpos p hp).1
    have hph := (hpos p hp).2
    exact (mergePres_freeOkFor (rectOfPlaced p) hpw hph).1 a b hH (ha p hp) (hb p hp)
  · intro a b hV ha hb p hp
    have hpw := (hpos p hp).1
    have hph := (hpos p hp).2
    exact (mergePres_freeOkFor (rectOfPlaced p) hpw hph).2 a b hV (ha p hp) (hb p hp)

theorem filterSmallRectangles_mem (l : List Rectangle) (m : Int) (r : Rectangle)
    (hr : r ∈ filterSmallRectangles l m) :
    r ∈ l ∧ m ≤ r.width ∧ m ≤ r.height := by
  unfold filterSmallRectangles at hr
  rw [List.mem_filter] at hr
  refine ⟨hr.1, ?_⟩
  have := hr.2
  simp only [Bool.and_eq_true, decide_eq_true_eq] at this
  exact this

/-! ### Placement attempt facts -/

theorem subRect_freeOkFor {a f b : Rectangle} (hsub : SubRect a f) (h : FreeOkFor b f) :
    FreeOkFor b a := by
  unfold FreeOkFor at *
  obtain ⟨h1, h2, h3, h4⟩ := hsub
  rcases h with h | h | h
  · left; omega
  · right; left; omega
  · right; right; exact overlaps_mono ⟨h1, h2, h3, h4⟩ h

theorem chooseFit_cases (fitOriginal fitRotated : Option Fit) (f : Fit) (rot : Bool)
    (h : chooseFit fitOriginal fitRotated = some (f, rot)) :
    (rot = false ∧ fitOriginal = some f) ∨ (rot = true ∧ fitRotated = some f) := by
  unfold chooseFit at h
  cases fitOriginal with
  | none =>
      cases fitRotated with
      | none => cases h
      | some r => injection h with h; injection h with h1 h2; subst h1; subst h2
                  exact Or.inr ⟨rfl, rfl⟩
  | some o =>
      cases fitRotated with
      | none => injection h with h; injection h with h1 h2; subst h1; subst h2
                exact Or.inl ⟨rfl, rfl⟩
      | some r =>
          have h2 : (if r.score < o.score then some (r, true) else some (o, false)) =
              some (f, rot) := h
          by_cases hlt : r.score < o.score
          · rw [if_pos hlt] at h2
            injection h2 with h2; injection h2 with h1 h2; subst h1; subst h2
            exact Or.inr ⟨rfl, rfl⟩
          · rw [if_neg hlt] at h2
            injection h2 with h2; injection h2 with h1 h2; subst h1; subst h2
            exact Or.inl ⟨rfl, rfl⟩

theorem attemptPlacement_ok (panelWidth panelHeight : Int) (pg : Bool) (idx : Nat)
    (frees : List Rectangle) (tX bX : Int) (piece : Piece)
    (pr : PlacedRectangle) (used : Rectangle) (t2 b2 : Int)
    (hsome : attemptPlacement panelWidth panelHeight pg idx frees tX bX piece =
      some (pr, used, t2, b2)) :
    used ∈ frees ∧ SubRect (rectOfPlaced pr) used ∧
    (pr.width = piece.width ∧ pr.height = piece.height ∨
     pr.width = piece.height ∧ pr.height = piece.width) ∧
    (pg = true → pr.y = 0 ∨ pr.y + pr.height = panelHeight) := by
  unfold attemptPlacement at hsome
  cases pg with
  | false =>
      simp only [Bool.false_eq_true, if_false] at hsome
      rcases hcf : chooseFit (findBestFit frees piece.width piece.height)
          (if piece.rotationAllowed = true then findBestFit frees piece.height piece.width
           else none) with _ | ⟨f, rot⟩
      · rw [hcf] at hsome; cases hsome
      · rw [hcf] at hsome
        simp only [Option.some.injEq, Prod.mk.injEq] at hsome
        obtain ⟨hpr, hused, ht2, hb2⟩ := hsome
        subst hpr
        subst hused
        have hchoice := chooseFit_cases _ _ f rot hcf
        rcases hchoice with ⟨hrot, hfit⟩ | ⟨hrot, hfit⟩
        · subst hrot
          obtain ⟨hrow, hsrc, _, hfits, _⟩ :=
            findBestFit_some frees piece.width piece.height f hfit
          rw [canContain_iff] at hfits
          rw [hsrc]
          simp only [Option.getD_none, Bool.false_eq_true, if_false]
          refine ⟨(findBestFit_mem frees piece.width piece.height f hfit).1, ?_,
            by simp, by simp⟩
          unfold SubRect rectOfPlaced
          simp only
          omega
        · subst hrot
          cases hra : piece.rotationAllowed with
          | false => rw [hra] at hfit; simp at hfit
          | true =>
              rw [hra] at hfit
              simp only [if_true] at hfit
              obtain ⟨hrow, hsrc, _, hfits, _⟩ :=
                findBestFit_some frees piece.height piece.width f hfit
              rw [canContain_iff] at hfits
              rw [hsrc]
              simp only [Option.getD_none, if_true]
              refine ⟨(findBestFit_mem frees piece.height piece.width f hfit).1, ?_,
                by simp, by simp⟩
              unfold SubRect rectOfPlaced
              simp only
              omega
  | true =>
      simp only [if_true] at hsome
      rcases hcf : chooseFit
          (findBestFitPoignet frees piece.width piece.height panelHeight tX bX panelWidth)
          (if piece.rotationAllowed = true then
            findBestFitPoignet frees piece.height piece.width panelHeight tX bX panelWidth
           else none) with _ | ⟨f, rot⟩
      · rw [hcf] at hsome; cases hsome
      · rw [hcf] at hsome
        simp only [Option.some.injEq, Prod.mk.injEq] at hsome
        have hchoice := chooseFit_cases _ _ f rot hcf
        have hok : ∃ fw fh, PoignetFitOk frees fw fh panelHeight f ∧
            fw = (if rot = true then piece.height else piece.width) ∧
            fh = (if rot = true then piece.width else piece.height) ∧
            ((fw = piece.width ∧ fh = piece.height) ∨
             (fw = piece.height ∧ fh = piece.width)) := by
          rcases hchoice with ⟨hrot, hfit⟩ | ⟨hrot, hfit⟩
          · subst hrot
            exact ⟨piece.width, piece.height,
              findBestFitPoignet_ok frees piece.width piece.height panelHeight tX bX panelWidth
                f hfit, by simp, by simp, Or.inl ⟨rfl, rfl⟩⟩
          · subst hrot
            cases hra : piece.rotationAllowed with
            | false => rw [hra] at hfit; simp at hfit
            | true =>
                rw [hra] at hfit
                simp only [if_true] at hfit
                exact ⟨piece.height, piece.width,
                  findBestFitPoignet_ok frees piece.height piece.width panelHeight tX bX
                    panelWidth f hfit, by simp, by simp, Or.inr ⟨rfl, rfl⟩⟩
        obtain ⟨fw, fh, ⟨s, hsrc, hsmem, hrw2, hrh2, hsub, hrowcase⟩, hfw, hfh, hdims⟩ := hok
        rw [← hfw, ← hfh] at hsome
        rcases hrowcase with ⟨hrow, hry⟩ | ⟨hrow, hry⟩
        · rw [hrow] at hsome
          simp only at hsome
          obtain ⟨hpr, hused, ht2, hb2⟩ := hsome
          subst hpr
          subst hused
          rw [hsrc]
          refine ⟨hsmem, ?_, ?_, ?_⟩
          · show SubRect (⟨f.rect.x, 0, fw, fh⟩ : Rectangle) s
            unfold SubRect at hsub ⊢
            simp only
            omega
          · exact hdims
          · intro _
            exact Or.inl rfl
        · rw [hrow] at hsome
          simp only at hsome
          obtain ⟨hpr, hused, ht2, hb2⟩ := hsome
          subst hpr
          subst hused
          rw [hsrc]
          refine ⟨hsmem, ?_, ?_, ?_⟩
          · show SubRect (⟨f.rect.x, panelHeight - fh, fw, fh⟩ : Rectangle) s
            unfold SubRect at hsub ⊢
            simp only
            omega
          · exact hdims
          · intro _
            refine Or.inr ?_
            show panelHeight - fh + fh = panelHeight
            omega

/-! ### Placement step invariants -/

theorem freesOk_choosable {frees : List Rectangle} {placed : List PlacedRectangle}
    {pr : PlacedRectangle} {used : Rectangle}
    (hok : FreesOk frees placed) (hused : used ∈ frees)
    (hsub : SubRect (rectOfPlaced pr) used) (hprw : 0 < pr.width) (hprh : 0 < pr.height) :
    ∀ p ∈ placed, (rectOfPlaced pr).overlaps (rectOfPlaced p) = false := by
  intro p hp
  rcases hok used hused p hp with hdeg | hdeg | hdisj
  · obtain ⟨h1, h2, h3, h4⟩ := hsub
    simp only [rectOfPlaced] at h1 h2 h3 h4
    omega
  · obtain ⟨h1, h2, h3, h4⟩ := hsub
    simp only [rectOfPlaced] at h1 h2 h3 h4
    omega
  · exact overlaps_mono hsub hdisj

theorem placedDisjoint_snoc {placed : List PlacedRectangle} {pr : PlacedRectangle}
    (hd : PlacedDisjoint placed)
    (hnew : ∀ p ∈ placed, (rectOfPlaced pr).overlaps (rectOfPlaced p) = false) :
    PlacedDisjoint (placed ++ [pr]) := by
  unfold PlacedDisjoint at *
  rw [List.pairwise_append]
  refine ⟨hd, by simp, ?_⟩
  intro a ha b hb
  simp only [List.mem_singleton] at hb
  subst hb
  rw [overlaps_comm]
  exact hnew a ha

theorem placedPos_snoc {placed : List PlacedRectangle} {pr : PlacedRectangle}
    (hp : PlacedPos placed) (hw : 0 < pr.width) (hh : 0 < pr.height) :
    PlacedPos (placed ++ [pr]) := by
  intro q hq
  rcases List.mem_append.1 hq with hq | hq
  · exact hp q hq
  · simp only [List.mem_singleton] at hq; subst hq; exact ⟨hw, hh⟩

theorem freesOk_of_members {frees : List Rectangle} {placed : List PlacedRectangle}
    (h : ∀ f ∈ frees, ∀ p ∈ placed, FreeOkFor (rectOfPlaced p) f) : FreesOk frees placed := h

/-- The free-mode registry update chain preserves the free-rectangle invariant
against the extended placement list. -/
theorem freeChain_ok {frees : List Rectangle} {placed : List PlacedRectangle}
    {pr : PlacedRectangle} {used : Rectangle} {m : Int}
    (hok : FreesOk frees placed) (hpos : PlacedPos placed)
    (hused : used ∈ frees) (hsub : SubRect (rectOfPlaced pr) used)
    (hprw : 0 < pr.width) (hprh : 0 < pr.height) :
    FreesOk (filterSmallRectangles (mergeRectangles (removeOverlappingFreeRects
      ((frees.erase used) ++ splitRectangle used pr.x pr.y pr.width pr.height m) pr m)) m)
      (placed ++ [pr]) := by
  have hpos2 : PlacedPos (placed ++ [pr]) := placedPos_snoc hpos hprw hprh
  have hsub2 := hsub
  unfold SubRect rectOfPlaced at hsub2
  simp only at hsub2
  -- step 1: erase ++ splits keeps the invariant against the old placements
  have h2 : ∀ r ∈ (frees.erase used) ++ splitRectangle used pr.x pr.y pr.width pr.height m,
      ∀ p ∈ placed, FreeOkFor (rectOfPlaced p) r := by
    intro r hr p hp
    rcases List.mem_append.1 hr with hr | hr
    · exact hok r (List.mem_of_mem_erase hr) p hp
    · have := splitRectangle_forall used pr.x pr.y pr.width pr.height m
        ⟨hsub2.1, hsub2.2.1, hsub2.2.2.1, hsub2.2.2.2⟩ (le_of_lt hprw) (le_of_lt hprh) r hr
      exact subRect_freeOkFor this.1 (hok used hused p hp)
  -- step 2: removing overlaps restores the invariant against the new placement too
  have h3 : ∀ r ∈ removeOverlappingFreeRects
      ((frees.erase used) ++ splitRectangle used pr.x pr.y pr.width pr.height m) pr m,
      ∀ p ∈ placed ++ [pr], FreeOkFor (rectOfPlaced p) r := by
    intro r hr p hp
    obtain ⟨⟨f, hf, hfsub⟩, hnov, _, _⟩ := removeOverlappingFreeRects_forall _ pr m r hr
    rcases List.mem_append.1 hp with hp | hp
    · exact subRect_freeOkFor hfsub (h2 f hf p hp)
    · simp only [List.mem_singleton] at hp; subst hp
      exact Or.inr (Or.inr hnov)
  -- steps 3 and 4: merge preserves, filter shrinks
  have h4 := mergeRectangles_forall _ (mergePres_freesOk (placed ++ [pr]) hpos2) _ h3
  intro r hr p hp
  exact h4 r (filterSmallRectangles_mem _ m r hr).1 p hp

/-- The poignet registry update of `optimizeSinglePanel` (subtract, merge,
filter) preserves the free-rectangle invariant. -/
theorem poignetChainFull_ok {frees : List Rectangle} {placed : List PlacedRectangle}
    {pr : PlacedRectangle} {m : Int}
    (hok : FreesOk frees placed) (hpos : PlacedPos placed)
    (hprw : 0 < pr.width) (hprh : 0 < pr.height) :
    FreesOk (filterSmallRectangles (mergeRectangles
      (removeOverlappingFreeRects frees pr m)) m) (placed ++ [pr]) := by
  have hpos2 : PlacedPos (placed ++ [pr]) := placedPos_snoc hpos hprw hprh
  have h3 : ∀ r ∈ removeOverlappingFreeRects frees pr m,
      ∀ p ∈ placed ++ [pr], FreeOkFor (rectOfPlaced p) r := by
    intro r hr p hp
    obtain ⟨⟨f, hf, hfsub⟩, hnov, _, _⟩ := removeOverlappingFreeRects_forall _ pr m r hr
    rcases List.mem_append.1 hp with hp | hp
    · exact subRect_freeOkFor hfsub (hok f hf p hp)
    · simp only [List.mem_singleton] at hp; subst hp
      exact Or.inr (Or.inr hnov)
  have h4 := mergeRectangles_forall _ (mergePres_freesOk (placed ++ [pr]) hpos2) _ h3
  intro r hr p hp
  exact h4 r (filterSmallRectangles_mem _ m r hr).1 p hp

/-- The poignet registry update of `tryPlaceInExistingPanel` (subtract only)
preserves the free-rectangle invariant. -/
theorem poignetChainShort_ok {frees : List Rectangle} {placed : List PlacedRectangle}
    {pr : PlacedRectangle} {m : Int}
    (hok : FreesOk frees placed) :
    FreesOk (removeOverlappingFreeRects frees pr m) (placed ++ [pr]) := by
  intro r hr p hp
  obtain ⟨⟨f, hf, hfsub⟩, hnov, _, _⟩ := removeOverlappingFreeRects_forall _ pr m r hr
  rcases List.mem_append.1 hp with hp | hp
  · exact subRect_freeOkFor hfsub (hok f hf p hp)
  · simp only [List.mem_singleton] at hp; subst hp
    exact Or.inr (Or.inr hnov)

theorem singlePanelStep_inv (panelWidth panelHeight minWasteSize : Int) (pg : Bool)
    (idx : Nat) (st : PanelState) (piece : Piece) (hst : StateInv st)
    (hpw : 0 < piece.width) (hph : 0 < piece.height) :
    StateInv (singlePanelStep panelWidth panelHeight minWasteSize pg idx st piece) := by
  obtain ⟨hd, hp, hok⟩ := hst
  unfold singlePanelStep
  cases hatt : attemptPlacement panelWidth panelHeight pg idx st.freeRects
      st.topRowX st.bottomRowX piece with
  | none => exact ⟨hd, hp, hok⟩
  | some q =>
      rcases q with ⟨pr, used, t2, b2⟩
      obtain ⟨husedmem, hsub, hdims, _⟩ :=
        attemptPlacement_ok panelWidth panelHeight pg idx st.freeRects st.topRowX st.bottomRowX
          piece pr used t2 b2 hatt
      have hprw : 0 < pr.width := by rcases hdims with ⟨h1, _⟩ | ⟨h1, _⟩ <;> omega
      have hprh : 0 < pr.height := by rcases hdims with ⟨_, h1⟩ | ⟨_, h1⟩ <;> omega
      have hnew := freesOk_choosable hok husedmem hsub hprw hprh
      cases pg with
      | true =>
          simp only [if_true]
          exact ⟨placedDisjoint_snoc hd hnew,
            placedPos_snoc hp hprw hprh, poignetChainFull_ok hok hp hprw hprh⟩
      | false =>
          simp only [Bool.false_eq_true, if_false]
          exact ⟨placedDisjoint_snoc hd hnew,
            placedPos_snoc hp hprw hprh, freeChain_ok hok hp husedmem hsub hprw hprh⟩

theorem tryStep_inv (panelWidth panelHeight minWasteSize : Int) (pg : Bool)
    (idx : Nat) (st : PanelState) (piece : Piece) (hst : StateInv st)
    (hpw : 0 < piece.width) (hph : 0 < piece.height) :
    StateInv (tryStep panelWidth panelHeight minWasteSize pg idx st piece) := by
  obtain ⟨hd, hp, hok⟩ := hst
  unfold tryStep
  cases hatt : attemptPlacement panelWidth panelHeight pg idx st.freeRects
      st.topRowX st.bottomRowX piece with
  | none => exact ⟨hd, hp, hok⟩
  | some q =>
      rcases q with ⟨pr, used, t2, b2⟩
      obtain ⟨husedmem, hsub, hdims, _⟩ :=
        attemptPlacement_ok panelWidth panelHeight pg idx st.freeRects st.topRowX st.bottomRowX
          piece pr used t2 b2 hatt
      have hprw : 0 < pr.width := by rcases hdims with ⟨h1, _⟩ | ⟨h1, _⟩ <;> omega
      have hprh : 0 < pr.height := by rcases hdims with ⟨_, h1⟩ | ⟨_, h1⟩ <;> omega
      have hnew := freesOk_choosable hok husedmem hsub hprw hprh
      cases pg with
      | true =>
          simp only [if_true]
          exact ⟨placedDisjoint_snoc hd hnew,
            placedPos_snoc hp hprw hprh, poignetChainShort_ok hok⟩
      | false =>
          simp only [Bool.false_eq_true, if_false]
          exact ⟨placedDisjoint_snoc hd hnew,
            placedPos_snoc hp hprw hprh, freeChain_ok hok hp husedmem hsub hprw hprh⟩

theorem optimizeSinglePanel_inv (panelWidth panelHeight : Int) (pieces : List Piece)
    (idx : Nat) (minWasteSize : Int) (pg : Bool) (hgood : GoodPieces pieces) :
    StateInv (optimizeSinglePanel panelWidth panelHeight pieces idx minWasteSize pg) := by
  unfold optimizeSinglePanel
  refine foldl_inv_of_mem (singlePanelStep panelWidth panelHeight minWasteSize pg idx)
    StateInv pieces ?_ pieces (fun x hx => hx) _ ?_
  · intro acc x hx hacc
    exact singlePanelStep_inv panelWidth panelHeight minWasteSize pg idx acc x hacc
      (hgood x hx).1 (hgood x hx).2
  · refine ⟨List.Pairwise.nil, ?_, ?_⟩
    · intro p hp; cases hp
    · intro f hf p hp; cases hp

/-! ### Free-rectangle reconstruction of `tryPlaceInExistingPanel` -/

theorem foldl_split_identity (placedRect : PlacedRectangle) (m : Int) :
    ∀ (l : List Rectangle) (acc : List Rectangle),
      (∀ r ∈ l, r.overlaps (rectOfPlaced placedRect) = false) →
      l.foldl
        (fun acc rect =>
          if rect.overlaps (rectOfPlaced placedRect) then
            acc ++ splitRectangle rect placedRect.x placedRect.y placedRect.width
              placedRect.height m
          else acc ++ [rect])
        acc = acc ++ l := by
  intro l
  induction l with
  | nil => intro acc _; simp
  | cons r rs ih =>
      intro acc hl
      have hr : r.overlaps (rectOfPlaced placedRect) = false := hl r (by simp)
      simp only [List.foldl_cons, hr, Bool.false_eq_true, if_false]
      rw [ih (acc ++ [r]) (fun s hs => hl s (by simp [hs]))]
      simp

theorem subtractPlacedRect_ok (fr : List Rectangle) (p : PlacedRectangle) (m : Int)
    (S : List PlacedRectangle)
    (hS : ∀ r ∈ fr, ∀ q ∈ S, FreeOkFor (rectOfPlaced q) r)
    (hSpos : PlacedPos S) (hpw : 0 < p.width) (hph : 0 < p.height) :
    ∀ r ∈ subtractPlacedRect fr p m, ∀ q ∈ S ++ [p], FreeOkFor (rectOfPlaced q) r := by
  unfold subtractPlacedRect
  have hpos2 : PlacedPos (S ++ [p]) := placedPos_snoc hSpos hpw hph
  have h1 : ∀ r ∈ removeOverlappingFreeRects fr p m, ∀ q ∈ S ++ [p],
      FreeOkFor (rectOfPlaced q) r := by
    intro r hr q hq
    obtain ⟨⟨f, hf, hfsub⟩, hnov, _, _⟩ := removeOverlappingFreeRects_forall fr p m r hr
    rcases List.mem_append.1 hq with hq | hq
    · exact subRect_freeOkFor hfsub (hS f hf q hq)
    · simp only [List.mem_singleton] at hq; subst hq
      exact Or.inr (Or.inr hnov)
  have hid := foldl_split_identity p m (removeOverlappingFreeRects fr p m) []
    (fun r hr => by
      obtain ⟨_, hnov, _, _⟩ := removeOverlappingFreeRects_forall fr p m r hr
      exact hnov)
  have h4 := mergeRectangles_forall _ (mergePres_freesOk (S ++ [p]) hpos2) _ h1
  intro r hr
  have hr2 : r ∈ filterSmallRectangles (mergeRectangles
      ([] ++ removeOverlappingFreeRects fr p m)) m := by
    rw [← hid]
    exact hr
  rw [List.nil_append] at hr2
  exact fun q hq => h4 r (filterSmallRectangles_mem _ m r hr2).1 q hq

theorem rebuildFrees_ok (m : Int) :
    ∀ (l : List PlacedRectangle) (S : List PlacedRectangle) (fr : List Rectangle),
      PlacedPos S → PlacedPos l →
      (∀ r ∈ fr, ∀ q ∈ S, FreeOkFor (rectOfPlaced q) r) →
      ∀ r ∈ l.foldl (fun fr2 p => subtractPlacedRect fr2 p m) fr, ∀ q ∈ S ++ l,
        FreeOkFor (rectOfPlaced q) r := by
  intro l
  induction l with
  | nil => intro S fr _ _ hfr r hr q hq; simp only [List.append_nil] at hq; exact hfr r hr q hq
  | cons p rest ih =>
      intro S fr hSpos hlpos hfr
      have hppos := hlpos p (by simp)
      have hstep := subtractPlacedRect_ok fr p m S hfr hSpos hppos.1 hppos.2
      have := ih (S ++ [p]) (subtractPlacedRect fr p m)
        (placedPos_snoc hSpos hppos.1 hppos.2)
        (fun q hq => hlpos q (by simp [hq])) hstep
      intro r hr q hq
      refine this r hr q ?_
      simp only [List.append_assoc, List.singleton_append]
      exact hq

theorem tryPlaceInExistingPanel_inv (panelWidth panelHeight : Int)
    (existing : List PlacedRectangle) (pieces : List Piece) (idx : Nat)
    (minWasteSize : Int) (pg : Bool)
    (hexd : PlacedDisjoint existing) (hexp : PlacedPos existing)
    (hgood : GoodPieces pieces) :
    StateInv (tryPlaceInExistingPanel panelWidth panelHeight existing pieces idx
      minWasteSize pg) := by
  unfold tryPlaceInExistingPanel
  have hinit : StateInv ⟨existing.foldl
      (fun fr p => subtractPlacedRect fr p minWasteSize) [⟨0, 0, panelWidth, panelHeight⟩],
      existing, [],
      (if pg && !existing.isEmpty then
        match ((existing.filter (fun p => decide (p.y = 0))).map
            (fun p => p.x + p.width)).max? with
        | some mx => mx
        | none => 0
      else 0),
      (if pg && !existing.isEmpty then
        match ((existing.filter
            (fun p => decide ((p.y + p.height - panelHeight).natAbs < 1))).map
            (fun p => p.x + p.width)).max? with
        | some mx => mx
        | none => 0
      else 0)⟩ := by
    refine ⟨hexd, hexp, ?_⟩
    intro f hf p hp
    have := rebuildFrees_ok minWasteSize existing [] [⟨0, 0, panelWidth, panelHeight⟩]
      (fun q hq => by cases hq) hexp (fun r hr q hq => by cases hq) f hf p
    exact this (by simpa using hp)
  refine foldl_inv_of_mem (tryStep panelWidth panelHeight minWasteSize pg idx)
    StateInv pieces ?_ pieces (fun x hx => hx) _ hinit
  intro acc x hx hacc
  exact tryStep_inv panelWidth panelHeight minWasteSize pg idx acc x hacc
    (hgood x hx).1 (hgood x hx).2

/-! ### Remaining-pieces bookkeeping -/

theorem singlePanelStep_remaining (panelWidth panelHeight minWasteSize : Int) (pg : Bool)
    (idx : Nat) (st : PanelState) (piece : Piece) :
    (singlePanelStep panelWidth panelHeight minWasteSize pg idx st piece).remaining =
      st.remaining ∨
    (singlePanelStep panelWidth panelHeight minWasteSize pg idx st piece).remaining =
      st.remaining ++ [piece] := by
  unfold singlePanelStep
  cases hatt : attemptPlacement panelWidth panelHeight pg idx st.freeRects
      st.topRowX st.bottomRowX piece with
  | none => right; rfl
  | some q =>
      rcases q with ⟨pr, used, t2, b2⟩
      cases pg <;> exact Or.inl rfl

theorem tryStep_remaining (panelWidth panelHeight minWasteSize : Int) (pg : Bool)
    (idx : Nat) (st : PanelState) (piece : Piece) :
    (tryStep panelWidth panelHeight minWasteSize pg idx st piece).remaining =
      st.remaining ∨
    (tryStep panelWidth panelHeight minWasteSize pg idx st piece).remaining =
      st.remaining ++ [piece] := by
  unfold tryStep
  cases hatt : attemptPlacement panelWidth panelHeight pg idx st.freeRects
      st.topRowX st.bottomRowX piece with
  | none => right; rfl
  | some q =>
      rcases q with ⟨pr, used, t2, b2⟩
      cases pg <;> exact Or.inl rfl

theorem foldl_remaining_subset (f : PanelState → Piece → PanelState)
    (hf : ∀ st piece, (f st piece).remaining = st.remaining ∨
      (f st piece).remaining = st.remaining ++ [piece]) :
    ∀ (pieces : List Piece) (st : PanelState) (p : Piece),
      p ∈ (pieces.foldl f st).remaining → p ∈ st.remaining ∨ p ∈ pieces := by
  intro pieces
  induction pieces with
  | nil => intro st p hp; exact Or.inl hp
  | cons x xs ih =>
      intro st p hp
      rcases ih (f st x) p hp with h | h
      · rcases hf st x with heq | heq
        · rw [heq] at h; exact Or.inl h
        · rw [heq] at h
          rcases List.mem_append.1 h with h | h
          · exact Or.inl h
          · simp only [List.mem_singleton] at h; subst h; exact Or.inr (by simp)
      · exact Or.inr (by simp [h])

theorem optimizeSinglePanel_remaining_subset (panelWidth panelHeight : Int)
    (pieces : List Piece) (idx : Nat) (minWasteSize : Int) (pg : Bool) :
    ∀ p ∈ (optimizeSinglePanel panelWidth panelHeight pieces idx minWasteSize pg).remaining,
      p ∈ pieces := by
  intro p hp
  unfold optimizeSinglePanel at hp
  rcases foldl_remaining_subset _ (singlePanelStep_remaining panelWidth panelHeight
    minWasteSize pg idx) pieces _ p hp with h | h
  · cases h
  · exact h

theorem tryPlaceInExistingPanel_remaining_subset (panelWidth panelHeight : Int)
    (existing : List PlacedRectangle) (pieces : List Piece) (idx : Nat)
    (minWasteSize : Int) (pg : Bool) :
    ∀ p ∈ (tryPlaceInExistingPanel panelWidth panelHeight existing pieces idx
        minWasteSize pg).remaining, p ∈ pieces := by
  intro p hp
  unfold tryPlaceInExistingPanel at hp
  rcases foldl_remaining_subset _ (tryStep_remaining panelWidth panelHeight
    minWasteSize pg idx) pieces _ p hp with h | h
  · cases h
  · exact h

/-! ### Driver plumbing: preservation of a panel predicate -/

theorem backfillSweep_preserve (panelWidth panelHeight minWasteSize : Int) (pg : Bool)
    (P : Panel → Prop) (Q : Piece → Prop)
    (hTry : ∀ (panel : Panel) (rem : List Piece) (idx : Nat), P panel → (∀ p ∈ rem, Q p) →
      P ⟨(tryPlaceInExistingPanel panelWidth panelHeight panel.placed rem idx
            minWasteSize pg).placed,
         (tryPlaceInExistingPanel panelWidth panelHeight panel.placed rem idx
            minWasteSize pg).freeRects, idx⟩)
    (panels : List Panel) (remaining : List Piece)
    (hP : ∀ panel ∈ panels, P panel) (hQ : ∀ p ∈ remaining, Q p) :
    (∀ panel ∈ (backfillSweep panelWidth panelHeight minWasteSize pg panels remaining).1,
      P panel) ∧
    (∀ p ∈ (backfillSweep panelWidth panelHeight minWasteSize pg panels remaining).2.1,
      Q p) := by
  unfold backfillSweep
  have := foldl_inv_of_mem
    (fun (st : List Panel × List Piece × Bool) panelIdx =>
      if st.2.1.isEmpty then st
      else
        match st.1[panelIdx]? with
        | none => st
        | some panel =>
            let result := tryPlaceInExistingPanel panelWidth panelHeight panel.placed
              st.2.1 panelIdx minWasteSize pg
            if panel.placed.length < result.placed.length then
              (st.1.set panelIdx ⟨result.placed, result.freeRects, panelIdx⟩,
               result.remaining, true)
            else st)
    (fun st => (∀ panel ∈ st.1, P panel) ∧ (∀ p ∈ st.2.1, Q p))
    (List.range panels.length) ?_ (List.range panels.length) (fun x hx => hx)
    (panels, remaining, false) ⟨hP, hQ⟩
  · exact this
  · intro acc panelIdx _ hacc
    by_cases hemp : acc.2.1.isEmpty
    · simp only [hemp, if_true]; exact hacc
    · simp only [hemp, Bool.false_eq_true, if_false]
      cases hget : acc.1[panelIdx]? with
      | none => exact hacc
      | some panel =>
          simp only
          have hpanelmem : panel ∈ acc.1 := by
            have h2 := List.getElem?_eq_some.1 hget
            obtain ⟨hlt, hgeteq⟩ := h2
            exact hgeteq ▸ List.getElem_mem hlt
          by_cases hprog : panel.placed.length <
              (tryPlaceInExistingPanel panelWidth panelHeight panel.placed acc.2.1
                panelIdx minWasteSize pg).placed.length
          · simp only [hprog, if_true]
            constructor
            · intro q hq
              rcases List.mem_or_eq_of_mem_set hq with hq | hq
              · exact hacc.1 q hq
              · subst hq
                exact hTry panel acc.2.1 panelIdx (hacc.1 panel hpanelmem) hacc.2
            · intro p hp
              exact hacc.2 p (tryPlaceInExistingPanel_remaining_subset panelWidth panelHeight
                panel.placed acc.2.1 panelIdx minWasteSize pg p hp)
          · simp only [hprog, if_false]
            exact hacc

theorem backfillLoop_preserve (panelWidth panelHeight minWasteSize : Int) (pg : Bool)
    (P : Panel → Prop) (Q : Piece → Prop)
    (hTry : ∀ (panel : Panel) (rem : List Piece) (idx : Nat), P panel → (∀ p ∈ rem, Q p) →
      P ⟨(tryPlaceInExistingPanel panelWidth panelHeight panel.placed rem idx
            minWasteSize pg).placed,
         (tryPlaceInExistingPanel panelWidth panelHeight panel.placed rem idx
            minWasteSize pg).freeRects, idx⟩) :
    ∀ (fuel : Nat) (panels : List Panel) (remaining : List Piece) (flag : Bool),
      (∀ panel ∈ panels, P panel) → (∀ p ∈ remaining, Q p) →
      (∀ panel ∈ (backfillLoop panelWidth panelHeight minWasteSize pg fuel panels
          remaining flag).1, P panel) ∧
      (∀ p ∈ (backfillLoop panelWidth panelHeight minWasteSize pg fuel panels
          remaining flag).2.1, Q p) := by
  intro fuel
  induction fuel with
  | zero => intro panels remaining flag hP hQ; exact ⟨hP, hQ⟩
  | succ n ih =>
      intro panels remaining flag hP hQ
      unfold backfillLoop
      by_cases hc : remaining.isEmpty || panels.isEmpty
      · simp only [hc, if_true]; exact ⟨hP, hQ⟩
      · simp only [hc, Bool.false_eq_true, if_false]
        have hsw := backfillSweep_preserve panelWidth panelHeight minWasteSize pg P Q hTry
          panels remaining hP hQ
        rcases hbs : backfillSweep panelWidth panelHeight minWasteSize pg panels remaining
          with ⟨panels2, remaining2, prog⟩
        rw [hbs] at hsw
        cases prog with
        | true => exact ih panels2 remaining2 true hsw.1 hsw.2
        | false => exact hsw

theorem optimizeLoop_forall_panels (panelWidth panelHeight minWasteSize : Int) (pg : Bool)
    (P : Panel → Prop) (Q : Piece → Prop)
    (hTry : ∀ (panel : Panel) (rem : List Piece) (idx : Nat), P panel → (∀ p ∈ rem, Q p) →
      P ⟨(tryPlaceInExistingPanel panelWidth panelHeight panel.placed rem idx
            minWasteSize pg).placed,
         (tryPlaceInExistingPanel panelWidth panelHeight panel.placed rem idx
            minWasteSize pg).freeRects, idx⟩)
    (hNew : ∀ (rem : List Piece) (idx : Nat), (∀ p ∈ rem, Q p) →
      P ⟨(optimizeSinglePanel panelWidth panelHeight rem idx minWasteSize pg).placed,
         (optimizeSinglePanel panelWidth panelHeight rem idx minWasteSize pg).freeRects,
         idx⟩) :
    ∀ (fuel : Nat) (panels : List Panel) (remaining : List Piece) (panelIndex : Nat),
      (∀ panel ∈ panels, P panel) → (∀ p ∈ remaining, Q p) →
      ∀ panel ∈ (optimizeLoop panelWidth panelHeight minWasteSize pg fuel panels
          remaining panelIndex).1, P panel := by
  intro fuel
  induction fuel with
  | zero => intro panels remaining panelIndex hP _; exact hP
  | succ n ih =>
      intro panels remaining panelIndex hP hQ
      unfold optimizeLoop
      by_cases hemp : remaining.isEmpty
      · simp only [hemp, if_true]; exact hP
      · simp only [hemp, Bool.false_eq_true, if_false]
        have hbl := backfillLoop_preserve panelWidth panelHeight minWasteSize pg P Q hTry
          (remaining.length + 1) panels remaining false hP hQ
        rcases hbf : backfillLoop panelWidth panelHeight minWasteSize pg
            (remaining.length + 1) panels remaining false with ⟨panels2, remaining2, placedAny⟩
        rw [hbf] at hbl
        simp only
        have hP2 := hbl.1
        have hQ2 := hbl.2
        have hQ3 : ∀ p ∈ (optimizeSinglePanel panelWidth panelHeight remaining2 panelIndex
            minWasteSize pg).remaining, Q p := fun p hp =>
          hQ2 p (optimizeSinglePanel_remaining_subset panelWidth panelHeight remaining2
            panelIndex minWasteSize pg p hp)
        have hP3 : ∀ panel ∈ panels2 ++
            [⟨(optimizeSinglePanel panelWidth panelHeight remaining2 panelIndex
                minWasteSize pg).placed,
              (optimizeSinglePanel panelWidth panelHeight remaining2 panelIndex
                minWasteSize pg).freeRects, panelIndex⟩], P panel := by
          intro q hq
          rcases List.mem_append.1 hq with hq | hq
          · exact hP2 q hq
          · simp only [List.mem_singleton] at hq; subst hq
            exact hNew remaining2 panelIndex hQ2
        by_cases hcond : !placedAny && !remaining2.isEmpty
        · simp only [hcond, if_true]
          by_cases hempty : (optimizeSinglePanel panelWidth panelHeight remaining2 panelIndex
              minWasteSize pg).placed.isEmpty
          · simp only [hempty, if_true]; exact hP3
          · simp only [hempty, Bool.false_eq_true, if_false]
            by_cases hcap : 1000 < panelIndex + 1
            · simp only [hcap, if_true]; exact hP3
            · simp only [hcap, if_false]
              by_cases hdead : (optimizeSinglePanel panelWidth panelHeight remaining2
                  panelIndex minWasteSize pg).remaining.length = remaining.length ∧
                  0 < (optimizeSinglePanel panelWidth panelHeight remaining2 panelIndex
                    minWasteSize pg).remaining.length
              · rw [if_pos hdead]
                by_cases htest : (optimizeSinglePanel panelWidth panelHeight
                    (optimizeSinglePanel panelWidth panelHeight remaining2 panelIndex
                      minWasteSize pg).remaining 0 minWasteSize pg).placed.isEmpty
                · simp only [htest, if_true]; exact hP3
                · simp only [htest, Bool.false_eq_true, if_false]
                  exact ih _ _ _ hP3 hQ3
              · rw [if_neg hdead]
                exact ih _ _ _ hP3 hQ3
        · simp only [hcond, Bool.false_eq_true, if_false]
          by_cases hdead : remaining2.length = remaining.length ∧ 0 < remaining2.length
          · rw [if_pos hdead]
            by_cases htest : (optimizeSinglePanel panelWidth panelHeight remaining2 0
                minWasteSize pg).placed.isEmpty
            · simp only [htest, if_true]; exact hP2
            · simp only [htest, Bool.false_eq_true, if_false]
              exact ih _ _ _ hP2 hQ2
          · rw [if_neg hdead]
            exact ih _ _ _ hP2 hQ2

/-! ### Expanded and sorted pieces inherit the type dimensions -/

theorem expandPiecesGo_mem (l : List PieceType) (start : Nat) (p : Piece)
    (hp : p ∈ expandPiecesGo l start) :
    ∃ pt ∈ l, p.width = pt.width ∧ p.height = pt.height ∧
      p.rotationAllowed = pt.rotationAllowed := by
  induction l generalizing start with
  | nil => cases hp
  | cons pt rest ih =>
      unfold expandPiecesGo at hp
      rcases List.mem_append.1 hp with hp | hp
      · rw [List.mem_map] at hp
        obtain ⟨i, _, hpi⟩ := hp
        subst hpi
        exact ⟨pt, by simp, rfl, rfl, rfl⟩
      · obtain ⟨pt2, hpt2, hw, hh, hr⟩ := ih (start + pt.quantity.toNat) hp
        exact ⟨pt2, by simp [hpt2], hw, hh, hr⟩

theorem expandPieces_mem (l : List PieceType) (p : Piece) (hp : p ∈ expandPieces l) :
    ∃ pt ∈ l, p.width = pt.width ∧ p.height = pt.height ∧
      p.rotationAllowed = pt.rotationAllowed :=
  expandPiecesGo_mem l 0 p hp

theorem insertByArea_mem (l : List Piece) (q p : Piece) (hp : p ∈ insertByArea l q) :
    p ∈ l ∨ p = q := by
  induction l with
  | nil => simp only [insertByArea, List.mem_singleton] at hp; exact Or.inr hp
  | cons x xs ih =>
      unfold insertByArea at hp
      by_cases hc : q.getArea ≤ x.getArea
      · rw [if_pos hc] at hp
        rcases List.mem_cons.1 hp with hp | hp
        · exact Or.inl (by simp [hp])
        · rcases ih hp with h | h
          · exact Or.inl (by simp [h])
          · exact Or.inr h
      · rw [if_neg hc] at hp
        rcases List.mem_cons.1 hp with hp | hp
        · exact Or.inr hp
        · exact Or.inl hp

theorem sortPiecesByArea_mem (l : List Piece) (p : Piece) (hp : p ∈ sortPiecesByArea l) :
    p ∈ l := by
  unfold sortPiecesByArea at hp
  have main : ∀ (rest acc : List Piece), (∀ q ∈ acc, q ∈ l) → (∀ q ∈ rest, q ∈ l) →
      ∀ q ∈ rest.foldl insertByArea acc, q ∈ l := by
    intro rest
    induction rest with
    | nil => intro acc hacc _ q hq; exact hacc q hq
    | cons x xs ih =>
        intro acc hacc hrest q hq
        refine ih (insertByArea acc x) ?_ (fun r hr => hrest r (by simp [hr])) q hq
        intro r hr
        rcases insertByArea_mem acc x r hr with h | h
        · exact hacc r h
        · subst h; exact hrest r (by simp)
  exact main l [] (by simp) (fun q hq => hq) p hp

theorem goodPieces_sorted_expanded (pieces : List PieceType)
    (hdims : ∀ pt ∈ pieces, 0 < pt.width ∧ 0 < pt.height) :
    GoodPieces (sortPiecesByArea (expandPieces pieces)) := by
  intro p hp
  obtain ⟨pt, hpt, hw, hh, _⟩ :=
    expandPieces_mem pieces p (sortPiecesByArea_mem _ p hp)
  rw [hw, hh]
  exact hdims pt hpt

/-! ### Edge-aligned placements (poignet mode) -/

theorem singlePanelStep_edge (panelWidth panelHeight minWasteSize : Int) (idx : Nat)
    (st : PanelState) (piece : Piece)
    (hst : ∀ p ∈ st.placed, p.y = 0 ∨ p.y + p.height = panelHeight) :
    ∀ p ∈ (singlePanelStep panelWidth panelHeight minWasteSize true idx st piece).placed,
      p.y = 0 ∨ p.y + p.height = panelHeight := by
  unfold singlePanelStep
  cases hatt : attemptPlacement panelWidth panelHeight true idx st.freeRects
      st.topRowX st.bottomRowX piece with
  | none => exact hst
  | some q =>
      rcases q with ⟨pr, used, t2, b2⟩
      obtain ⟨_, _, _, hedge⟩ :=
        attemptPlacement_ok panelWidth panelHeight true idx st.freeRects st.topRowX
          st.bottomRowX piece pr used t2 b2 hatt
      intro p hp
      simp only [if_true] at hp
      rcases List.mem_append.1 hp with hp | hp
      · exact hst p hp
      · simp only [List.mem_singleton] at hp; subst hp
        exact hedge rfl

theorem tryStep_edge (panelWidth panelHeight minWasteSize : Int) (idx : Nat)
    (st : PanelState) (piece : Piece)
    (hst : ∀ p ∈ st.placed, p.y = 0 ∨ p.y + p.height = panelHeight) :
    ∀ p ∈ (tryStep panelWidth panelHeight minWasteSize true idx st piece).placed,
      p.y = 0 ∨ p.y + p.height = panelHeight := by
  unfold tryStep
  cases hatt : attemptPlacement panelWidth panelHeight true idx st.freeRects
      st.topRowX st.bottomRowX piece with
  | none => exact hst
  | some q =>
      rcases q with ⟨pr, used, t2, b2⟩
      obtain ⟨_, _, _, hedge⟩ :=
        attemptPlacement_ok panelWidth panelHeight true idx st.freeRects st.topRowX
          st.bottomRowX piece pr used t2 b2 hatt
      intro p hp
      simp only [if_true] at hp
      rcases List.mem_append.1 hp with hp | hp
      · exact hst p hp
      · simp only [List.mem_singleton] at hp; subst hp
        exact hedge rfl

theorem optimizeSinglePanel_edge (panelWidth panelHeight : Int) (pieces : List Piece)
    (idx : Nat) (minWasteSize : Int) :
    ∀ p ∈ (optimizeSinglePanel panelWidth panelHeight pieces idx minWasteSize true).placed,
      p.y = 0 ∨ p.y + p.height = panelHeight := by
  unfold optimizeSinglePanel
  refine foldl_inv_of_mem (singlePanelStep panelWidth panelHeight minWasteSize true idx)
    (fun st => ∀ p ∈ st.placed, p.y = 0 ∨ p.y + p.height = panelHeight) pieces ?_
    pieces (fun x hx => hx) _ ?_
  · intro acc x _ hacc
    exact singlePanelStep_edge panelWidth panelHeight minWasteSize idx acc x hacc
  · intro p hp; cases hp

theorem tryPlaceInExistingPanel_edge (panelWidth panelHeight : Int)
    (existing : List PlacedRectangle) (pieces : List Piece) (idx : Nat)
    (minWasteSize : Int)
    (hex : ∀ p ∈ existing, p.y = 0 ∨ p.y + p.height = panelHeight) :
    ∀ p ∈ (tryPlaceInExistingPanel panelWidth panelHeight existing pieces idx
        minWasteSize true).placed, p.y = 0 ∨ p.y + p.height = panelHeight := by
  unfold tryPlaceInExistingPanel
  refine foldl_inv_of_mem (tryStep panelWidth panelHeight minWasteSize true idx)
    (fun st => ∀ p ∈ st.placed, p.y = 0 ∨ p.y + p.height = panelHeight) pieces ?_
    pieces (fun x hx => hx) _ hex
  intro acc x _ hacc
  exact tryStep_edge panelWidth panelHeight minWasteSize idx acc x hacc

/-! ### Useful-size free rectangles -/

theorem removeOverlapping_useful (freeRects : List Rectangle) (pr : PlacedRectangle)
    (m : Int) : FreesUseful (removeOverlappingFreeRects freeRects pr m) m := by
  intro r hr
  obtain ⟨_, _, hw, hh⟩ := removeOverlappingFreeRects_forall freeRects pr m r hr
  exact ⟨hw, hh⟩

theorem filterSmall_useful (freeRects : List Rectangle) (m : Int) :
    FreesUseful (filterSmallRectangles freeRects m) m := by
  intro r hr
  exact (filterSmallRectangles_mem freeRects m r hr).2

theorem singlePanelStep_useful (panelWidth panelHeight minWasteSize : Int) (pg : Bool)
    (idx : Nat) (st : PanelState) (piece : Piece)
    (hst : st.placed ≠ [] → FreesUseful st.freeRects minWasteSize) :
    (singlePanelStep panelWidth panelHeight minWasteSize pg idx st piece).placed ≠ [] →
    FreesUseful
      (singlePanelStep panelWidth panelHeight minWasteSize pg idx st piece).freeRects
      minWasteSize := by
  unfold singlePanelStep
  cases hatt : attemptPlacement panelWidth panelHeight pg idx st.freeRects
      st.topRowX st.bottomRowX piece with
  | none => exact hst
  | some q =>
      rcases q with ⟨pr, used, t2, b2⟩
      cases pg <;> intro _ <;> exact filterSmall_useful _ minWasteSize

theorem tryStep_useful (panelWidth panelHeight minWasteSize : Int) (pg : Bool)
    (idx : Nat) (st : PanelState) (piece : Piece)
    (hst : st.placed ≠ [] → FreesUseful st.freeRects minWasteSize) :
    (tryStep panelWidth panelHeight minWasteSize pg idx st piece).placed ≠ [] →
    FreesUseful (tryStep panelWidth panelHeight minWasteSize pg idx st piece).freeRects
      minWasteSize := by
  unfold tryStep
  cases hatt : attemptPlacement panelWidth panelHeight pg idx st.freeRects
      st.topRowX st.bottomRowX piece with
  | none => exact hst
  | some q =>
      rcases q with ⟨pr, used, t2, b2⟩
      cases pg with
      | true => intro _; exact removeOverlapping_useful _ pr minWasteSize
      | false => intro _; exact filterSmall_useful _ minWasteSize

theorem subtractPlacedRect_useful (fr : List Rectangle) (p : PlacedRectangle) (m : Int) :
    FreesUseful (subtractPlacedRect fr p m) m := by
  unfold subtractPlacedRect
  intro r hr
  have hr2 : r ∈ filterSmallRectangles (mergeRectangles (List.foldl
      (fun acc rect =>
        if rect.overlaps (rectOfPlaced p) then
          acc ++ splitRectangle rect p.x p.y p.width p.height m
        else acc ++ [rect])
      [] (removeOverlappingFreeRects fr p m))) m := hr
  exact (filterSmallRectangles_mem _ m r hr2).2

theorem rebuildFrees_useful (m : Int) :
    ∀ (l : List PlacedRectangle) (fr : List Rectangle), l ≠ [] →
      FreesUseful (l.foldl (fun fr2 p => subtractPlacedRect fr2 p m) fr) m := by
  intro l
  induction l with
  | nil => intro fr h; exact absurd rfl h
  | cons p rest ih =>
      intro fr _
      by_cases hrest : rest = []
      · subst hrest
        simp only [List.foldl_cons, List.foldl_nil]
        exact subtractPlacedRect_useful fr p m
      · simp only [List.foldl_cons]
        exact ih (subtractPlacedRect fr p m) hrest

theorem optimizeSinglePanel_useful (panelWidth panelHeight : Int) (pieces : List Piece)
    (idx : Nat) (minWasteSize : Int) (pg : Bool) :
    (optimizeSinglePanel panelWidth panelHeight pieces idx minWasteSize pg).placed ≠ [] →
    FreesUseful
      (optimizeSinglePanel panelWidth panelHeight pieces idx minWasteSize pg).freeRects
      minWasteSize := by
  unfold optimizeSinglePanel
  refine foldl_inv_of_mem (singlePanelStep panelWidth panelHeight minWasteSize pg idx)
    (fun st => st.placed ≠ [] → FreesUseful st.freeRects minWasteSize) pieces
    (fun acc x _ hacc =>
      singlePanelStep_useful panelWidth panelHeight minWasteSize pg idx acc x hacc)
    pieces (fun x hx => hx) ⟨[⟨0, 0, panelWidth, panelHeight⟩], [], [], 0, 0⟩ ?_
  intro h
  simp at h

theorem tryPlaceInExistingPanel_useful (panelWidth panelHeight : Int)
    (existing : List PlacedRectangle) (pieces : List Piece) (idx : Nat)
    (minWasteSize : Int) (pg : Bool) :
    (tryPlaceInExistingPanel panelWidth panelHeight existing pieces idx
      minWasteSize pg).placed ≠ [] →
    FreesUseful (tryPlaceInExistingPanel panelWidth panelHeight existing pieces idx
      minWasteSize pg).freeRects minWasteSize := by
  unfold tryPlaceInExistingPanel
  refine foldl_inv_of_mem (tryStep panelWidth panelHeight minWasteSize pg idx)
    (fun st => st.placed ≠ [] → FreesUseful st.freeRects minWasteSize) pieces
    (fun acc x _ hacc =>
      tryStep_useful panelWidth panelHeight minWasteSize pg idx acc x hacc)
    pieces (fun x hx => hx) _ ?_
  intro hne
  cases hex : existing with
  | nil => simp only [hex] at hne; exact absurd rfl hne
  | cons p rest =>
      exact hex ▸ rebuildFrees_useful minWasteSize existing
        [⟨0, 0, panelWidth, panelHeight⟩] (by simp [hex])

/-! ### Unfolding `optimize` -/

theorem optimize_invalid (panelWidth panelHeight : Int) (pieces : List PieceType)
    (m : Int) (pg : Bool) (h : panelWidth ≤ 0 ∨ panelHeight ≤ 0) :
    optimize panelWidth panelHeight pieces m pg = ⟨[], [], emptyStats m⟩ := by
  unfold optimize
  have hc : (decide (panelWidth ≤ 0) || decide (panelHeight ≤ 0)) = true := by
    rcases h with h | h <;> simp [h]
  simp only [hc]
  rfl

theorem optimize_valid_destruct (panelWidth panelHeight : Int) (pieces : List PieceType)
    (m : Int) (pg : Bool) (hW : 0 < panelWidth) (hH : 0 < panelHeight) :
    (optimize panelWidth panelHeight pieces m pg).panels =
      (optimizeLoop panelWidth panelHeight m pg
        ((sortPiecesByArea (expandPieces pieces)).length + 2) []
        (sortPiecesByArea (expandPieces pieces)) 0).1 ∧
    (optimize panelWidth panelHeight pieces m pg).rejected =
      (optimizeLoop panelWidth panelHeight m pg
        ((sortPiecesByArea (expandPieces pieces)).length + 2) []
        (sortPiecesByArea (expandPieces pieces)) 0).2 ∧
    (optimize panelWidth panelHeight pieces m pg).stats.panelCount =
      (optimizeLoop panelWidth panelHeight m pg
        ((sortPiecesByArea (expandPieces pieces)).length + 2) []
        (sortPiecesByArea (expandPieces pieces)) 0).1.length := by
  unfold optimize
  have hc : (decide (panelWidth ≤ 0) || decide (panelHeight ≤ 0)) = false := by
    simp only [Bool.or_eq_false_iff, decide_eq_false_iff_not, not_le]
    exact ⟨hW, hH⟩
  simp only [hc, Bool.false_eq_true, if_false]
  rcases hol : optimizeLoop panelWidth panelHeight m pg
      ((sortPiecesByArea (expandPieces pieces)).length + 2) []
      (sortPiecesByArea (expandPieces pieces)) 0 with ⟨panels, rejected⟩
  refine ⟨?_, ?_, ?_⟩ <;> first | rfl | trivial

/-! ### Claim theorems: invariants -/

/-- Claim C3: for every input whose piece types have positive dimensions (the
data-model invariant on `PieceType`), every pair of distinct placements on any
panel of the result is non-overlapping under the strict interior-overlap
predicate — sharing an edge is permitted, sharing interior area is not — in
free mode and in edge-aligned mode alike, including pieces added to a panel by
back-fill. -/
theorem claim_C3 (panelWidth panelHeight : Int) (pieces : List PieceType)
    (minWasteSize : Int) (poignetEnabled : Bool)
    (hdims : ∀ pt ∈ pieces, 0 < pt.width ∧ 0 < pt.height) :
    ∀ panel ∈ (optimize panelWidth panelHeight pieces minWasteSize poignetEnabled).panels,
      ∀ p ∈ panel.placed, ∀ q ∈ panel.placed, p ≠ q →
        (rectOfPlaced p).overlaps (rectOfPlaced q) = false := by
  by_cases hvalid : panelWidth ≤ 0 ∨ panelHeight ≤ 0
  · rw [optimize_invalid panelWidth panelHeight pieces minWasteSize poignetEnabled hvalid]
    intro panel hpanel
    cases hpanel
  · push_neg at hvalid
    obtain ⟨hpanels, _, _⟩ := optimize_valid_destruct panelWidth panelHeight pieces
      minWasteSize poignetEnabled hvalid.1 hvalid.2
    rw [hpanels]
    have hmain := optimizeLoop_forall_panels panelWidth panelHeight minWasteSize poignetEnabled
      (fun panel => PlacedDisjoint panel.placed ∧ PlacedPos panel.placed)
      (fun p => 0 < p.width ∧ 0 < p.height)
      (fun panel rem idx hP hQ =>
        have hinv := tryPlaceInExistingPanel_inv panelWidth panelHeight panel.placed rem idx
          minWasteSize poignetEnabled hP.1 hP.2 hQ
        ⟨hinv.1, hinv.2.1⟩)
      (fun rem idx hQ =>
        have hinv := optimizeSinglePanel_inv panelWidth panelHeight rem idx minWasteSize
          poignetEnabled hQ
        ⟨hinv.1, hinv.2.1⟩)
      ((sortPiecesByArea (expandPieces pieces)).length + 2) [] _ 0
      (fun panel hpanel => by cases hpanel)
      (goodPieces_sorted_expanded pieces hdims)
    intro panel hpanel p hp q hq hne
    have hpair := (hmain panel hpanel).1
    have hsymm : Symmetric (fun p q : PlacedRectangle =>
        (rectOfPlaced p).overlaps (rectOfPlaced q) = false) := by
      intro a b hab
      rw [overlaps_comm]
      exact hab
    exact List.Pairwise.forall hsymm hpair hp hq hne

/-- Claim C7: when `poignetEnabled` is true, every placement in the result
touches the top edge (`y = 0`) or the bottom edge (`y + h = H`) of its panel,
both in the fresh-panel path and in the back-fill path. -/
theorem claim_C7 (panelWidth panelHeight : Int) (pieces : List PieceType)
    (minWasteSize : Int) :
    ∀ panel ∈ (optimize panelWidth panelHeight pieces minWasteSize true).panels,
      ∀ p ∈ panel.placed, p.y = 0 ∨ p.y + p.height = panelHeight := by
  by_cases hvalid : panelWidth ≤ 0 ∨ panelHeight ≤ 0
  · rw [optimize_invalid panelWidth panelHeight pieces minWasteSize true hvalid]
    intro panel hpanel
    cases hpanel
  · push_neg at hvalid
    obtain ⟨hpanels, _, _⟩ := optimize_valid_destruct panelWidth panelHeight pieces
      minWasteSize true hvalid.1 hvalid.2
    rw [hpanels]
    exact optimizeLoop_forall_panels panelWidth panelHeight minWasteSize true
      (fun panel => ∀ p ∈ panel.placed, p.y = 0 ∨ p.y + p.height = panelHeight)
      (fun _ => True)
      (fun panel rem idx hP _ =>
        tryPlaceInExistingPanel_edge panelWidth panelHeight panel.placed rem idx
          minWasteSize hP)
      (fun rem idx _ =>
        optimizeSinglePanel_edge panelWidth panelHeight rem idx minWasteSize)
      ((sortPiecesByArea (expandPieces pieces)).length + 2) [] _ 0
      (fun panel hpanel => by cases hpanel)
      (fun _ _ => trivial)

/-- Claim C8 (amended): every free rectangle of every panel that contains at
least one placement reaches `minWasteSize` in both dimensions; the single
zero-placement panel that may terminate the driver keeps the unfiltered
full-panel rectangle. -/
theorem claim_C8_amended (panelWidth panelHeight : Int) (pieces : List PieceType)
    (minWasteSize : Int) (poignetEnabled : Bool) :
    ∀ panel ∈ (optimize panelWidth panelHeight pieces minWasteSize poignetEnabled).panels,
      panel.placed ≠ [] →
      ∀ f ∈ panel.freeRects, minWasteSize ≤ f.width ∧ minWasteSize ≤ f.height := by
  by_cases hvalid : panelWidth ≤ 0 ∨ panelHeight ≤ 0
  · rw [optimize_invalid panelWidth panelHeight pieces minWasteSize poignetEnabled hvalid]
    intro panel hpanel
    cases hpanel
  · push_neg at hvalid
    obtain ⟨hpanels, _, _⟩ := optimize_valid_destruct panelWidth panelHeight pieces
      minWasteSize poignetEnabled hvalid.1 hvalid.2
    rw [hpanels]
    exact optimizeLoop_forall_panels panelWidth panelHeight minWasteSize poignetEnabled
      (fun panel => panel.placed ≠ [] →
        ∀ f ∈ panel.freeRects, minWasteSize ≤ f.width ∧ minWasteSize ≤ f.height)
      (fun _ => True)
      (fun panel rem idx _ _ =>
        tryPlaceInExistingPanel_useful panelWidth panelHeight panel.placed rem idx
          minWasteSize poignetEnabled)
      (fun rem idx _ =>
        optimizeSinglePanel_useful panelWidth panelHeight rem idx minWasteSize poignetEnabled)
      ((sortPiecesByArea (expandPieces pieces)).length + 2) [] _ 0
      (fun panel hpanel => by cases hpanel)
      (fun _ _ => trivial)

/-- Claim C8 counterexample: with a 50×50 panel, a 100×100 piece and
`minWasteSize = 100`, the terminating zero-placement panel carries the
unfiltered free rectangle `(0,0,50,50)`, whose dimensions are below
`minWasteSize` — the claim as stated fails. -/
theorem claim_C8_counterexample :
    ¬ (∀ panel ∈ (optimize 50 50 [⟨1, 100, 100, 1, false⟩] 100 false).panels,
        ∀ f ∈ panel.freeRects, (100 : Int) ≤ f.width ∧ (100 : Int) ≤ f.height) := by
  decide

theorem claim_C3_witness :
    (∀ pt ∈ [(⟨0, 200, 150, 2, true⟩ : PieceType)], 0 < pt.width ∧ 0 < pt.height) ∧
    (rectOfPlaced ⟨0, 0, 200, 150, 0, 0, false, 0⟩).overlaps
      (rectOfPlaced ⟨200, 0, 200, 150, 1, 0, false, 0⟩) = false :=
  ⟨by decide,
   claim_C3 1000 1000 [⟨0, 200, 150, 2, true⟩] 100 false (by decide)
     ⟨[⟨0, 0, 200, 150, 0, 0, false, 0⟩, ⟨200, 0, 200, 150, 1, 0, false, 0⟩],
      [⟨0, 150, 400, 850⟩, ⟨400, 0, 600, 1000⟩], 0⟩ (by decide)
     ⟨0, 0, 200, 150, 0, 0, false, 0⟩ (by decide)
     ⟨200, 0, 200, 150, 1, 0, false, 0⟩ (by decide) (by decide)⟩

theorem claim_C7_witness :
    (⟨0, 0, 400, 100, 0, 0, false, 0⟩ : PlacedRectangle).y = 0 ∨
    (⟨0, 0, 400, 100, 0, 0, false, 0⟩ : PlacedRectangle).y +
      (⟨0, 0, 400, 100, 0, 0, false, 0⟩ : PlacedRectangle).height = 500 :=
  claim_C7 1000 500 [⟨0, 400, 100, 1, false⟩] 100
    ⟨[⟨0, 0, 400, 100, 0, 0, false, 0⟩], [⟨400, 0, 600, 500⟩, ⟨0, 100, 1000, 400⟩], 0⟩
    (by decide) ⟨0, 0, 400, 100, 0, 0, false, 0⟩ (by decide)

theorem claim_C8_witness :
    (100 : Int) ≤ (⟨0, 150, 400, 850⟩ : Rectangle).width ∧
    (100 : Int) ≤ (⟨0, 150, 400, 850⟩ : Rectangle).height :=
  claim_C8_amended 1000 1000 [⟨0, 200, 150, 2, true⟩] 100 false
    ⟨[⟨0, 0, 200, 150, 0, 0, false, 0⟩, ⟨200, 0, 200, 150, 1, 0, false, 0⟩],
     [⟨0, 150, 400, 850⟩, ⟨400, 0, 600, 1000⟩], 0⟩ (by decide) (by decide)
    ⟨0, 150, 400, 850⟩ (by decide)

/-! ### Conservation counting -/

theorem singlePanelStep_count (panelWidth panelHeight minWasteSize : Int) (pg : Bool)
    (idx : Nat) (st : PanelState) (piece : Piece) :
    (singlePanelStep panelWidth panelHeight minWasteSize pg idx st piece).placed.length +
      (singlePanelStep panelWidth panelHeight minWasteSize pg idx st piece).remaining.length =
    st.placed.length + st.remaining.length + 1 := by
  unfold singlePanelStep
  cases hatt : attemptPlacement panelWidth panelHeight pg idx st.freeRects
      st.topRowX st.bottomRowX piece with
  | none => simp; omega
  | some q =>
      rcases q with ⟨pr, used, t2, b2⟩
      cases pg <;> simp <;> omega

theorem tryStep_count (panelWidth panelHeight minWasteSize : Int) (pg : Bool)
    (idx : Nat) (st : PanelState) (piece : Piece) :
    (tryStep panelWidth panelHeight minWasteSize pg idx st piece).placed.length +
      (tryStep panelWidth panelHeight minWasteSize pg idx st piece).remaining.length =
    st.placed.length + st.remaining.length + 1 := by
  unfold tryStep
  cases hatt : attemptPlacement panelWidth panelHeight pg idx st.freeRects
      st.topRowX st.bottomRowX piece with
  | none => simp; omega
  | some q =>
      rcases q with ⟨pr, used, t2, b2⟩
      cases pg <;> simp <;> omega

theorem foldl_step_count (f : PanelState → Piece → PanelState)
    (hf : ∀ st piece, (f st piece).placed.length + (f st piece).remaining.length =
      st.placed.length + st.remaining.length + 1) :
    ∀ (pieces : List Piece) (st : PanelState),
      (pieces.foldl f st).placed.length + (pieces.foldl f st).remaining.length =
      st.placed.length + st.remaining.length + pieces.length := by
  intro pieces
  induction pieces with
  | nil => intro st; simp
  | cons x xs ih =>
      intro st
      have h1 := hf st x
      have h2 := ih (f st x)
      simp only [List.foldl_cons, List.length_cons]
      omega

theorem optimizeSinglePanel_count (panelWidth panelHeight : Int) (pieces : List Piece)
    (idx : Nat) (minWasteSize : Int) (pg : Bool) :
    (optimizeSinglePanel panelWidth panelHeight pieces idx minWasteSize pg).placed.length +
      (optimizeSinglePanel panelWidth panelHeight pieces idx minWasteSize
        pg).remaining.length = pieces.length := by
  unfold optimizeSinglePanel
  have := foldl_step_count (singlePanelStep panelWidth panelHeight minWasteSize pg idx)
    (singlePanelStep_count panelWidth panelHeight minWasteSize pg idx) pieces
    ⟨[⟨0, 0, panelWidth, panelHeight⟩], [], [], 0, 0⟩
  simpa using this

theorem tryPlaceInExistingPanel_count (panelWidth panelHeight : Int)
    (existing : List PlacedRectangle) (pieces : List Piece) (idx : Nat)
    (minWasteSize : Int) (pg : Bool) :
    (tryPlaceInExistingPanel panelWidth panelHeight existing pieces idx minWasteSize
      pg).placed.length +
    (tryPlaceInExistingPanel panelWidth panelHeight existing pieces idx minWasteSize
      pg).remaining.length = existing.length + pieces.length := by
  unfold tryPlaceInExistingPanel
  have := foldl_step_count (tryStep panelWidth panelHeight minWasteSize pg idx)
    (tryStep_count panelWidth panelHeight minWasteSize pg idx) pieces
  simpa using this _

theorem sum_map_set (f : Panel → Nat) :
    ∀ (l : List Panel) (i : Nat) (a panel : Panel), l[i]? = some panel →
      ((l.set i a).map f).sum + f panel = (l.map f).sum + f a := by
  intro l
  induction l with
  | nil => intro i a panel h; cases h
  | cons x xs ih =>
      intro i a panel h
      cases i with
      | zero =>
          simp only [List.getElem?_cons_zero, Option.some.injEq] at h
          subst h
          simp only [List.set_cons_zero, List.map_cons, List.sum_cons]
          omega
      | succ n =>
          simp only [List.getElem?_cons_succ] at h
          have := ih n a panel h
          simp only [List.set_cons_succ, List.map_cons, List.sum_cons]
          omega

/-- The total piece count (placed across panels plus remaining) is preserved by
one back-fill sweep. -/
theorem backfillSweep_count (panelWidth panelHeight minWasteSize : Int) (pg : Bool)
    (panels : List Panel) (remaining : List Piece) :
    (((backfillSweep panelWidth panelHeight minWasteSize pg panels remaining).1.map
        (fun p => p.placed.length)).sum +
      (backfillSweep panelWidth panelHeight minWasteSize pg panels
        remaining).2.1.length) =
    ((panels.map (fun p => p.placed.length)).sum + remaining.length) := by
  unfold backfillSweep
  have := foldl_inv_of_mem
    (fun (st : List Panel × List Piece × Bool) panelIdx =>
      if st.2.1.isEmpty then st
      else
        match st.1[panelIdx]? with
        | none => st
        | some panel =>
            let result := tryPlaceInExistingPanel panelWidth panelHeight panel.placed
              st.2.1 panelIdx minWasteSize pg
            if panel.placed.length < result.placed.length then
              (st.1.set panelIdx ⟨result.placed, result.freeRects, panelIdx⟩,
               result.remaining, true)
            else st)
    (fun st => (st.1.map (fun p => p.placed.length)).sum + st.2.1.length =
      (panels.map (fun p => p.placed.length)).sum + remaining.length)
    (List.range panels.length) ?_ (List.range panels.length) (fun x hx => hx)
    (panels, remaining, false) rfl
  · exact this
  · intro acc panelIdx _ hacc
    by_cases hemp : acc.2.1.isEmpty
    · simp only [hemp, if_true]; exact hacc
    · simp only [hemp, Bool.false_eq_true, if_false]
      cases hget : acc.1[panelIdx]? with
      | none => exact hacc
      | some panel =>
          simp only
          by_cases hprog : panel.placed.length <
              (tryPlaceInExistingPanel panelWidth panelHeight panel.placed acc.2.1
                panelIdx minWasteSize pg).placed.length
          · simp only [hprog, if_true]
            have hset := sum_map_set (fun p => p.placed.length) acc.1 panelIdx
              ⟨(tryPlaceInExistingPanel panelWidth panelHeight panel.placed acc.2.1
                  panelIdx minWasteSize pg).placed,
               (tryPlaceInExistingPanel panelWidth panelHeight panel.placed acc.2.1
                  panelIdx minWasteSize pg).freeRects, panelIdx⟩ panel hget
            have hcount := tryPlaceInExistingPanel_count panelWidth panelHeight panel.placed
              acc.2.1 panelIdx minWasteSize pg
            simp only at hset
            omega
          · simp only [hprog, if_false]
            exact hacc

theorem backfillLoop_count (panelWidth panelHeight minWasteSize : Int) (pg : Bool) :
    ∀ (fuel : Nat) (panels : List Panel) (remaining : List Piece) (flag : Bool),
      (((backfillLoop panelWidth panelHeight minWasteSize pg fuel panels remaining
          flag).1.map (fun p => p.placed.length)).sum +
        (backfillLoop panelWidth panelHeight minWasteSize pg fuel panels remaining
          flag).2.1.length) =
      ((panels.map (fun p => p.placed.length)).sum + remaining.length) := by
  intro fuel
  induction fuel with
  | zero => intro panels remaining flag; rfl
  | succ n ih =>
      intro panels remaining flag
      unfold backfillLoop
      by_cases hc : remaining.isEmpty || panels.isEmpty
      · simp only [hc, if_true]
      · simp only [hc, Bool.false_eq_true, if_false]
        have hsw := backfillSweep_count panelWidth panelHeight minWasteSize pg panels remaining
        rcases hbs : backfillSweep panelWidth panelHeight minWasteSize pg panels remaining
          with ⟨panels2, remaining2, prog⟩
        rw [hbs] at hsw
        cases prog with
        | true =>
            have := ih panels2 remaining2 true
            simp only at hsw ⊢
            omega
        | false => exact hsw

theorem optimizeLoop_count (panelWidth panelHeight minWasteSize : Int) (pg : Bool) :
    ∀ (fuel : Nat) (panels : List Panel) (remaining : List Piece) (panelIndex : Nat),
      (((optimizeLoop panelWidth panelHeight minWasteSize pg fuel panels remaining
          panelIndex).1.map (fun p => p.placed.length)).sum +
        (optimizeLoop panelWidth panelHeight minWasteSize pg fuel panels remaining
          panelIndex).2.length) =
      ((panels.map (fun p => p.placed.length)).sum + remaining.length) := by
  intro fuel
  induction fuel with
  | zero => intro panels remaining panelIndex; rfl
  | succ n ih =>
      intro panels remaining panelIndex
      unfold optimizeLoop
      by_cases hemp : remaining.isEmpty
      · simp only [hemp, if_true]
      · simp only [hemp, Bool.false_eq_true, if_false]
        have hbl := backfillLoop_count panelWidth panelHeight minWasteSize pg
          (remaining.length + 1) panels remaining false
        rcases hbf : backfillLoop panelWidth panelHeight minWasteSize pg
            (remaining.length + 1) panels remaining false with ⟨panels2, remaining2, placedAny⟩
        rw [hbf] at hbl
        simp only at hbl ⊢
        have hnewcount := optimizeSinglePanel_count panelWidth panelHeight remaining2
          panelIndex minWasteSize pg
        by_cases hcond : !placedAny && !remaining2.isEmpty
        · simp only [hcond, if_true]
          by_cases hempty : (optimizeSinglePanel panelWidth panelHeight remaining2 panelIndex
              minWasteSize pg).placed.isEmpty
          · simp only [hempty, if_true]
            simp only [List.map_append, List.sum_append, List.map_cons, List.sum_cons,
              List.map_nil, List.sum_nil]
            have : (optimizeSinglePanel panelWidth panelHeight remaining2 panelIndex
                minWasteSize pg).placed.length = 0 := by
              simp only [List.isEmpty_iff] at hempty
              simp [hempty]
            omega
          · simp only [hempty, Bool.false_eq_true, if_false]
            by_cases hcap : 1000 < panelIndex + 1
            · simp only [hcap, if_true]
              simp only [List.map_append, List.sum_append, List.map_cons, List.sum_cons,
                List.map_nil, List.sum_nil]
              omega
            · simp only [hcap, if_false]
              by_cases hdead : (optimizeSinglePanel panelWidth panelHeight remaining2
                  panelIndex minWasteSize pg).remaining.length = remaining.length ∧
                  0 < (optimizeSinglePanel panelWidth panelHeight remaining2 panelIndex
                    minWasteSize pg).remaining.length
              · rw [if_pos hdead]
                by_cases htest : (optimizeSinglePanel panelWidth panelHeight
                    (optimizeSinglePanel panelWidth panelHeight remaining2 panelIndex
                      minWasteSize pg).remaining 0 minWasteSize pg).placed.isEmpty
                · simp only [htest, if_true]
                  simp only [List.map_append, List.sum_append, List.map_cons, List.sum_cons,
                    List.map_nil, List.sum_nil]
                  omega
                · simp only [htest, Bool.false_eq_true, if_false]
                  have := ih (panels2 ++
                    [⟨(optimizeSinglePanel panelWidth panelHeight remaining2 panelIndex
                        minWasteSize pg).placed,
                      (optimizeSinglePanel panelWidth panelHeight remaining2 panelIndex
                        minWasteSize pg).freeRects, panelIndex⟩])
                    (optimizeSinglePanel panelWidth panelHeight remaining2 panelIndex
                      minWasteSize pg).remaining (panelIndex + 1)
                  simp only [List.map_append, List.sum_append, List.map_cons, List.sum_cons,
                    List.map_nil, List.sum_nil] at this ⊢
                  omega
              · rw [if_neg hdead]
                have := ih (panels2 ++
                  [⟨(optimizeSinglePanel panelWidth panelHeight remaining2 panelIndex
                      minWasteSize pg).placed,
                    (optimizeSinglePanel panelWidth panelHeight remaining2 panelIndex
                      minWasteSize pg).freeRects, panelIndex⟩])
                  (optimizeSinglePanel panelWidth panelHeight remaining2 panelIndex
                    minWasteSize pg).remaining (panelIndex + 1)
                simp only [List.map_append, List.sum_append, List.map_cons, List.sum_cons,
                  List.map_nil, List.sum_nil] at this ⊢
                omega
        · simp only [hcond, Bool.false_eq_true, if_false]
          by_cases hdead : remaining2.length = remaining.length ∧ 0 < remaining2.length
          · rw [if_pos hdead]
            by_cases htest : (optimizeSinglePanel panelWidth panelHeight remaining2 0
                minWasteSize pg).placed.isEmpty
            · simp only [htest, if_true]
              omega
            · simp only [htest, Bool.false_eq_true, if_false]
              have := ih panels2 remaining2 panelIndex
              omega
          · rw [if_neg hdead]
            have := ih panels2 remaining2 panelIndex
            omega

theorem expandPiecesGo_length (l : List PieceType) :
    ∀ s, (expandPiecesGo l s).length = (l.map (fun pt => pt.quantity.toNat)).sum := by
  induction l with
  | nil => intro s; rfl
  | cons pt rest ih =>
      intro s
      unfold expandPiecesGo
      simp only [List.length_append, List.length_map, List.length_range, List.map_cons,
        List.sum_cons]
      rw [ih (s + pt.quantity.toNat)]

theorem expandPieces_length (l : List PieceType) :
    (expandPieces l).length = (l.map (fun pt => pt.quantity.toNat)).sum :=
  expandPiecesGo_length l 0

theorem insertByArea_length (l : List Piece) (p : Piece) :
    (insertByArea l p).length = l.length + 1 := by
  induction l with
  | nil => rfl
  | cons x xs ih =>
      unfold insertByArea
      by_cases hc : p.getArea ≤ x.getArea
      · rw [if_pos hc]
        simp only [List.length_cons, ih]
      · rw [if_neg hc]
        simp only [List.length_cons]

theorem sortPiecesByArea_length (l : List Piece) :
    (sortPiecesByArea l).length = l.length := by
  unfold sortPiecesByArea
  have main : ∀ (rest acc : List Piece),
      (rest.foldl insertByArea acc).length = acc.length + rest.length := by
    intro rest
    induction rest with
    | nil => intro acc; simp
    | cons x xs ih =>
        intro acc
        simp only [List.foldl_cons, List.length_cons]
        rw [ih (insertByArea acc x), insertByArea_length]
        omega
  simpa using main l []

theorem sum_toNat_quantities (pieces : List PieceType)
    (hq : ∀ pt ∈ pieces, 0 < pt.quantity) :
    (((pieces.map (fun pt => pt.quantity.toNat)).sum : ℕ) : ℤ) =
      (pieces.map (fun pt => pt.quantity)).sum := by
  induction pieces with
  | nil => rfl
  | cons pt rest ih =>
      simp only [List.map_cons, List.sum_cons, Nat.cast_add]
      rw [ih (fun q hq2 => hq q (by simp [hq2]))]
      have : (0 : Int) ≤ pt.quantity := le_of_lt (hq pt (by simp))
      rw [Int.toNat_of_nonneg this]

/-- Claim C9: with positive panel dimensions and positive quantities, the total
number of placements over all returned panels plus the number of rejected
pieces equals the sum of the input quantities — every expanded piece is placed
exactly once or rejected. -/
theorem claim_C9 (panelWidth panelHeight : Int) (pieces : List PieceType)
    (minWasteSize : Int) (poignetEnabled : Bool)
    (hW : 0 < panelWidth) (hH : 0 < panelHeight)
    (hq : ∀ pt ∈ pieces, 0 < pt.quantity) :
    ((((optimize panelWidth panelHeight pieces minWasteSize poignetEnabled).panels.map
        (fun p => p.placed.length)).sum +
      (optimize panelWidth panelHeight pieces minWasteSize
        poignetEnabled).rejected.length : ℕ) : ℤ) =
    (pieces.map (fun pt => pt.quantity)).sum := by
  obtain ⟨hpanels, hrejected, _⟩ := optimize_valid_destruct panelWidth panelHeight pieces
    minWasteSize poignetEnabled hW hH
  rw [hpanels, hrejected]
  have hcount := optimizeLoop_count panelWidth panelHeight minWasteSize poignetEnabled
    ((sortPiecesByArea (expandPieces pieces)).length + 2) []
    (sortPiecesByArea (expandPieces pieces)) 0
  simp only [List.map_nil, List.sum_nil, Nat.zero_add] at hcount
  rw [hcount, sortPiecesByArea_length, expandPieces_length]
  exact sum_toNat_quantities pieces hq

theorem claim_C9_witness :
    ((0 : Int) < 1000 ∧ (0 : Int) < 1000 ∧
      (∀ pt ∈ [(⟨0, 200, 150, 2, true⟩ : PieceType)], 0 < pt.quantity)) ∧
    ((((optimize 1000 1000 [⟨0, 200, 150, 2, true⟩] 100 false).panels.map
        (fun p => p.placed.length)).sum +
      (optimize 1000 1000 [⟨0, 200, 150, 2, true⟩] 100 false).rejected.length : ℕ) : ℤ) =
    ([(⟨0, 200, 150, 2, true⟩ : PieceType)].map (fun pt => pt.quantity)).sum :=
  ⟨⟨by decide, by decide, by decide⟩,
   claim_C9 1000 1000 [⟨0, 200, 150, 2, true⟩] 100 false (by decide) (by decide) (by decide)⟩

/-! ### Panel-count bound -/

theorem backfillSweep_length (panelWidth panelHeight minWasteSize : Int) (pg : Bool)
    (panels : List Panel) (remaining : List Piece) :
    (backfillSweep panelWidth panelHeight minWasteSize pg panels remaining).1.length =
      panels.length := by
  unfold backfillSweep
  have := foldl_inv_of_mem
    (fun (st : List Panel × List Piece × Bool) panelIdx =>
      if st.2.1.isEmpty then st
      else
        match st.1[panelIdx]? with
        | none => st
        | some panel =>
            let result := tryPlaceInExistingPanel panelWidth panelHeight panel.placed
              st.2.1 panelIdx minWasteSize pg
            if panel.placed.length < result.placed.length then
              (st.1.set panelIdx ⟨result.placed, result.freeRects, panelIdx⟩,
               result.remaining, true)
            else st)
    (fun st => st.1.length = panels.length)
    (List.range panels.length) ?_ (List.range panels.length) (fun x hx => hx)
    (panels, remaining, false) rfl
  · exact this
  · intro acc panelIdx _ hacc
    by_cases hemp : acc.2.1.isEmpty
    · simp only [hemp, if_true]; exact hacc
    · simp only [hemp, Bool.false_eq_true, if_false]
      cases hget : acc.1[panelIdx]? with
      | none => exact hacc
      | some panel =>
          simp only
          by_cases hprog : panel.placed.length <
              (tryPlaceInExistingPanel panelWidth panelHeight panel.placed acc.2.1
                panelIdx minWasteSize pg).placed.length
          · simp only [hprog, if_true, List.length_set]
            exact hacc
          · simp only [hprog, if_false]
            exact hacc

theorem backfillLoop_length (panelWidth panelHeight minWasteSize : Int) (pg : Bool) :
    ∀ (fuel : Nat) (panels : List Panel) (remaining : List Piece) (flag : Bool),
      (backfillLoop panelWidth panelHeight minWasteSize pg fuel panels remaining
        flag).1.length = panels.length := by
  intro fuel
  induction fuel with
  | zero => intro panels remaining flag; rfl
  | succ n ih =>
      intro panels remaining flag
      unfold backfillLoop
      by_cases hc : remaining.isEmpty || panels.isEmpty
      · simp only [hc, if_true]
      · simp only [hc, Bool.false_eq_true, if_false]
        have hsw := backfillSweep_length panelWidth panelHeight minWasteSize pg panels remaining
        rcases hbs : backfillSweep panelWidth panelHeight minWasteSize pg panels remaining
          with ⟨panels2, remaining2, prog⟩
        rw [hbs] at hsw
        cases prog with
        | true => rw [ih panels2 remaining2 true]; exact hsw
        | false => exact hsw

theorem optimizeLoop_le_1001 (panelWidth panelHeight minWasteSize : Int) (pg : Bool) :
    ∀ (fuel : Nat) (panels : List Panel) (remaining : List Piece) (panelIndex : Nat),
      panels.length = panelIndex → panelIndex ≤ 1000 →
      (optimizeLoop panelWidth panelHeight minWasteSize pg fuel panels remaining
        panelIndex).1.length ≤ 1001 := by
  intro fuel
  induction fuel with
  | zero => intro panels remaining panelIndex hlen hle; simp only [optimizeLoop]; omega
  | succ n ih =>
      intro panels remaining panelIndex hlen hle
      unfold optimizeLoop
      by_cases hemp : remaining.isEmpty
      · simp only [hemp, if_true]; omega
      · simp only [hemp, Bool.false_eq_true, if_false]
        have hbl := backfillLoop_length panelWidth panelHeight minWasteSize pg
          (remaining.length + 1) panels remaining false
        rcases hbf : backfillLoop panelWidth panelHeight minWasteSize pg
            (remaining.length + 1) panels remaining false with ⟨panels2, remaining2, placedAny⟩
        rw [hbf] at hbl
        simp only at hbl ⊢
        have hlen2 : panels2.length = panelIndex := by rw [hbl, hlen]
        have hlen3 : (panels2 ++
            [(⟨(optimizeSinglePanel panelWidth panelHeight remaining2 panelIndex
                minWasteSize pg).placed,
              (optimizeSinglePanel panelWidth panelHeight remaining2 panelIndex
                minWasteSize pg).freeRects, panelIndex⟩ : Panel)]).length =
            panelIndex + 1 := by
          simp [hlen2]
        by_cases hcond : !placedAny && !remaining2.isEmpty
        · simp only [hcond, if_true]
          by_cases hempty : (optimizeSinglePanel panelWidth panelHeight remaining2 panelIndex
              minWasteSize pg).placed.isEmpty
          · simp only [hempty, if_true]; omega
          · simp only [hempty, Bool.false_eq_true, if_false]
            by_cases hcap : 1000 < panelIndex + 1
            · simp only [hcap, if_true]; omega
            · simp only [hcap, if_false]
              by_cases hdead : (optimizeSinglePanel panelWidth panelHeight remaining2
                  panelIndex minWasteSize pg).remaining.length = remaining.length ∧
                  0 < (optimizeSinglePanel panelWidth panelHeight remaining2 panelIndex
                    minWasteSize pg).remaining.length
              · rw [if_pos hdead]
                by_cases htest : (optimizeSinglePanel panelWidth panelHeight
                    (optimizeSinglePanel panelWidth panelHeight remaining2 panelIndex
                      minWasteSize pg).remaining 0 minWasteSize pg).placed.isEmpty
                · simp only [htest, if_true]; omega
                · simp only [htest, Bool.false_eq_true, if_false]
                  exact ih _ _ _ hlen3 (by omega)
              · rw [if_neg hdead]
                exact ih _ _ _ hlen3 (by omega)
        · simp only [hcond, Bool.false_eq_true, if_false]
          by_cases hdead : remaining2.length = remaining.length ∧ 0 < remaining2.length
          · rw [if_pos hdead]
            by_cases htest : (optimizeSinglePanel panelWidth panelHeight remaining2 0
                minWasteSize pg).placed.isEmpty
            · simp only [htest, if_true]; omega
            · simp only [htest, Bool.false_eq_true, if_false]
              exact ih _ _ _ hlen2 hle
          · rw [if_neg hdead]
            exact ih _ _ _ hlen2 hle

/-- Claim C10 (amended): the driver always terminates — the loop breaks when a
newly opened panel places zero pieces, when no progress is possible, or at the
panel-index safety cap — and the number of panels in the result never exceeds
1001; the cap check `panelIndex > 1000` runs after the increment, so up to 1001
panels (indices 0 through 1000) can be emitted. -/
theorem claim_C10_amended (panelWidth panelHeight : Int) (pieces : List PieceType)
    (minWasteSize : Int) (poignetEnabled : Bool) :
    (optimize panelWidth panelHeight pieces minWasteSize poignetEnabled).panels.length ≤
      1001 := by
  by_cases hvalid : panelWidth ≤ 0 ∨ panelHeight ≤ 0
  · rw [optimize_invalid panelWidth panelHeight pieces minWasteSize poignetEnabled hvalid]
    simp
  · push_neg at hvalid
    obtain ⟨hpanels, _, _⟩ := optimize_valid_destruct panelWidth panelHeight pieces
      minWasteSize poignetEnabled hvalid.1 hvalid.2
    rw [hpanels]
    exact optimizeLoop_le_1001 panelWidth panelHeight minWasteSize poignetEnabled
      _ [] _ 0 rfl (by omega)

/-! ### The panel-cap scenario: 1002 full-panel pieces yield 1001 panels -/

theorem findBestFitPoignet_nilFrees (w h panelHeight tX bX panelWidth : Int) :
    findBestFitPoignet [] w h panelHeight tX bX panelWidth = none := by
  unfold findBestFitPoignet
  split_ifs <;> rfl

theorem attemptPlacement_nilFrees (panelWidth panelHeight : Int) (pg : Bool) (idx : Nat)
    (tX bX : Int) (piece : Piece) :
    attemptPlacement panelWidth panelHeight pg idx [] tX bX piece = none := by
  unfold attemptPlacement
  cases pg with
  | false =>
      cases hrot : piece.rotationAllowed <;>
        simp [findBestFit, chooseFit]
  | true =>
      cases hrot : piece.rotationAllowed <;>
        simp [findBestFitPoignet_nilFrees, chooseFit]

theorem singlePanelStep_nilFrees (panelWidth panelHeight minWasteSize : Int) (pg : Bool)
    (idx : Nat) (st : PanelState) (piece : Piece) (hfr : st.freeRects = []) :
    singlePanelStep panelWidth panelHeight minWasteSize pg idx st piece =
      { st with remaining := st.remaining ++ [piece] } := by
  unfold singlePanelStep
  rw [hfr, attemptPlacement_nilFrees]

theorem tryStep_nilFrees (panelWidth panelHeight minWasteSize : Int) (pg : Bool)
    (idx : Nat) (st : PanelState) (piece : Piece) (hfr : st.freeRects = []) :
    tryStep panelWidth panelHeight minWasteSize pg idx st piece =
      { st with remaining := st.remaining ++ [piece] } := by
  unfold tryStep
  rw [hfr, attemptPlacement_nilFrees]

theorem foldl_singlePanelStep_nilFrees (panelWidth panelHeight minWasteSize : Int)
    (pg : Bool) (idx : Nat) :
    ∀ (l : List Piece) (st : PanelState), st.freeRects = [] →
      l.foldl (singlePanelStep panelWidth panelHeight minWasteSize pg idx) st =
        { st with remaining := st.remaining ++ l } := by
  intro l
  induction l with
  | nil => intro st hfr; simp
  | cons x xs ih =>
      intro st hfr
      rw [List.foldl_cons,
        singlePanelStep_nilFrees panelWidth panelHeight minWasteSize pg idx st x hfr,
        ih { st with remaining := st.remaining ++ [x] } hfr]
      simp

theorem foldl_tryStep_nilFrees (panelWidth panelHeight minWasteSize : Int)
    (pg : Bool) (idx : Nat) :
    ∀ (l : List Piece) (st : PanelState), st.freeRects = [] →
      l.foldl (tryStep panelWidth panelHeight minWasteSize pg idx) st =
        { st with remaining := st.remaining ++ l } := by
  intro l
  induction l with
  | nil => intro st hfr; simp
  | cons x xs ih =>
      intro st hfr
      rw [List.foldl_cons,
        tryStep_nilFrees panelWidth panelHeight minWasteSize pg idx st x hfr,
        ih { st with remaining := st.remaining ++ [x] } hfr]
      simp

theorem optimizeSinglePanel_cap (rest : List Piece) (k idx : Nat) :
    optimizeSinglePanel 100 100 (capPiece k :: rest) idx 100 false =
      ⟨[], [⟨0, 0, 100, 100, k, 7, false, idx⟩], rest, 0, 0⟩ := by
  unfold optimizeSinglePanel
  rw [List.foldl_cons]
  have h1 : singlePanelStep 100 100 100 false idx
      ⟨[⟨0, 0, 100, 100⟩], [], [], 0, 0⟩ (capPiece k) =
      ⟨[], [⟨0, 0, 100, 100, k, 7, false, idx⟩], [], 0, 0⟩ := rfl
  rw [h1, foldl_singlePanelStep_nilFrees 100 100 100 false idx rest _ rfl]
  rfl

theorem tryPlace_cap (i idx : Nat) (rem : List Piece) :
    tryPlaceInExistingPanel 100 100 [capPlaced i] rem idx 100 false =
      ⟨[], [capPlaced i], rem, 0, 0⟩ := by
  show rem.foldl (tryStep 100 100 100 false idx) ⟨[], [capPlaced i], [], 0, 0⟩ =
    ⟨[], [capPlaced i], rem, 0, 0⟩
  rw [foldl_tryStep_nilFrees 100 100 100 false idx rem _ rfl]
  rfl

theorem capPanels_getElem (k x : Nat) (hx : x < k) :
    (capPanels k)[x]? = some (capPanel x) := by
  unfold capPanels
  rw [List.getElem?_map, List.getElem?_range hx]
  rfl

theorem sweep_cap (k : Nat) (rem : List Piece) :
    backfillSweep 100 100 100 false (capPanels k) rem = (capPanels k, rem, false) := by
  unfold backfillSweep
  refine foldl_inv_of_mem _ (fun st => st = (capPanels k, rem, false))
    (List.range (capPanels k).length) ?_ (List.range (capPanels k).length)
    (fun x hx => hx) (capPanels k, rem, false) rfl
  intro acc x hx hacc
  subst hacc
  have hxk : x < k := by
    rw [List.mem_range] at hx
    simpa [capPanels] using hx
  by_cases hemp : rem.isEmpty
  · simp [hemp]
  · simp only [hemp, Bool.false_eq_true, if_false]
    rw [capPanels_getElem k x hxk]
    simp only [capPanel]
    rw [tryPlace_cap]
    simp

theorem backfillLoop_cap (fuel : Nat) (k : Nat) (rem : List Piece) (flag : Bool) :
    backfillLoop 100 100 100 false fuel (capPanels k) rem flag =
      (capPanels k, rem, flag) := by
  cases fuel with
  | zero => rfl
  | succ n =>
      unfold backfillLoop
      by_cases hc : rem.isEmpty || (capPanels k).isEmpty
      · simp [hc]
      · simp only [hc, Bool.false_eq_true, if_false]
        rw [sweep_cap]

theorem capPieces_length (start n : Nat) : (capPieces start n).length = n := by
  simp [capPieces]

theorem capPieces_cons (start n : Nat) :
    capPieces start (n + 1) = capPiece start :: capPieces (start + 1) n := by
  unfold capPieces
  rw [List.range'_succ]
  rfl

theorem capPanels_succ (k : Nat) : capPanels (k + 1) = capPanels k ++ [capPanel k] := by
  unfold capPanels
  rw [List.range_succ, List.map_append]
  rfl

theorem optimizeLoop_cap :
    ∀ (fuel k : Nat), k ≤ 1000 → 1000 - k < fuel →
      optimizeLoop 100 100 100 false fuel (capPanels k) (capPieces k (1002 - k)) k =
        (capPanels 1001, [capPiece 1001]) := by
  intro fuel
  induction fuel with
  | zero => intro k hk hf; omega
  | succ n ih =>
      intro k hk hf
      unfold optimizeLoop
      have hcons : capPieces k (1002 - k) = capPiece k :: capPieces (k + 1) (1001 - k) := by
        have h2 : 1002 - k = (1001 - k) + 1 := by omega
        rw [h2, capPieces_cons]
      rw [hcons]
      simp only [List.isEmpty_cons, Bool.false_eq_true, if_false]
      rw [show (capPiece k :: capPieces (k + 1) (1001 - k)) =
        capPieces k (1002 - k) from hcons.symm, backfillLoop_cap, hcons]
      simp only [List.isEmpty_cons, Bool.not_false, Bool.and_self, if_true]
      rw [optimizeSinglePanel_cap]
      simp only [List.isEmpty_cons, Bool.false_eq_true, if_false]
      have hpanels3 : capPanels k ++
          [(⟨[(⟨0, 0, 100, 100, k, 7, false, k⟩ : PlacedRectangle)], [], k⟩ : Panel)] =
          capPanels (k + 1) := by
        rw [capPanels_succ]
        rfl
      by_cases hk1000 : 1000 < k + 1
      · rw [if_pos hk1000]
        have hk' : k = 1000 := by omega
        subst hk'
        rw [hpanels3]
        have : capPieces 1001 (1001 - 1000) = [capPiece 1001] := rfl
        rw [this]
      · rw [if_neg hk1000]
        have hdead : ¬((capPieces (k + 1) (1001 - k)).length =
            (capPiece k :: capPieces (k + 1) (1001 - k)).length ∧
            0 < (capPieces (k + 1) (1001 - k)).length) := by
          simp only [capPieces_length, List.length_cons]
          omega
        rw [if_neg hdead, hpanels3]
        have h3 : 1001 - k = 1002 - (k + 1) := by omega
        rw [h3]
        exact ih (k + 1) (by omega) (by omega)

theorem insertByArea_const (l : List Piece) (p : Piece)
    (h : ∀ q ∈ l, p.getArea ≤ q.getArea) :
    insertByArea l p = l ++ [p] := by
  induction l with
  | nil => rfl
  | cons x xs ih =>
      unfold insertByArea
      rw [if_pos (h x (by simp))]
      rw [ih (fun q hq => h q (by simp [hq]))]
      rfl

theorem sortPiecesByArea_const (l : List Piece)
    (h : ∀ p ∈ l, ∀ q ∈ l, p.getArea = q.getArea) :
    sortPiecesByArea l = l := by
  unfold sortPiecesByArea
  have main : ∀ (rest acc : List Piece),
      (∀ q ∈ acc, ∀ p ∈ rest, p.getArea ≤ q.getArea) →
      (∀ p ∈ rest, ∀ q ∈ rest, p.getArea = q.getArea) →
      rest.foldl insertByArea acc = acc ++ rest := by
    intro rest
    induction rest with
    | nil => intro acc _ _; simp
    | cons x xs ihr =>
        intro acc hacc hrest
        rw [List.foldl_cons, insertByArea_const acc x (fun q hq => hacc q hq x (by simp))]
        rw [ihr (acc ++ [x]) ?_ ?_]
        · simp
        · intro q hq p hp
          rcases List.mem_append.1 hq with hq | hq
          · exact hacc q hq p (by simp [hp])
          · simp only [List.mem_singleton] at hq
            subst hq
            exact le_of_eq (hrest p (by simp [hp]) q (by simp))
        · intro p hp q hq
          exact hrest p (by simp [hp]) q (by simp [hq])
  exact main l [] (by simp) h

theorem expand_cap :
    sortPiecesByArea (expandPieces [⟨7, 100, 100, 1002, false⟩]) = capPieces 0 1002 := by
  have hexp : expandPieces [(⟨7, 100, 100, 1002, false⟩ : PieceType)] = capPieces 0 1002 := by
    simp only [expandPieces, expandPiecesGo, List.append_nil, capPieces]
    rw [← List.range_eq_range']
    exact List.map_congr_left (fun i _ => by simp [capPiece])
  rw [hexp]
  refine sortPiecesByArea_const _ ?_
  intro p hp q hq
  unfold capPieces at hp hq
  rw [List.mem_map] at hp hq
  obtain ⟨i, _, hpi⟩ := hp
  obtain ⟨j, _, hqj⟩ := hq
  subst hpi
  subst hqj
  rfl

/-- Claim C10 counterexample: 1002 pieces that each fill a whole 100×100 panel
drive the loop to the safety cap; because the check `panelIndex > 1000` runs
after the increment, the result holds 1001 panels, exceeding the claimed bound
of 1000. -/
theorem claim_C10_counterexample :
    1000 < (optimize 100 100 [⟨7, 100, 100, 1002, false⟩] 100 false).panels.length := by
  obtain ⟨hpanels, _, _⟩ := optimize_valid_destruct 100 100 [⟨7, 100, 100, 1002, false⟩]
    100 false (by norm_num) (by norm_num)
  rw [hpanels, expand_cap]
  have hfuel : (capPieces 0 1002).length + 2 = 1004 := by
    rw [capPieces_length]
  rw [hfuel]
  have h2 : optimizeLoop 100 100 100 false 1004 [] (capPieces 0 1002) 0 =
      (capPanels 1001, [capPiece 1001]) :=
    optimizeLoop_cap 1004 0 (by omega) (by omega)
  rw [h2]
  simp [capPanels]

/-! ### Only the final panel can be empty -/

theorem tryStep_placed_mono (panelWidth panelHeight minWasteSize : Int) (pg : Bool)
    (idx : Nat) (st : PanelState) (piece : Piece) :
    st.placed.length ≤
      (tryStep panelWidth panelHeight minWasteSize pg idx st piece).placed.length := by
  unfold tryStep
  cases hatt : attemptPlacement panelWidth panelHeight pg idx st.freeRects
      st.topRowX st.bottomRowX piece with
  | none => exact le_refl _
  | some q =>
      rcases q with ⟨pr, used, t2, b2⟩
      cases pg <;> simp

theorem foldl_tryStep_placed_mono (panelWidth panelHeight minWasteSize : Int) (pg : Bool)
    (idx : Nat) :
    ∀ (l : List Piece) (st : PanelState),
      st.placed.length ≤
        (l.foldl (tryStep panelWidth panelHeight minWasteSize pg idx) st).placed.length := by
  intro l
  induction l with
  | nil => intro st; exact le_refl _
  | cons x xs ih =>
      intro st
      exact le_trans (tryStep_placed_mono panelWidth panelHeight minWasteSize pg idx st x)
        (ih (tryStep panelWidth panelHeight minWasteSize pg idx st x))

theorem tryPlaceInExistingPanel_placed_ge (panelWidth panelHeight : Int)
    (existing : List PlacedRectangle) (pieces : List Piece) (idx : Nat)
    (minWasteSize : Int) (pg : Bool) :
    existing.length ≤ (tryPlaceInExistingPanel panelWidth panelHeight existing pieces idx
      minWasteSize pg).placed.length := by
  unfold tryPlaceInExistingPanel
  exact foldl_tryStep_placed_mono panelWidth panelHeight minWasteSize pg idx pieces
    ⟨_, existing, [], _, _⟩

theorem optimizeLoop_dropLast (panelWidth panelHeight minWasteSize : Int) (pg : Bool) :
    ∀ (fuel : Nat) (panels : List Panel) (remaining : List Piece) (panelIndex : Nat),
      (∀ panel ∈ panels, panel.placed ≠ []) →
      ∀ panel ∈ (optimizeLoop panelWidth panelHeight minWasteSize pg fuel panels remaining
          panelIndex).1.dropLast, panel.placed ≠ [] := by
  intro fuel
  induction fuel with
  | zero =>
      intro panels remaining panelIndex hP panel hpanel
      exact hP panel (List.dropLast_subset panels hpanel)
  | succ n ih =>
      intro panels remaining panelIndex hP
      unfold optimizeLoop
      by_cases hemp : remaining.isEmpty
      · simp only [hemp, if_true]
        intro panel hpanel
        exact hP panel (List.dropLast_subset panels hpanel)
      · simp only [hemp, Bool.false_eq_true, if_false]
        have hbl := backfillLoop_preserve panelWidth panelHeight minWasteSize pg
          (fun panel => panel.placed ≠ []) (fun _ => True)
          (fun panel rem idx hPp _ => by
            intro hcontra
            have hc2 : (tryPlaceInExistingPanel panelWidth panelHeight panel.placed rem idx
                minWasteSize pg).placed = [] := hcontra
            have hge := tryPlaceInExistingPanel_placed_ge panelWidth panelHeight panel.placed
              rem idx minWasteSize pg
            rw [hc2] at hge
            simp only [List.length_nil, Nat.le_zero, List.length_eq_zero] at hge
            exact hPp hge)
          (remaining.length + 1) panels remaining false hP (fun _ _ => trivial)
        rcases hbf : backfillLoop panelWidth panelHeight minWasteSize pg
            (remaining.length + 1) panels remaining false with ⟨panels2, remaining2, placedAny⟩
        rw [hbf] at hbl
        have hP2 := hbl.1
        simp only
        by_cases hcond : !placedAny && !remaining2.isEmpty
        · simp only [hcond, if_true]
          by_cases hempty : (optimizeSinglePanel panelWidth panelHeight remaining2 panelIndex
              minWasteSize pg).placed.isEmpty
          · simp only [hempty, if_true]
            intro panel hpanel
            rw [List.dropLast_concat] at hpanel
            exact hP2 panel hpanel
          · simp only [hempty, Bool.false_eq_true, if_false]
            have hP3 : ∀ panel ∈ panels2 ++
                [(⟨(optimizeSinglePanel panelWidth panelHeight remaining2 panelIndex
                    minWasteSize pg).placed,
                  (optimizeSinglePanel panelWidth panelHeight remaining2 panelIndex
                    minWasteSize pg).freeRects, panelIndex⟩ : Panel)], panel.placed ≠ [] := by
              intro panel hpanel
              rcases List.mem_append.1 hpanel with hpanel | hpanel
              · exact hP2 panel hpanel
              · simp only [List.mem_singleton] at hpanel
                subst hpanel
                simp only [List.isEmpty_eq_true] at hempty
                exact hempty
            by_cases hcap : 1000 < panelIndex + 1
            · simp only [hcap, if_true]
              intro panel hpanel
              exact hP3 panel (List.dropLast_subset _ hpanel)
            · simp only [hcap, if_false]
              by_cases hdead : (optimizeSinglePanel panelWidth panelHeight remaining2
                  panelIndex minWasteSize pg).remaining.length = remaining.length ∧
                  0 < (optimizeSinglePanel panelWidth panelHeight remaining2 panelIndex
                    minWasteSize pg).remaining.length
              · rw [if_pos hdead]
                by_cases htest : (optimizeSinglePanel panelWidth panelHeight
                    (optimizeSinglePanel panelWidth panelHeight remaining2 panelIndex
                      minWasteSize pg).remaining 0 minWasteSize pg).placed.isEmpty
                · simp only [htest, if_true]
                  intro panel hpanel
                  exact hP3 panel (List.dropLast_subset _ hpanel)
                · simp only [htest, Bool.false_eq_true, if_false]
                  exact ih _ _ _ hP3
              · rw [if_neg hdead]
                exact ih _ _ _ hP3
        · simp only [hcond, Bool.false_eq_true, if_false]
          by_cases hdead : remaining2.length = remaining.length ∧ 0 < remaining2.length
          · rw [if_pos hdead]
            by_cases htest : (optimizeSinglePanel panelWidth panelHeight remaining2 0
                minWasteSize pg).placed.isEmpty
            · simp only [htest, if_true]
              intro panel hpanel
              exact hP2 panel (List.dropLast_subset _ hpanel)
            · simp only [htest, Bool.false_eq_true, if_false]
              exact ih _ _ _ hP2
          · rw [if_neg hdead]
            exact ih _ _ _ hP2

/-! ### The all-pieces-unfittable run -/

theorem findBestFit_noFit (panelWidth panelHeight w h : Int)
    (hnofit : ¬(w ≤ panelWidth ∧ h ≤ panelHeight)) :
    findBestFit [⟨0, 0, panelWidth, panelHeight⟩] w h = none := by
  unfold findBestFit
  simp only [List.foldl_cons, List.foldl_nil, bestFitStep]
  have hc : Rectangle.canContain ⟨0, 0, panelWidth, panelHeight⟩ w h = false := by
    rw [Bool.eq_false_iff]
    intro hcc
    exact hnofit ((canContain_iff _ w h).1 hcc)
  rw [hc]
  simp

theorem findBestFitPoignet_noFit (frees : List Rectangle)
    (panelWidth panelHeight w h tX bX : Int)
    (hnofit : ¬(w ≤ panelWidth ∧ h ≤ panelHeight)) :
    findBestFitPoignet frees w h panelHeight tX bX panelWidth = none := by
  unfold findBestFitPoignet
  have hor : panelWidth < w ∨ panelHeight < h := by omega
  by_cases h1 : panelHeight < h
  · rw [if_pos (by simpa using h1)]
  · rw [if_neg (by simpa using h1)]
    have h2 : panelWidth < w := by omega
    rw [if_pos (by simpa using h2)]

theorem attemptPlacement_noFit (panelWidth panelHeight : Int) (pg : Bool) (idx : Nat)
    (tX bX : Int) (piece : Piece)
    (h1 : ¬(piece.width ≤ panelWidth ∧ piece.height ≤ panelHeight))
    (h2 : piece.rotationAllowed = true →
      ¬(piece.height ≤ panelWidth ∧ piece.width ≤ panelHeight)) :
    attemptPlacement panelWidth panelHeight pg idx [⟨0, 0, panelWidth, panelHeight⟩]
      tX bX piece = none := by
  unfold attemptPlacement
  have hO : (if pg = true then
      findBestFitPoignet [⟨0, 0, panelWidth, panelHeight⟩] piece.width piece.height
        panelHeight tX bX panelWidth
    else findBestFit [⟨0, 0, panelWidth, panelHeight⟩] piece.width piece.height) = none := by
    cases pg with
    | true =>
        simp only [if_true]
        exact findBestFitPoignet_noFit _ panelWidth panelHeight piece.width piece.height
          tX bX h1
    | false =>
        simp only [Bool.false_eq_true, if_false]
        exact findBestFit_noFit panelWidth panelHeight piece.width piece.height h1
  have hR : (if piece.rotationAllowed = true then
      if pg = true then
        findBestFitPoignet [⟨0, 0, panelWidth, panelHeight⟩] piece.height piece.width
          panelHeight tX bX panelWidth
      else findBestFit [⟨0, 0, panelWidth, panelHeight⟩] piece.height piece.width
    else none) = none := by
    cases hrot : piece.rotationAllowed with
    | false => simp
    | true =>
        simp only [if_true]
        cases pg with
        | true =>
            simp only [if_true]
            exact findBestFitPoignet_noFit _ panelWidth panelHeight piece.height piece.width
              tX bX (h2 hrot)
        | false =>
            simp only [Bool.false_eq_true, if_false]
            exact findBestFit_noFit panelWidth panelHeight piece.height piece.width (h2 hrot)
  rw [hO, hR]
  rfl

theorem foldl_singlePanelStep_noFit (panelWidth panelHeight minWasteSize : Int) (pg : Bool)
    (idx : Nat) :
    ∀ (l : List Piece) (st : PanelState),
      st.freeRects = [⟨0, 0, panelWidth, panelHeight⟩] →
      (∀ p ∈ l, ¬(p.width ≤ panelWidth ∧ p.height ≤ panelHeight) ∧
        (p.rotationAllowed = true →
          ¬(p.height ≤ panelWidth ∧ p.width ≤ panelHeight))) →
      l.foldl (singlePanelStep panelWidth panelHeight minWasteSize pg idx) st =
        { st with remaining := st.remaining ++ l } := by
  intro l
  induction l with
  | nil => intro st hfr _; simp
  | cons x xs ih =>
      intro st hfr hnf
      rw [List.foldl_cons]
      have hstep : singlePanelStep panelWidth panelHeight minWasteSize pg idx st x =
          { st with remaining := st.remaining ++ [x] } := by
        unfold singlePanelStep
        rw [hfr, attemptPlacement_noFit panelWidth panelHeight pg idx st.topRowX
          st.bottomRowX x (hnf x (by simp)).1 (hnf x (by simp)).2]
      rw [hstep, ih { st with remaining := st.remaining ++ [x] } hfr
        (fun p hp => hnf p (by simp [hp]))]
      simp

theorem optimizeSinglePanel_noFit (panelWidth panelHeight : Int) (pieces : List Piece)
    (idx : Nat) (minWasteSize : Int) (pg : Bool)
    (hnf : ∀ p ∈ pieces, ¬(p.width ≤ panelWidth ∧ p.height ≤ panelHeight) ∧
      (p.rotationAllowed = true →
        ¬(p.height ≤ panelWidth ∧ p.width ≤ panelHeight))) :
    optimizeSinglePanel panelWidth panelHeight pieces idx minWasteSize pg =
      ⟨[⟨0, 0, panelWidth, panelHeight⟩], [], pieces, 0, 0⟩ := by
  unfold optimizeSinglePanel
  rw [foldl_singlePanelStep_noFit panelWidth panelHeight minWasteSize pg idx pieces _ rfl hnf]
  rfl

theorem backfillLoop_nilPanels (panelWidth panelHeight minWasteSize : Int) (pg : Bool)
    (fuel : Nat) (remaining : List Piece) (flag : Bool) :
    backfillLoop panelWidth panelHeight minWasteSize pg fuel [] remaining flag =
      ([], remaining, flag) := by
  cases fuel with
  | zero => rfl
  | succ n => simp [backfillLoop]

theorem optimizeLoop_noFit (panelWidth panelHeight minWasteSize : Int) (pg : Bool)
    (fuel : Nat) (pieces : List Piece) (hne : pieces ≠ []) (hfuel : 0 < fuel)
    (hnf : ∀ p ∈ pieces, ¬(p.width ≤ panelWidth ∧ p.height ≤ panelHeight) ∧
      (p.rotationAllowed = true →
        ¬(p.height ≤ panelWidth ∧ p.width ≤ panelHeight))) :
    optimizeLoop panelWidth panelHeight minWasteSize pg fuel [] pieces 0 =
      ([⟨[], [⟨0, 0, panelWidth, panelHeight⟩], 0⟩], pieces) := by
  cases fuel with
  | zero => omega
  | succ n =>
      unfold optimizeLoop
      have hemp : pieces.isEmpty = false := by
        rw [List.isEmpty_eq_false]
        exact hne
      simp only [hemp, Bool.false_eq_true, if_false]
      rw [backfillLoop_nilPanels]
      simp only [Bool.not_false, Bool.true_and, hemp, if_true]
      rw [optimizeSinglePanel_noFit panelWidth panelHeight pieces 0 minWasteSize pg hnf]
      rfl

/-- Claim C1 (amended): a newly opened panel that places zero pieces IS
appended before the driver breaks, so at most the final panel of the result has
an empty `placed` list; in particular, when no piece fits the panel in any
allowed orientation, `panels` holds exactly one empty panel and
`stats.panelCount` is 1 (not 0), with every expanded piece rejected. -/
theorem claim_C1_amended (panelWidth panelHeight : Int) (pieces : List PieceType)
    (minWasteSize : Int) (poignetEnabled : Bool) :
    (∀ panel ∈ (optimize panelWidth panelHeight pieces minWasteSize
        poignetEnabled).panels.dropLast, panel.placed ≠ []) ∧
    (0 < panelWidth → 0 < panelHeight → expandPieces pieces ≠ [] →
      (∀ pt ∈ pieces, ¬(pt.width ≤ panelWidth ∧ pt.height ≤ panelHeight) ∧
        (pt.rotationAllowed = true →
          ¬(pt.height ≤ panelWidth ∧ pt.width ≤ panelHeight))) →
      (optimize panelWidth panelHeight pieces minWasteSize poignetEnabled).panels =
        [⟨[], [⟨0, 0, panelWidth, panelHeight⟩], 0⟩] ∧
      (optimize panelWidth panelHeight pieces minWasteSize
        poignetEnabled).stats.panelCount = 1 ∧
      (optimize panelWidth panelHeight pieces minWasteSize poignetEnabled).rejected =
        sortPiecesByArea (expandPieces pieces)) := by
  constructor
  · by_cases hvalid : panelWidth ≤ 0 ∨ panelHeight ≤ 0
    · rw [optimize_invalid panelWidth panelHeight pieces minWasteSize poignetEnabled hvalid]
      intro panel hpanel
      cases hpanel
    · push_neg at hvalid
      obtain ⟨hpanels, _, _⟩ := optimize_valid_destruct panelWidth panelHeight pieces
        minWasteSize poignetEnabled hvalid.1 hvalid.2
      rw [hpanels]
      exact optimizeLoop_dropLast panelWidth panelHeight minWasteSize poignetEnabled
        _ [] _ 0 (fun panel hpanel => by cases hpanel)
  · intro hW hH hne hnf
    obtain ⟨hpanels, hrejected, hcount⟩ := optimize_valid_destruct panelWidth panelHeight
      pieces minWasteSize poignetEnabled hW hH
    have hsne : sortPiecesByArea (expandPieces pieces) ≠ [] := by
      intro hcontra
      have := sortPiecesByArea_length (expandPieces pieces)
      rw [hcontra] at this
      simp only [List.length_nil] at this
      exact hne (List.length_eq_zero.1 this.symm)
    have hsnf : ∀ p ∈ sortPiecesByArea (expandPieces pieces),
        ¬(p.width ≤ panelWidth ∧ p.height ≤ panelHeight) ∧
        (p.rotationAllowed = true →
          ¬(p.height ≤ panelWidth ∧ p.width ≤ panelHeight)) := by
      intro p hp
      obtain ⟨pt, hpt, hw, hh, hr⟩ :=
        expandPieces_mem pieces p (sortPiecesByArea_mem _ p hp)
      rw [hw, hh, hr]
      exact hnf pt hpt
    have hloop := optimizeLoop_noFit panelWidth panelHeight minWasteSize poignetEnabled
      ((sortPiecesByArea (expandPieces pieces)).length + 2)
      (sortPiecesByArea (expandPieces pieces)) hsne (by omega) hsnf
    rw [hpanels, hrejected, hcount, hloop]
    exact ⟨rfl, rfl, rfl⟩

theorem claim_C1_witness :
    ((0 : Int) < 100 ∧ (0 : Int) < 300 ∧
      expandPieces [(⟨1, 200, 50, 1, false⟩ : PieceType)] ≠ [] ∧
      (∀ pt ∈ [(⟨1, 200, 50, 1, false⟩ : PieceType)],
        ¬(pt.width ≤ (100 : Int) ∧ pt.height ≤ (300 : Int)) ∧
        (pt.rotationAllowed = true →
          ¬(pt.height ≤ (100 : Int) ∧ pt.width ≤ (300 : Int))))) ∧
    ((optimize 100 300 [⟨1, 200, 50, 1, false⟩] 100 false).panels =
      [⟨[], [⟨0, 0, 100, 300⟩], 0⟩] ∧
     (optimize 100 300 [⟨1, 200, 50, 1, false⟩] 100 false).stats.panelCount = 1 ∧
     (optimize 100 300 [⟨1, 200, 50, 1, false⟩] 100 false).rejected =
       sortPiecesByArea (expandPieces [⟨1, 200, 50, 1, false⟩])) :=
  ⟨⟨by decide, by decide, by decide, by decide⟩,
   (claim_C1_amended 100 300 [⟨1, 200, 50, 1, false⟩] 100 false).2
     (by decide) (by decide) (by decide) (by decide)⟩

/-! ### Exact characterization of splitRectangle -/

theorem if_decide_and_or {α : Type} (a b c d : Prop) [Decidable a] [Decidable b]
    [Decidable c] [Decidable d] (X Y : α) :
    (if decide a && decide b && (decide c || decide d) then X else Y) =
      if a ∧ b ∧ (c ∨ d) then X else Y := by
  by_cases ha : a <;> by_cases hb : b <;> by_cases hc : c <;> by_cases hd : d <;>
    simp [ha, hb, hc, hd]

/-- Claim C6 (amended): `splitRectangle` returns exactly, in this order, the
right strip, the bottom strip and the bottom-left corner, but each strip is
emitted only when, besides its claimed dimension being positive, its companion
dimension is positive AND at least one of its two dimensions reaches
`minWasteSize` — membership is NOT conditioned only on the claimed dimensions
being positive. -/
theorem claim_C6_amended (freeRect : Rectangle)
    (placedX placedY placedWidth placedHeight minWasteSize : Int) :
    splitRectangle freeRect placedX placedY placedWidth placedHeight minWasteSize =
      (if 0 < freeRect.x + freeRect.width - (placedX + placedWidth) ∧
          0 < freeRect.height ∧
          (minWasteSize ≤ freeRect.x + freeRect.width - (placedX + placedWidth) ∨
            minWasteSize ≤ freeRect.height) then
        [⟨placedX + placedWidth, freeRect.y,
          freeRect.x + freeRect.width - (placedX + placedWidth), freeRect.height⟩]
      else []) ++
      (if 0 < freeRect.y + freeRect.height - (placedY + placedHeight) ∧
          0 < placedWidth ∧
          (minWasteSize ≤ placedWidth ∨
            minWasteSize ≤ freeRect.y + freeRect.height - (placedY + placedHeight)) then
        [⟨placedX, placedY + placedHeight, placedWidth,
          freeRect.y + freeRect.height - (placedY + placedHeight)⟩]
      else []) ++
      (if 0 < placedX - freeRect.x ∧
          0 < freeRect.y + freeRect.height - (placedY + placedHeight) ∧
          (minWasteSize ≤ placedX - freeRect.x ∨
            minWasteSize ≤ freeRect.y + freeRect.height - (placedY + placedHeight)) then
        [⟨freeRect.x, placedY + placedHeight, placedX - freeRect.x,
          freeRect.y + freeRect.height - (placedY + placedHeight)⟩]
      else []) := by
  simp only [splitRectangle]
  rw [if_decide_and_or, if_decide_and_or, if_decide_and_or]

/-- Claim C6 counterexample: splitting a 150×50 free rectangle around a 100×50
placed piece with `minWasteSize = 100` leaves a right strip of positive width
50, yet the output omits it (and is in fact empty), because neither of the
strip's dimensions reaches `minWasteSize`. -/
theorem claim_C6_counterexample :
    0 < (0 : Int) + 150 - (0 + 100) ∧
    (⟨0 + 100, 0, 0 + 150 - (0 + 100), 50⟩ : Rectangle) ∉
      splitRectangle ⟨0, 0, 150, 50⟩ 0 0 100 50 100 := by
  decide

/-! ### Weighted-score chooser versus lexicographic chooser -/

theorem findBestFitLex_eq_foldl (freeRects : List Rectangle) (width height : Int) :
    findBestFitLex freeRects width height =
      freeRects.foldl (lexStep width height) none := rfl

theorem positionScore_lt_iff_lexLess (r s : Rectangle) (width height : Int)
    (hr : 0 ≤ r.x ∧ r.x < 1000 ∧ 0 ≤ r.getArea - width * height ∧
      r.getArea - width * height < 100000)
    (hs : 0 ≤ s.x ∧ s.x < 1000 ∧ 0 ≤ s.getArea - width * height ∧
      s.getArea - width * height < 100000) :
    positionScore r width height < positionScore s width height ↔
      lexLess (lexKey r width height) (lexKey s width height) = true := by
  simp only [positionScore, lexKey, lexLess, Bool.or_eq_true, Bool.and_eq_true,
    decide_eq_true_eq]
  omega

theorem foldl_bestFit_lex_agree (width height : Int) :
    ∀ (l : List Rectangle),
      (∀ r ∈ l, r.canContain width height = true →
        0 ≤ r.x ∧ r.x < 1000 ∧ 0 ≤ r.getArea - width * height ∧
          r.getArea - width * height < 100000) →
      ∀ (b : Option Fit),
        (∀ f, b = some f → f.score = positionScore f.rect width height ∧
          0 ≤ f.rect.x ∧ f.rect.x < 1000 ∧ 0 ≤ f.rect.getArea - width * height ∧
          f.rect.getArea - width * height < 100000) →
        (l.foldl (bestFitStep width height) b).map (fun f => f.rect) =
          l.foldl (lexStep width height) (b.map (fun f => f.rect)) := by
  intro l
  induction l with
  | nil => intro _ b _; rfl
  | cons r rest ih =>
      intro hbnd b hb
      rw [List.foldl_cons, List.foldl_cons]
      by_cases hfit : r.canContain width height = true
      · have hrB := hbnd r (by simp) hfit
        have hstep : bestFitStep width height b r =
            better ⟨r, positionScore r width height, none, none⟩ b := by
          unfold bestFitStep
          rw [hfit]
          simp
        rw [hstep]
        cases b with
        | none =>
            simp only [Option.map_none']
            have hlex : lexStep width height none r = some r := by
              unfold lexStep
              rw [hfit]
              simp
            rw [hlex]
            exact ih (fun q hq => hbnd q (by simp [hq])) (some ⟨r, positionScore r width
              height, none, none⟩) (fun f hf => by
                simp only [Option.some.injEq] at hf
                subst hf
                exact ⟨rfl, hrB⟩)
        | some f =>
            have hfB := hb f rfl
            simp only [Option.map_some']
            have hlex : lexStep width height (some f.rect) r =
                if lexLess (lexKey r width height) (lexKey f.rect width height) then
                  some r
                else some f.rect := by
              unfold lexStep
              rw [hfit]
              simp
            rw [hlex]
            by_cases hlt : positionScore r width height < f.score
            · have hless : lexLess (lexKey r width height)
                  (lexKey f.rect width height) = true := by
                rw [← positionScore_lt_iff_lexLess r f.rect width height hrB hfB.2]
                rw [← hfB.1]
                exact hlt
              have hbet : better ⟨r, positionScore r width height, none, none⟩ (some f) =
                  some ⟨r, positionScore r width height, none, none⟩ := by
                show (if positionScore r width height < f.score then
                    some (⟨r, positionScore r width height, none, none⟩ : Fit)
                  else some f) = some ⟨r, positionScore r width height, none, none⟩
                rw [if_pos hlt]
              rw [hbet, hless]
              simp only [if_true]
              exact ih (fun q hq => hbnd q (by simp [hq]))
                (some ⟨r, positionScore r width height, none, none⟩)
                (fun g hg => by
                  simp only [Option.some.injEq] at hg
                  subst hg
                  exact ⟨rfl, hrB⟩)
            · have hless : lexLess (lexKey r width height)
                  (lexKey f.rect width height) = false := by
                rw [Bool.eq_false_iff]
                intro hcontra
                exact hlt (by
                  rw [hfB.1]
                  exact (positionScore_lt_iff_lexLess r f.rect width height hrB
                    hfB.2).2 hcontra)
              have hbet : better ⟨r, positionScore r width height, none, none⟩ (some f) =
                  some f := by
                show (if positionScore r width height < f.score then
                    some (⟨r, positionScore r width height, none, none⟩ : Fit)
                  else some f) = some f
                rw [if_neg hlt]
              rw [hbet, hless]
              simp only [Bool.false_eq_true, if_false]
              exact ih (fun q hq => hbnd q (by simp [hq])) (some f) (fun g hg => by
                simp only [Option.some.injEq] at hg
                subst hg
                exact hfB)
      · have hstep : bestFitStep width height b r = b := by
          unfold bestFitStep
          rw [Bool.eq_false_iff.2 hfit]
          simp
        have hlex : lexStep width height (Option.map (fun f => f.rect) b) r =
            Option.map (fun f => f.rect) b := by
          unfold lexStep
          rw [Bool.eq_false_iff.2 hfit]
          simp
        rw [hstep, hlex]
        exact ih (fun q hq => hbnd q (by simp [hq])) b hb

/-- Claim C5 (amended): the weighted-scalar chooser of `findBestFit` and the
literal lexicographic chooser agree whenever, for every fitting free
rectangle, the x coordinate lies in [0, 1000) and the leftover area lies in
[0, 100000) — i.e. when no place-value column of the weighted score
`y*100000 + x*100 + leftover/1000` overflows into the next. Without these
bounds the two choosers genuinely diverge. -/
theorem claim_C5_amended (freeRects : List Rectangle) (width height : Int)
    (hbnd : ∀ r ∈ freeRects, r.canContain width height = true →
      0 ≤ r.x ∧ r.x < 1000 ∧ 0 ≤ r.getArea - width * height ∧
        r.getArea - width * height < 100000) :
    (findBestFit freeRects width height).map (fun f => f.rect) =
      findBestFitLex freeRects width height := by
  rw [findBestFitLex_eq_foldl]
  exact foldl_bestFit_lex_agree width height freeRects hbnd none
    (fun f hf => by cases hf)

theorem claim_C5_witness :
    (∀ r ∈ [(⟨0, 0, 100, 300⟩ : Rectangle), ⟨50, 0, 200, 100⟩],
      r.canContain 100 100 = true →
      0 ≤ r.x ∧ r.x < 1000 ∧ 0 ≤ r.getArea - 100 * 100 ∧
        r.getArea - 100 * 100 < 100000) ∧
    (findBestFit [(⟨0, 0, 100, 300⟩ : Rectangle), ⟨50, 0, 200, 100⟩] 100 100).map
        (fun f => f.rect) =
      findBestFitLex [(⟨0, 0, 100, 300⟩ : Rectangle), ⟨50, 0, 200, 100⟩] 100 100 :=
  ⟨by decide, claim_C5_amended [⟨0, 0, 100, 300⟩, ⟨50, 0, 200, 100⟩] 100 100 (by decide)⟩

/-- Claim C5 counterexample: for a 100×300 piece and free rectangles
`[(0,0,1000×300), (1,0,100×300)]` the weighted score prefers the second
rectangle (leftover dominates: 270000 vs 100000) while the lexicographic
order prefers the first (smaller x at equal y); the two choosers disagree. -/
theorem claim_C5_counterexample :
    (findBestFit [(⟨0, 0, 1000, 300⟩ : Rectangle), ⟨1, 0, 100, 300⟩] 100 300).map
        (fun f => f.rect) ≠
      findBestFitLex [(⟨0, 0, 1000, 300⟩ : Rectangle), ⟨1, 0, 100, 300⟩] 100 300 := by
  decide

/-! ### The free-mode chooser: first minimiser, rotation tie-break, placement -/

theorem scoreQ_lt_iff_gen (r s : Rectangle) (w1 h1 w2 h2 : Int) :
    scoreQ r w1 h1 < scoreQ s w2 h2 ↔
      positionScore r w1 h1 < positionScore s w2 h2 := by
  rw [scoreQ_eq_scaled, scoreQ_eq_scaled, div_lt_div_iff_of_pos_right (by norm_num)]
  exact_mod_cast Iff.rfl

/-- Claim C4: in free mode the chooser fails exactly when no free rectangle
can contain the oriented piece; a successful choice is the first (in
collection order) minimiser of the score `y*100000 + x*100 + leftover/1000`
among the containing rectangles; when both orientations fit, the rotated one
wins only on strictly lower score (equal scores keep the non-rotated
orientation); and the piece is placed at the chosen rectangle's (x, y). -/
theorem claim_C4 (freeRects : List Rectangle) (pw ph : Int) :
    ((findBestFit freeRects pw ph = none ↔
        ∀ r ∈ freeRects, ¬(pw ≤ r.width ∧ ph ≤ r.height)) ∧
     (∀ fit, findBestFit freeRects pw ph = some fit →
        (pw ≤ fit.rect.width ∧ ph ≤ fit.rect.height) ∧
        ∃ l1 l2, freeRects = l1 ++ fit.rect :: l2 ∧
          (∀ r ∈ l1, pw ≤ r.width ∧ ph ≤ r.height →
            scoreQ fit.rect pw ph < scoreQ r pw ph) ∧
          (∀ r ∈ l2, pw ≤ r.width ∧ ph ≤ r.height →
            scoreQ fit.rect pw ph ≤ scoreQ r pw ph))) ∧
    (∀ o r, findBestFit freeRects pw ph = some o →
      findBestFit freeRects ph pw = some r →
      (scoreQ r.rect ph pw < scoreQ o.rect pw ph →
        chooseFit (findBestFit freeRects pw ph) (findBestFit freeRects ph pw) =
          some (r, true)) ∧
      (scoreQ o.rect pw ph ≤ scoreQ r.rect ph pw →
        chooseFit (findBestFit freeRects pw ph) (findBestFit freeRects ph pw) =
          some (o, false))) ∧
    (∀ (panelWidth panelHeight : Int) (idx : Nat) (tX bX : Int) (piece : Piece)
        (pr : PlacedRectangle) (used : Rectangle) (t2 b2 : Int),
      attemptPlacement panelWidth panelHeight false idx freeRects tX bX piece =
        some (pr, used, t2, b2) →
      ∃ f rot, chooseFit (findBestFit freeRects piece.width piece.height)
          (if piece.rotationAllowed = true then
            findBestFit freeRects piece.height piece.width
          else none) = some (f, rot) ∧
        pr.x = f.rect.x ∧ pr.y = f.rect.y ∧ used = f.rect) := by
  refine ⟨⟨?_, ?_⟩, ?_, ?_⟩
  · constructor
    · intro hnone r hr hfit
      have := findBestFit_none freeRects pw ph hnone r hr
      rw [(canContain_iff r pw ph).2 hfit] at this
      cases this
    · intro hall
      cases hfb : findBestFit freeRects pw ph with
      | none => rfl
      | some fit =>
          obtain ⟨hmem, hfits⟩ := findBestFit_mem freeRects pw ph fit hfb
          exact absurd ((canContain_iff _ pw ph).1 hfits) (hall fit.rect hmem)
  · intro fit hsome
    obtain ⟨_, _, _, hfits, l1, l2, hpre, hl1, hl2⟩ :=
      findBestFit_some freeRects pw ph fit hsome
    refine ⟨(canContain_iff _ pw ph).1 hfits, l1, l2, hpre, ?_, ?_⟩
    · intro r hr hrfit
      rw [scoreQ_lt_iff]
      exact hl1 r hr ((canContain_iff r pw ph).2 hrfit)
    · intro r hr hrfit
      have := hl2 r hr ((canContain_iff r pw ph).2 hrfit)
      rw [← not_lt] at this ⊢
      intro hcontra
      exact this ((scoreQ_lt_iff r fit.rect pw ph).1 hcontra)
  · intro o r ho hr
    have hoS := (findBestFit_some freeRects pw ph o ho).2.2.1
    have hrS := (findBestFit_some freeRects ph pw r hr).2.2.1
    constructor
    · intro hltQ
      have hlt : r.score < o.score := by
        rw [hoS, hrS]
        exact (scoreQ_lt_iff_gen r.rect o.rect ph pw pw ph).1 hltQ
      rw [ho, hr]
      show (if r.score < o.score then some (r, true) else some (o, false)) =
        some (r, true)
      rw [if_pos hlt]
    · intro hleQ
      have hnlt : ¬ r.score < o.score := by
        rw [hoS, hrS]
        intro hcontra
        rw [← not_lt] at hleQ
        exact hleQ ((scoreQ_lt_iff_gen r.rect o.rect ph pw pw ph).2 hcontra)
      rw [ho, hr]
      show (if r.score < o.score then some (r, true) else some (o, false)) =
        some (o, false)
      rw [if_neg hnlt]
  · intro panelWidth panelHeight idx tX bX piece pr used t2 b2 hatt
    unfold attemptPlacement at hatt
    simp only [Bool.false_eq_true, if_false] at hatt
    cases hch : chooseFit (findBestFit freeRects piece.width piece.height)
        (if piece.rotationAllowed = true then
          findBestFit freeRects piece.height piece.width
        else none) with
    | none => rw [hch] at hatt; cases hatt
    | some fr =>
        rcases fr with ⟨f, rot⟩
        rw [hch] at hatt
        have hsrc : f.sourceRect = none := by
          rcases chooseFit_cases _ _ f rot hch with ⟨_, hO⟩ | ⟨_, hR⟩
          · exact (findBestFit_some freeRects piece.width piece.height f hO).2.1
          · cases hrot : piece.rotationAllowed with
            | false => rw [hrot] at hR; simp at hR
            | true =>
                rw [hrot] at hR
                simp only [if_true] at hR
                exact (findBestFit_some freeRects piece.height piece.width f hR).2.1
        simp only [Option.some.injEq, Prod.mk.injEq] at hatt
        obtain ⟨hpr, hused, _, _⟩ := hatt
        refine ⟨f, rot, rfl, ?_, ?_, ?_⟩
        · rw [← hpr]
        · rw [← hpr]
        · rw [← hused, hsrc]
          rfl

theorem claim_C4_witness :
    findBestFit [(⟨0, 0, 1000, 300⟩ : Rectangle), ⟨1, 0, 100, 300⟩] 100 300 =
      some ⟨⟨1, 0, 100, 300⟩, 100000, none, none⟩ ∧
    (((100 : Int) ≤ (⟨1, 0, 100, 300⟩ : Rectangle).width ∧
      (300 : Int) ≤ (⟨1, 0, 100, 300⟩ : Rectangle).height) ∧
     ∃ l1 l2, [(⟨0, 0, 1000, 300⟩ : Rectangle), ⟨1, 0, 100, 300⟩] =
        l1 ++ (⟨1, 0, 100, 300⟩ : Rectangle) :: l2 ∧
      (∀ r ∈ l1, (100 : Int) ≤ r.width ∧ (300 : Int) ≤ r.height →
        scoreQ ⟨1, 0, 100, 300⟩ 100 300 < scoreQ r 100 300) ∧
      (∀ r ∈ l2, (100 : Int) ≤ r.width ∧ (300 : Int) ≤ r.height →
        scoreQ ⟨1, 0, 100, 300⟩ 100 300 ≤ scoreQ r 100 300)) :=
  ⟨by decide,
   (claim_C4 [⟨0, 0, 1000, 300⟩, ⟨1, 0, 100, 300⟩] 100 300).1.2
     ⟨⟨1, 0, 100, 300⟩, 100000, none, none⟩ (by decide)⟩

/-- Claim C2 (amended): only the panel dimensions are validated: any
invocation with a non-positive panel dimension returns the empty result
(`panels = []`, `rejected = []`, `panelCount = 0`, `wastePercentage = 100`, no
exception signalled). A non-positive piece dimension is NOT validated: such
pieces flow into the placement loop (see the counterexample, which places a
zero-width piece and reports `panelCount = 1`). -/
theorem claim_C2_amended (panelWidth panelHeight : Int) (pieces : List PieceType)
    (minWasteSize : Int) (pg : Bool) (h : panelWidth ≤ 0 ∨ panelHeight ≤ 0) :
    (optimize panelWidth panelHeight pieces minWasteSize pg).panels = [] ∧
    (optimize panelWidth panelHeight pieces minWasteSize pg).rejected = [] ∧
    (optimize panelWidth panelHeight pieces minWasteSize pg).stats.panelCount = 0 ∧
    (optimize panelWidth panelHeight pieces minWasteSize pg).stats.wastePercentage
      = 100 := by
  rw [optimize_invalid panelWidth panelHeight pieces minWasteSize pg h]
  exact ⟨rfl, rfl, rfl, rfl⟩

theorem claim_C2_witness :
    ((0 : Int) ≤ 0 ∨ (1000 : Int) ≤ 0) ∧
    ((optimize 0 1000 [⟨1, 200, 100, 1, false⟩] 100 false).panels = [] ∧
     (optimize 0 1000 [⟨1, 200, 100, 1, false⟩] 100 false).rejected = [] ∧
     (optimize 0 1000 [⟨1, 200, 100, 1, false⟩] 100 false).stats.panelCount = 0 ∧
     (optimize 0 1000 [⟨1, 200, 100, 1, false⟩] 100 false).stats.wastePercentage
       = 100) :=
  ⟨Or.inl (by decide),
   claim_C2_amended 0 1000 [⟨1, 200, 100, 1, false⟩] 100 false (Or.inl (by decide))⟩

/-- Claim C2 counterexample: a zero-width piece type passes validation
untouched: with positive panel dimensions the result is not the empty result —
the zero-width piece is even placed — and `panelCount` is 1, not 0. -/
theorem claim_C2_counterexample :
    (⟨1, 0, 50, 1, false⟩ : PieceType).width ≤ 0 ∧
    (optimize 1000 1000 [⟨1, 0, 50, 1, false⟩] 100 false).stats.panelCount ≠ 0 := by
  decide

/-- Claim C1 counterexample: with a 100×300 panel and a single non-rotatable
200×50 piece nothing fits, yet the code appends the freshly opened empty panel
before breaking: the result has a panel with an empty `placed` list and
`stats.panelCount = 1`, contradicting both parts of the claim. -/
theorem claim_C1_counterexample :
    ¬((∀ panel ∈ (optimize 100 300 [⟨1, 200, 50, 1, false⟩] 100 false).panels,
        panel.placed ≠ []) ∧
      (optimize 100 300 [⟨1, 200, 50, 1, false⟩] 100 false).stats.panelCount = 0) := by
  decide

end Cutting
